import Mathlib

/-!
The kafka-consumer-go library: primary consumer, database retry repository,
stage worker and start of the collections

A shallow embedding of `consumer.go` (the claim loop of the primary consumer),
of `data/retry/internal/repository.go` (the SQL surface of the retry table),
of `kafka_consumer_db_collection.go` (the stage worker and the start of the
database backend) and of `kafka_consumer_collection.go` (the start of the Kafka
backend), with the properties of the specification stated over them.

Conventions of the embedding:

* instants are nanoseconds since the Unix epoch, durations are nanoseconds;
* the effects of the claim loop (sleeping, invoking a handler, sending on the
  failure channel, marking a message) are recorded, in order, in a trace that
  is threaded through the code together with the clock;
* the retry table is the list of its rows, in the order the store scans them;
* a goroutine that `start` launches is recorded as a launched task, and the
  calls of the stage worker on its retry manager are recorded in order;
* the `time` package is a parameter of the consumer; for the layout
  `time.RFC3339` a model of its `Format` and `Parse` is given.
-/

namespace KafkaConsumer

/-! ## Time -/

/-- An instant of Go's `time.Time`, as nanoseconds since the Unix epoch. -/
structure Time where
  ns : Int
deriving DecidableEq, Repr

/-- A `time.Duration`: a count of nanoseconds. Go holds it in an `int64`; the
embedding keeps the saturation of `Time.Sub`, where timestamps of headers can
be centuries apart, and otherwise computes on unbounded integers. -/
abbrev Duration := Int

/-- The largest `time.Duration` (`1<<63 - 1` nanoseconds). -/
def maxDuration : Int := 2 ^ 63 - 1

/-- The smallest `time.Duration` (`-1 << 63` nanoseconds). -/
def minDuration : Int := -(2 ^ 63)

def Second : Duration := 1000000000

def Minute : Duration := 60 * Second

/-- The zero value of a `time.Time` variable (`var retryTime time.Time`):
January 1, year 1, 00:00:00 UTC. -/
def Time.zero : Time := ⟨-62135596800 * Second⟩

/-- Go `t.After(u)`. -/
def Time.After (t u : Time) : Bool := decide (u.ns < t.ns)

/-- Go `t.Add(d)`. -/
def Time.Add (t : Time) (d : Duration) : Time := ⟨t.ns + d⟩

/-- Go `t.Sub(u)`: the duration `t - u`, replaced by the largest (smallest)
duration when it does not fit in a `Duration`. -/
def Time.Sub (t u : Time) : Duration :=
  if maxDuration < t.ns - u.ns then maxDuration
  else if t.ns - u.ns < minDuration then minDuration
  else t.ns - u.ns

/-- The two functions of Go's `time` package that the consumer applies with
the layout `time.RFC3339`: `time.Parse(time.RFC3339, s)`, which fails with an
error on a string that is not a timestamp, and `t.Format(time.RFC3339)`. -/
structure TimeLib where
  Parse : String → Except String Time
  Format : Time → String

/-! ## Messages, failures, configuration -/

/-- A `sarama.RecordHeader`. -/
structure RecordHeader where
  Key : String
  Value : String
deriving DecidableEq, Repr

/-- A `sarama.ConsumerMessage`. -/
structure ConsumerMessage where
  Headers : List RecordHeader
  Key : String
  Value : String
  Topic : String
  Partition : Int
  Offset : Int
deriving DecidableEq, Repr

/-- Modelled from the spec: the `model.Failure` record (its declaration is not
among the sources; the field names are the ones `PublishFailure` reads).
`Reason` is the cause, `Topic` the topic the message was read from, `NextTopic`
the topic of the next attempt, `MessageHeaders` the ordered header sequence. -/
structure Failure where
  Reason : String
  Topic : String
  NextTopic : String
  Message : String
  MessageKey : String
  MessageHeaders : List RecordHeader
  KafkaPartition : Int
  KafkaOffset : Int
deriving DecidableEq, Repr

/-- Modelled from the spec: `model.FailureFromSaramaMessage`, which builds the
Failure of a message: cause, original topic, next topic, and the payload, key,
headers, partition and offset of the message. -/
def FailureFromSaramaMessage (err : String) (nextTopic : String) (sm : ConsumerMessage) :
    Failure :=
  { Reason := err
    Topic := sm.Topic
    NextTopic := nextTopic
    Message := sm.Value
    MessageKey := sm.Key
    MessageHeaders := sm.Headers
    KafkaPartition := sm.Partition
    KafkaOffset := sm.Offset }

/-- A `config.KafkaTopic`: a stage of a chain. -/
structure KafkaTopic where
  Name : String
  Delay : Duration
  IsMainTopic : Bool
deriving DecidableEq, Repr

/-- The two methods of `config.Config` that the consumer calls. Their bodies
are not among the sources, so they are taken as they are:
`FindTopicKey` gives the topic key of a topic name, `NextTopicInChain` the next
stage of the chain or an error when the topic has no successor. -/
structure Config where
  FindTopicKey : String → String
  NextTopicInChain : String → Except String KafkaTopic

/-! ## The observable effects of the claim loop -/

/-- One effect of the claim loop. -/
inductive Event where
  /-- a call `time.Sleep(d)` -/
  | slept (d : Duration)
  /-- the handler was invoked on `msg` at instant `start` and returned `err` -/
  | handled (msg : ConsumerMessage) (start : Time) (err : Option String)
  /-- a Failure was sent on the failure channel -/
  | failure (f : Failure)
  /-- a call `session.MarkMessage(msg, "")` -/
  | marked (msg : ConsumerMessage)
deriving DecidableEq, Repr

/-- The clock and the effects so far. -/
structure World where
  now : Time
  trace : List Event
deriving DecidableEq, Repr

/-- What a call of a handler gives: the error it returns (`none` for `nil`)
and the time the call took. -/
structure HandlerResult where
  err : Option String
  elapsed : Nat
deriving DecidableEq, Repr

/-- A user handler `func(ctx, msg) error`. It may depend on anything that
happened before the call. -/
abbrev Handler := World → ConsumerMessage → HandlerResult

/-- The `HandlerMap`: topic key to handler. -/
abbrev HandlerMap := String → Option Handler

/-- The lookup `h, ok := handlers.handlerForTopic(k)`. -/
def HandlerMap.handlerForTopic (hm : HandlerMap) (k : String) : Option Handler := hm k

/-- The `consumer` struct (the logger is left out), with the time functions
it calls. -/
structure consumer where
  cfg : Config
  handlers : HandlerMap
  time : TimeLib

def nextTimeRetry : String := "NextTimeRetry"

/-- Go `time.Sleep(d)`: pauses for `d`, returns at once when `d ≤ 0`. -/
def Sleep (w : World) (d : Duration) : World :=
  { now := w.now.Add (max d 0), trace := w.trace ++ [Event.slept d] }

/-- The loop over `message.Headers` of `ConsumeClaim` (lines 47-58): `acc` is
the pair `(retryTime, needCheckRetryTime)`; a header named `NextTimeRetry`
that does not parse ends the scan with the parse error. -/
def scanHeaders (tl : TimeLib) : List RecordHeader → Time × Bool → Except String (Time × Bool)
  | [], acc => Except.ok acc
  | header :: rest, acc =>
    if header.Key = nextTimeRetry then
      match tl.Parse header.Value with
      | Except.error err => Except.error err
      | Except.ok retryTime => scanHeaders tl rest (retryTime, true)
    else scanHeaders tl rest acc

/-- Go `consumer.markMessageProcessed`. -/
def consumer.markMessageProcessed (_c : consumer) (w : World) (msg : ConsumerMessage) : World :=
  { w with trace := w.trace ++ [Event.marked msg] }

/-- Go `consumer.sendToFailureChannel`: returns the world and the message, whose
headers the function extends in place. -/
def consumer.sendToFailureChannel (c : consumer) (w : World) (message : ConsumerMessage)
    (err : String) : World × ConsumerMessage :=
  match c.cfg.NextTopicInChain message.Topic with
  | Except.error _ => (w, message)
  | Except.ok nextTopic =>
    let netTimeRetry := w.now.Add nextTopic.Delay
    let retryHeader : RecordHeader :=
      { Key := nextTimeRetry, Value := c.time.Format netTimeRetry }
    let message1 := { message with Headers := message.Headers ++ [retryHeader] }
    ({ w with trace := w.trace ++
        [Event.failure (FailureFromSaramaMessage err nextTopic.Name message1)] }, message1)

/-- The body of the loop of `ConsumeClaim` for one received message (lines
42-78): the world after it and the error with which `ConsumeClaim` returns, if
it does. -/
def consumer.consumeMessage (c : consumer) (w : World) (message : ConsumerMessage) :
    World × Option String :=
  let messageTime := w.now
  match scanHeaders c.time message.Headers (Time.zero, false) with
  | Except.error err => (w, some err)
  | Except.ok (retryTime, needCheckRetryTime) =>
    let w1 :=
      if needCheckRetryTime && retryTime.After messageTime then
        Sleep w (retryTime.Sub messageTime)
      else w
    let k := c.cfg.FindTopicKey message.Topic
    match c.handlers.handlerForTopic k with
    | none => (w1, some ("consumer: handler not found for topic: " ++ k))
    | some h =>
      let r := h w1 message
      let w2 : World :=
        { now := w1.now.Add r.elapsed
          trace := w1.trace ++ [Event.handled message w1.now r.err] }
      match r.err with
      | some err =>
        let sent := c.sendToFailureChannel w2 message err
        (c.markMessageProcessed sent.1 sent.2, none)
      | none => (c.markMessageProcessed w2 message, none)

/-- Go `consumer.ConsumeClaim` on the messages that the claim delivers before its
channel is closed or the session context is done: the world when it returns
and the error it returns (`none` for `nil`). -/
def consumer.ConsumeClaim (c : consumer) (w : World) : List ConsumerMessage → World × Option String
  | [] => (w, none)
  | message :: rest =>
    match c.consumeMessage w message with
    | (w1, some err) => (w1, some err)
    | (w1, none) => c.ConsumeClaim w1 rest

/-! ## The retry table and its repository -/

/-- A batch identifier (`uuid.UUID`). -/
abbrev UUID := Nat

/-- A row of `kafka_consumer_retries`, with the columns the statements of the
repository name, and `created_at`. A nullable column is an `Option`. -/
structure RetryRow where
  id : Nat
  topic : String
  payload_json : String
  payload_headers : List RecordHeader
  payload_key : String
  kafka_offset : Int
  kafka_partition : Int
  attempts : Nat
  batch_id : Option UUID
  retry_started_at : Option Time
  retry_finished_at : Option Time
  last_error : String
  errored : Bool
  successful : Bool
  deadlettered : Bool
  created_at : Time
  updated_at : Time
deriving DecidableEq, Repr

/-- The table: its rows, in the order the store scans them. The primary key
makes the `id`s of a table pairwise distinct. -/
abbrev Table := List RetryRow

/-- The primary-key constraint on `id`. -/
def uniqueIds (rows : Table) : Prop := (rows.map RetryRow.id).Nodup

/-- A `model.Retry`, with the fields the repository and the stage worker read
and write. -/
structure Retry where
  ID : Nat
  Topic : String
  PayloadJSON : String
  PayloadHeaders : List RecordHeader
  PayloadKey : String
  KafkaOffset : Int
  KafkaPartition : Int
  Attempts : Nat
  Errored : Bool
  Deadlettered : Bool
deriving DecidableEq, Repr

def consideredStaleAfter : Duration := Minute * 10

/-- Modelled from the spec: the column defaults of the schema, which the
`INSERT` of `PublishFailure` relies on (`attempts` 0, the three flags false,
`last_error` empty, the lease columns NULL, both audit timestamps `now()`).
The store assigns `id`. -/
def Repository.PublishFailure (rows : Table) (id : Nat) (now : Time) (f : Failure) : Table :=
  rows ++ [{ id := id, topic := f.Topic, payload_json := f.Message,
             payload_headers := f.MessageHeaders, payload_key := f.MessageKey,
             kafka_offset := f.KafkaOffset, kafka_partition := f.KafkaPartition,
             attempts := 0, batch_id := none, retry_started_at := none,
             retry_finished_at := none, last_error := "", errored := false,
             successful := false, deadlettered := false, created_at := now,
             updated_at := now }]

/-- Go `Repository.DeleteSuccessful`. -/
def Repository.DeleteSuccessful (rows : Table) (olderThan : Time) : Table :=
  rows.filter (fun r => !(r.successful && decide (r.updated_at.ns ≤ olderThan.ns)))

/-- The assignment of the `UPDATE` of `MarkRetrySuccessful`. -/
def RetryRow.markSuccessful (r : RetryRow) (now : Time) (retry : Retry) : RetryRow :=
  { r with attempts := retry.Attempts, last_error := "", retry_finished_at := some now,
           errored := false, successful := true, updated_at := now }

/-- Go `Repository.MarkRetrySuccessful`, the `UPDATE` executed at `now`. -/
def Repository.MarkRetrySuccessful (rows : Table) (now : Time) (retry : Retry) : Table :=
  rows.map (fun r => if r.id = retry.ID then r.markSuccessful now retry else r)

/-- The assignment of the `UPDATE` of `MarkRetryErrored`. -/
def RetryRow.markErrored (r : RetryRow) (now : Time) (retry : Retry) (retryErr : String) :
    RetryRow :=
  { r with batch_id := none, attempts := retry.Attempts, last_error := retryErr,
           retry_finished_at := some now, errored := retry.Errored,
           deadlettered := retry.Deadlettered, updated_at := now }

/-- Go `Repository.MarkRetryErrored`, the `UPDATE` executed at `now`. -/
def Repository.MarkRetryErrored (rows : Table) (now : Time) (retry : Retry)
    (retryErr : String) : Table :=
  rows.map (fun r => if r.id = retry.ID then r.markErrored now retry retryErr else r)

/-- The comparison `retry_started_at < $3` of SQL: not true on NULL. -/
def startedBefore : Option Time → Time → Bool
  | some s, stale => decide (s.ns < stale.ns)
  | none, _ => false

/-- The `WHERE` clause of the inner `SELECT` of `createEventBatch`, with the
parameters `$2` (topic), `$3` (stale), `$4` (sequence) and `$5` (before). -/
def batchCandidate (topic : String) (stale : Time) (sequence : Nat) (before : Time)
    (r : RetryRow) : Bool :=
  decide (r.topic = topic) &&
  (r.batch_id.isNone ||
    (r.batch_id.isSome && r.retry_finished_at.isNone && startedBefore r.retry_started_at stale)) &&
  decide (r.attempts = sequence) && (r.deadlettered == false) && (r.successful == false) &&
  decide (r.updated_at.ns ≤ before.ns)

/-- The assignment of the `UPDATE` of `createEventBatch`. -/
def RetryRow.lease (r : RetryRow) (batchId : UUID) (now : Time) : RetryRow :=
  { r with batch_id := some batchId, retry_started_at := some now }

/-- Go `Repository.createEventBatch`, executed at `now` with the identifier
`batchId` that `uuid.New()` gave: the inner `SELECT` keeps the first 250
candidates of the scan, the `UPDATE` rewrites every row whose `id` is among
theirs. The two readings of `time.Now()` and the `NOW()` of the store are the
one instant `now`. -/
def Repository.createEventBatch (rows : Table) (batchId : UUID) (now : Time) (topic : String)
    (sequence : Nat) (interval : Duration) : Table :=
  let stale := now.Add (consideredStaleAfter * -1)
  let before := now.Add (interval * -1)
  let ids := ((rows.filter (batchCandidate topic stale sequence before)).take 250).map
    RetryRow.id
  rows.map (fun r => if r.id ∈ ids then r.lease batchId now else r)

/-- The columns that `getCreatedEventBatch` scans into a `model.Retry`; the
other fields keep their zero value. -/
def RetryRow.toRetry (r : RetryRow) : Retry :=
  { ID := r.id, Topic := r.topic, PayloadJSON := r.payload_json,
    PayloadHeaders := r.payload_headers, PayloadKey := r.payload_key,
    KafkaOffset := r.kafka_offset, KafkaPartition := r.kafka_partition,
    Attempts := r.attempts, Errored := false, Deadlettered := false }

/-- Go `Repository.getCreatedEventBatch`. -/
def Repository.getCreatedEventBatch (rows : Table) (batchId : UUID) : List Retry :=
  (rows.filter (fun r => decide (r.batch_id = some batchId))).map RetryRow.toRetry

/-- Go `Repository.GetMessagesForRetry`: the table after the call and the
retries it returns. -/
def Repository.GetMessagesForRetry (rows : Table) (batchId : UUID) (now : Time)
    (topic : String) (sequence : Nat) (interval : Duration) : Table × List Retry :=
  let rows1 := Repository.createEventBatch rows batchId now topic sequence interval
  (rows1, Repository.getCreatedEventBatch rows1 batchId)

/-! ## The stage worker of the database backend -/

/-- A `config.DBTopicRetry`: the descriptor of one stage of the database
backend. -/
structure DBTopicRetry where
  Interval : Duration
  Sequence : Nat
  Key : String
deriving DecidableEq, Repr

/-- A call of the stage worker on its retry manager. -/
inductive ManagerCall where
  | getBatch (topic : String) (sequence : Nat) (interval : Duration)
  | markSuccessful (retry : Retry)
  | markErrored (retry : Retry) (err : String)
deriving DecidableEq, Repr

/-- The three methods of the `retryManager` interface that the stage worker
calls, over a store `σ`. Each takes the store and the instant of the call and
gives the store after the call and what the method returns: the batch or an
error for `GetBatch`, an error or `none` (for `nil`) for the two marks. -/
structure retryManager (σ : Type) where
  GetBatch : σ → Time → String → Nat → Duration → σ × Except String (List Retry)
  MarkSuccessful : σ → Time → Retry → σ × Option String
  MarkErrored : σ → Time → Retry → String → σ × Option String

/-- The parts of `kafkaConsumerDbCollection` that the stage worker uses: the
retry manager, the handler map, the conversion `Retry.ToSaramaConsumerMessage`
and the package variable `dbRetryPollInterval`; the last two are declared
outside the sources and are taken as they are. -/
structure kafkaConsumerDbCollection (σ : Type) where
  retryManager : retryManager σ
  handlerMap : HandlerMap
  ToSaramaConsumerMessage : Retry → ConsumerMessage
  dbRetryPollInterval : Duration

/-- What a stage worker acts on: the clock with the handler calls made so far,
the store of the retry manager, and the calls made on the retry manager. -/
structure WorkerState (σ : Type) where
  world : World
  store : σ
  calls : List ManagerCall

/-- The body of the loop over `msgsForRetry` in `processMessagesForRetry`
(lines 189-200): the handler is called on the row, then the row is marked
errored or successful; an error of the mark is logged and dropped. -/
def kafkaConsumerDbCollection.processRetry {σ : Type} (cc : kafkaConsumerDbCollection σ)
    (h : Handler) (st : WorkerState σ) (msg : Retry) : WorkerState σ :=
  let saramaMsg := cc.ToSaramaConsumerMessage msg
  let r := h st.world saramaMsg
  let world1 : World :=
    { now := st.world.now.Add r.elapsed
      trace := st.world.trace ++ [Event.handled saramaMsg st.world.now r.err] }
  match r.err with
  | some err =>
    { world := world1
      store := (cc.retryManager.MarkErrored st.store world1.now msg err).1
      calls := st.calls ++ [ManagerCall.markErrored msg err] }
  | none =>
    { world := world1
      store := (cc.retryManager.MarkSuccessful st.store world1.now msg).1
      calls := st.calls ++ [ManagerCall.markSuccessful msg] }

/-- The loop `for _, msg := range msgsForRetry`. -/
def kafkaConsumerDbCollection.processBatch {σ : Type} (cc : kafkaConsumerDbCollection σ)
    (h : Handler) : List Retry → WorkerState σ → WorkerState σ
  | [], st => st
  | msg :: rest, st => cc.processBatch h rest (cc.processRetry h st msg)

/-- Go `kafkaConsumerDbCollection.processMessagesForRetry`: one tick of a
stage worker. The function returns nothing; the state after it is given. -/
def kafkaConsumerDbCollection.processMessagesForRetry {σ : Type}
    (cc : kafkaConsumerDbCollection σ) (st : WorkerState σ) (topic : String)
    (rc : DBTopicRetry) : WorkerState σ :=
  let got := cc.retryManager.GetBatch st.store st.world.now topic rc.Sequence rc.Interval
  let st1 : WorkerState σ :=
    { world := st.world, store := got.1
      calls := st.calls ++ [ManagerCall.getBatch topic rc.Sequence rc.Interval] }
  match got.2 with
  | Except.error _ => st1
  | Except.ok msgsForRetry =>
    match cc.handlerMap.handlerForTopic rc.Key with
    | none => st1
    | some h => cc.processBatch h msgsForRetry st1

/-- The goroutine of `startDbRetryProcessorsForTopic` for one stage, on the
timer ticks that come before the context is done: each tick runs
`processMessagesForRetry` and then sleeps one poll interval. -/
def kafkaConsumerDbCollection.stageWorker {σ : Type} (cc : kafkaConsumerDbCollection σ)
    (topic : String) (rc : DBTopicRetry) : Nat → WorkerState σ → WorkerState σ
  | 0, st => st
  | ticks + 1, st =>
    let st1 := cc.processMessagesForRetry st topic rc
    cc.stageWorker topic rc ticks { st1 with world := Sleep st1.world cc.dbRetryPollInterval }

/-- A call of the retry manager on the repository. -/
inductive RepoCall where
  | getMessagesForRetry (topic : String) (sequence : Nat) (interval : Duration)
  | markRetrySuccessful (retry : Retry)
  | markRetryErrored (retry : Retry) (err : String)
deriving DecidableEq, Repr

/-- The store of the retry manager of the database backend: the table, the
next batch identifier, and the calls made on the repository. -/
structure ManagerStore where
  rows : Table
  nextBatch : UUID
  repoCalls : List RepoCall
deriving DecidableEq, Repr

/-- Modelled from the spec: the retry manager of the database backend
(`retry.Manager`, built by `retry.NewManagerWithDefaults`), whose source is
missing. `GetBatch` leases a batch from the repository; `MarkSuccessful`
increments `attempts` and calls `MarkRetrySuccessful`; `MarkErrored` computes
`errored = true`, `deadlettered = (attempts + 1 ≥ last stage sequence)`,
increments `attempts` and calls `MarkRetryErrored`. The last stage sequence of
a topic comes from the configuration. -/
def Manager (lastStageSequence : String → Nat) : retryManager ManagerStore where
  GetBatch := fun s now topic sequence interval =>
    let res := Repository.GetMessagesForRetry s.rows s.nextBatch now topic sequence interval
    ({ rows := res.1, nextBatch := s.nextBatch + 1
       repoCalls := s.repoCalls ++ [RepoCall.getMessagesForRetry topic sequence interval] },
      Except.ok res.2)
  MarkSuccessful := fun s now retry =>
    let upd := { retry with Attempts := retry.Attempts + 1 }
    ({ s with rows := Repository.MarkRetrySuccessful s.rows now upd
              repoCalls := s.repoCalls ++ [RepoCall.markRetrySuccessful upd] }, none)
  MarkErrored := fun s now retry err =>
    let upd := { retry with
      Errored := true
      Deadlettered := decide (retry.Attempts + 1 ≥ lastStageSequence retry.Topic)
      Attempts := retry.Attempts + 1 }
    ({ s with rows := Repository.MarkRetryErrored s.rows now upd err
              repoCalls := s.repoCalls ++ [RepoCall.markRetryErrored upd err] }, none)

/-- Modelled from the spec: the database failure forwarder (section 4.H),
whose source is missing. It reads one Failure at a time from the failure
channel and calls `PublishFailure`; the store assigns the `id`s in sequence.
The table after the Failures `fs`, all published at `now`, is given. -/
def listenForFailures (rows : Table) (nextId : Nat) (now : Time) : List Failure → Table
  | [] => rows
  | f :: fs => listenForFailures (Repository.PublishFailure rows nextId now f) (nextId + 1) now fs

/-! ## Starting the two collections -/

/-- The fields of `config.Config` that the two `start` functions read, with
the result of its method `MainTopics()`. A slice that may be `nil` is an
`Option`: `none` is `nil`, `some []` an empty slice that is not `nil`. -/
structure StartConfig where
  Host : List String
  RetryHost : List String
  ConsumableTopics : Option (List KafkaTopic)
  MainTopics : Option (List String)
  DBRetries : String → List DBTopicRetry

/-- A task that `start` launches. -/
inductive Launch where
  /-- a consumer group connected with `host`, with its goroutines consuming
  `topics` -/
  | consumerGroup (topics : List String) (host : List String)
  /-- a stage worker of the database backend -/
  | stageWorker (topic : String) (rc : DBTopicRetry)
  /-- the forwarder started by `producer.listenForFailures` -/
  | failureForwarder
  /-- the goroutine of `periodicRetryManagerMaintenance` -/
  | maintenance
deriving DecidableEq, Repr

/-- A `kafkaConnector`: connects a consumer group with the host of the
configuration it is given, or fails with an error. -/
abbrev kafkaConnector := StartConfig → Option String

/-- What a `start` leaves: the configuration (which `start` may write to), the
tasks launched, in order, and the error returned (`none` for `nil`). -/
structure Started where
  cfg : StartConfig
  launched : List Launch
  err : Option String

/-- The loop `for _, t := range topics` of `kafkaConsumerCollection.start`
(lines 60-70), `startConsumerGroup` included. -/
def kafkaConsumerCollection.startTopics (connectToKafka : kafkaConnector) :
    List KafkaTopic → StartConfig → List Launch → Started
  | [], cfg, launched => { cfg := cfg, launched := launched, err := none }
  | t :: rest, cfg, launched =>
    let cfg1 :=
      if !t.IsMainTopic && decide (cfg.RetryHost.length > 0) then
        { cfg with Host := cfg.RetryHost }
      else cfg
    match connectToKafka cfg1 with
    | some err => { cfg := cfg1, launched := launched, err := some err }
    | none =>
      kafkaConsumerCollection.startTopics connectToKafka rest cfg1
        (launched ++ [Launch.consumerGroup [t.Name] cfg1.Host])

/-- Go `kafkaConsumerCollection.start`. -/
def kafkaConsumerCollection.start (cfg : StartConfig) (connectToKafka : kafkaConnector) :
    Started :=
  match cfg.ConsumableTopics with
  | none =>
    { cfg := cfg, launched := []
      err := some "no Kafka topics are configured, therefore cannot start consumers" }
  | some topics =>
    let res := kafkaConsumerCollection.startTopics connectToKafka topics cfg []
    match res.err with
    | some err => { res with err := some err }
    | none => { res with launched := res.launched ++ [Launch.failureForwarder] }

/-- The stage workers that `startDbRetryProcessorsForTopic` launches for one
topic. -/
def startDbRetryProcessorsForTopic (topic : String) (retryConfig : List DBTopicRetry) :
    List Launch :=
  retryConfig.map (fun rc => Launch.stageWorker topic rc)

/-- Go `kafkaConsumerDbCollection.start`. -/
def kafkaConsumerDbCollection.start (cfg : StartConfig) (connectToKafka : kafkaConnector) :
    Started :=
  match cfg.MainTopics with
  | none =>
    { cfg := cfg, launched := []
      err := some "no Kafka topics are configured, therefore cannot start consumers" }
  | some topics =>
    if topics.length = 0 then
      { cfg := cfg, launched := []
        err := some "no Kafka topics are configured, therefore cannot start consumers" }
    else
      match connectToKafka cfg with
      | some err => { cfg := cfg, launched := [], err := some err }
      | none =>
        { cfg := cfg
          launched := [Launch.consumerGroup topics cfg.Host] ++
            (topics.map (fun t => startDbRetryProcessorsForTopic t (cfg.DBRetries t))).flatten ++
            [Launch.failureForwarder, Launch.maintenance]
          err := none }

/-! ## The life of the retry table -/

/-- The timeout of the context under which a tick of the stage worker leases
its batch and makes its marks (line 173). -/
def tickTimeout : Duration := Second * 30

/-- An operation on the retry table, with the instant at which the store
executes it. A mark names the batch under which its caller got the row. -/
inductive RepoOp where
  | publishFailure (id : Nat) (now : Time) (f : Failure)
  | getMessagesForRetry (batchId : UUID) (now : Time) (topic : String) (sequence : Nat)
      (interval : Duration)
  | markRetrySuccessful (now : Time) (batchId : UUID) (retry : Retry)
  | markRetryErrored (now : Time) (batchId : UUID) (retry : Retry) (err : String)
  | deleteSuccessful (olderThan : Time)
deriving DecidableEq, Repr

/-- A row handed to a stage worker: the batch, the `id` of the row, and the
instant of the lease. -/
structure Lease where
  batchId : UUID
  id : Nat
  takenAt : Time
deriving DecidableEq, Repr

/-- The table, the leases handed out and not yet marked, and the clock: the
instant of the last operation. -/
structure RepoState where
  rows : Table
  held : List Lease
  clock : Time
deriving DecidableEq, Repr

/-- The empty table. -/
def RepoState.empty (start : Time) : RepoState := { rows := [], held := [], clock := start }

/-- The caller of a mark at `now` holds a lease of batch `batchId` on row `id`
whose context has not timed out: a tick creates its context, then leases, and
the `UPDATE` of a mark is executed under that context, so not later than
`tickTimeout` after the lease. -/
def RepoState.canMark (s : RepoState) (now : Time) (batchId : UUID) (id : Nat) : Bool :=
  s.held.any (fun l => decide (l.batchId = batchId) && decide (l.id = id) &&
    decide (now.ns ≤ l.takenAt.ns + tickTimeout))

/-- When an operation can happen. Time does not run backwards; the store
assigns a new `id`; `uuid.New()` gives a new batch identifier; and a mark
that changes the table is made by a worker on a row of its batch, within
the timeout of its tick (a mark made later fails and changes nothing, so it is
no operation on the table). -/
def RepoOp.allowed (s : RepoState) : RepoOp → Bool
  | RepoOp.publishFailure id now _ =>
    decide (s.clock.ns ≤ now.ns) && decide (id ∉ s.rows.map RetryRow.id)
  | RepoOp.getMessagesForRetry batchId now _ _ _ =>
    decide (s.clock.ns ≤ now.ns) && decide (∀ r ∈ s.rows, r.batch_id ≠ some batchId) &&
      decide (∀ l ∈ s.held, l.batchId ≠ batchId)
  | RepoOp.markRetrySuccessful now batchId retry =>
    decide (s.clock.ns ≤ now.ns) && s.canMark now batchId retry.ID
  | RepoOp.markRetryErrored now batchId retry _ =>
    decide (s.clock.ns ≤ now.ns) && s.canMark now batchId retry.ID
  | RepoOp.deleteSuccessful _ => true

/-- The leases left after a mark: the caller's lease on the row is gone. -/
def releaseLease (held : List Lease) (batchId : UUID) (id : Nat) : List Lease :=
  held.filter (fun l => !(decide (l.batchId = batchId) && decide (l.id = id)))

/-- What an operation does. -/
def RepoOp.apply (s : RepoState) : RepoOp → RepoState
  | RepoOp.publishFailure id now f =>
    { rows := Repository.PublishFailure s.rows id now f, held := s.held, clock := now }
  | RepoOp.getMessagesForRetry batchId now topic sequence interval =>
    { rows := (Repository.GetMessagesForRetry s.rows batchId now topic sequence interval).1
      held := s.held ++
        (Repository.GetMessagesForRetry s.rows batchId now topic sequence interval).2.map
          (fun ret => { batchId := batchId, id := ret.ID, takenAt := now })
      clock := now }
  | RepoOp.markRetrySuccessful now batchId retry =>
    { rows := Repository.MarkRetrySuccessful s.rows now retry
      held := releaseLease s.held batchId retry.ID, clock := now }
  | RepoOp.markRetryErrored now batchId retry err =>
    { rows := Repository.MarkRetryErrored s.rows now retry err
      held := releaseLease s.held batchId retry.ID, clock := now }
  | RepoOp.deleteSuccessful olderThan =>
    { s with rows := Repository.DeleteSuccessful s.rows olderThan }

/-- The state after a sequence of operations, when each of them can happen. -/
def runOps : RepoState → List RepoOp → Option RepoState
  | s, [] => some s
  | s, op :: ops => if op.allowed s then runOps (op.apply s) ops else none

/-! ## The layout `time.RFC3339`

A model of `t.Format(time.RFC3339)` and `time.Parse(time.RFC3339, s)` of Go's
`time` package, for the instants whose year, in the zone of the process, has
four digits (0000 to 9999): the text is `YYYY-MM-DDThh:mm:ss` followed by `Z`
or by the offset `±hh:mm` of the zone. It has no place for a fraction of a
second. -/

/-- The decimal digit `n % 10`, as a character. -/
def digitChar (n : Nat) : Char := Char.ofNat (48 + n % 10)

/-- The value of a decimal digit. -/
def digitVal (c : Char) : Option Nat :=
  if 48 ≤ c.toNat ∧ c.toNat ≤ 57 then some (c.toNat - 48) else none

/-- Two digits, zero padded. -/
def pad2 (n : Nat) : List Char := [digitChar (n / 10), digitChar n]

/-- Four digits, zero padded. -/
def pad4 (n : Nat) : List Char :=
  [digitChar (n / 1000), digitChar (n / 100), digitChar (n / 10), digitChar n]

/-- The number written by two digits. -/
def num2 (a b : Char) : Option Nat :=
  match digitVal a, digitVal b with
  | some x, some y => some (10 * x + y)
  | _, _ => none

/-- The number written by four digits. -/
def num4 (a b c d : Char) : Option Nat :=
  match num2 a b, num2 c d with
  | some x, some y => some (100 * x + y)
  | _, _ => none

/-- The leap years of the Gregorian calendar. -/
def isLeap (y : Nat) : Bool := y % 4 = 0 && (y % 100 != 0 || y % 400 = 0)

/-- The number of days of a year. -/
def yearLen (y : Nat) : Nat := if isLeap y then 366 else 365

/-- The number of days of month `m` (1 to 12) of year `y`. -/
def monthLen (y m : Nat) : Nat :=
  if m = 2 then (if isLeap y then 29 else 28)
  else if m = 4 ∨ m = 6 ∨ m = 9 ∨ m = 11 then 30
  else 31

/-- The days from the start of a 400-year era to the start of its year `y`. -/
def daysBeforeYoe : Nat → Nat
  | 0 => 0
  | y + 1 => daysBeforeYoe y + yearLen y

/-- The days from the start of year `y` to the start of its month `m`. -/
def daysBeforeMonth (y : Nat) : Nat → Nat
  | 0 => 0
  | 1 => 0
  | m + 2 => daysBeforeMonth y (m + 1) + monthLen y (m + 1)

/-- The year in which day `rem` (counted from the start of year `y`) falls, and
the day of that year; `fuel` bounds the years looked at. -/
def splitYear : Nat → Nat → Nat → Nat × Nat
  | 0, y, rem => (y, rem)
  | fuel + 1, y, rem =>
    if rem < yearLen y then (y, rem) else splitYear fuel (y + 1) (rem - yearLen y)

/-- The month of year `y` in which day `rem` (counted from the start of month
`m`) falls, and the day of that month, from 0. -/
def splitMonth (y : Nat) : Nat → Nat → Nat → Nat × Nat
  | 0, m, rem => (m, rem)
  | fuel + 1, m, rem =>
    if rem < monthLen y m then (m, rem) else splitMonth y fuel (m + 1) (rem - monthLen y m)

/-- The date (year, month, day) of the day `z`, counted from 0000-01-01. -/
def civilFromDays (z : Nat) : Nat × Nat × Nat :=
  let yd := splitYear 400 0 (z % 146097)
  let year := 400 * (z / 146097) + yd.1
  let md := splitMonth year 12 1 yd.2
  (year, md.1, md.2 + 1)

/-- The day, counted from 0000-01-01, of a date. -/
def daysFromCivil (y m d : Nat) : Nat :=
  146097 * (y / 400) + daysBeforeYoe (y % 400) + daysBeforeMonth y m + (d - 1)

/-- The seconds from 0000-01-01T00:00:00Z to the Unix epoch. -/
def epochSeconds : Int := 62167219200

/-- The zone of a timestamp: `Z` for the offset 0, `±hh:mm` otherwise; the
offset is in minutes east of UTC. -/
def zoneChars (zoneMinutes : Int) : List Char :=
  if zoneMinutes = 0 then ['Z']
  else
    (if zoneMinutes < 0 then '-' else '+') ::
      (pad2 (zoneMinutes.natAbs / 60) ++ [':'] ++ pad2 (zoneMinutes.natAbs % 60))

/-- The text of `t.Format(time.RFC3339)` in a zone `zoneMinutes` east of UTC:
the whole seconds of `t`, as a date and a time of day of the zone. -/
def formatRFC3339 (zoneMinutes : Int) (t : Time) : List Char :=
  let n := (t.ns / 1000000000 + 60 * zoneMinutes + epochSeconds).toNat
  let date := civilFromDays (n / 86400)
  let sod := n % 86400
  pad4 date.1 ++ ['-'] ++ pad2 date.2.1 ++ ['-'] ++ pad2 date.2.2 ++ ['T'] ++
    pad2 (sod / 3600) ++ [':'] ++ pad2 (sod % 3600 / 60) ++ [':'] ++ pad2 (sod % 60) ++
    zoneChars zoneMinutes

/-- The zone of a timestamp, in minutes east of UTC. -/
def parseZone : List Char → Option Int
  | [z] => if z = 'Z' then some 0 else none
  | [sign, h1, h2, colon, m1, m2] =>
    if colon = ':' then
      match num2 h1 h2, num2 m1 m2 with
      | some h, some m =>
        if h < 24 ∧ m < 60 then
          if sign = '+' then some (60 * (h : Int) + m)
          else if sign = '-' then some (-(60 * (h : Int) + m))
          else none
        else none
      | _, _ => none
    else none
  | _ => none

/-- The nanoseconds written by the digits of a fraction of a second: the first
nine count. -/
def fractionNanos (digits : List Char) : Nat :=
  ((digits.take 9).foldl (fun acc c => 10 * acc + (c.toNat - 48)) 0) *
    10 ^ (9 - (digits.take 9).length)

/-- The fraction of a second that `time.Parse` accepts after the seconds, even
though the layout has none: a point or a comma and at least one digit. Gives
the nanoseconds and the rest of the text. -/
def parseFraction : List Char → Option (Nat × List Char)
  | [] => some (0, [])
  | c :: rest =>
    if c = '.' ∨ c = ',' then
      if (rest.takeWhile (fun d => (digitVal d).isSome)).isEmpty then none
      else some (fractionNanos (rest.takeWhile (fun d => (digitVal d).isSome)),
        rest.dropWhile (fun d => (digitVal d).isSome))
    else some (0, c :: rest)

/-- The instant of a date, a time of day, a fraction and a zone, when they
are in range. -/
def instantOf (y mo d h mi se nanos : Nat) (zoneMinutes : Int) : Except String Time :=
  if 1 ≤ mo ∧ mo ≤ 12 ∧ 1 ≤ d ∧ d ≤ monthLen y mo ∧ h < 24 ∧ mi < 60 ∧ se < 60 then
    Except.ok
      ⟨((daysFromCivil y mo d * 86400 + h * 3600 + mi * 60 + se : Nat) - epochSeconds -
          60 * zoneMinutes) * 1000000000 + nanos⟩
  else Except.error "parsing time: value out of range"

/-- The instant that `time.Parse(time.RFC3339, s)` reads from the text of a
timestamp, or its error. -/
def parseRFC3339 : List Char → Except String Time
  | y1 :: y2 :: y3 :: y4 :: c1 :: m1 :: m2 :: c2 :: d1 :: d2 :: cT :: h1 :: h2 :: c3 ::
      n1 :: n2 :: c4 :: s1 :: s2 :: rest =>
    if c1 = '-' ∧ c2 = '-' ∧ cT = 'T' ∧ c3 = ':' ∧ c4 = ':' then
      match num4 y1 y2 y3 y4, num2 m1 m2, num2 d1 d2, num2 h1 h2, num2 n1 n2, num2 s1 s2,
        parseFraction rest with
      | some y, some mo, some d, some h, some mi, some se, some (nanos, zone) =>
        match parseZone zone with
        | some zoneMinutes => instantOf y mo d h mi se nanos zoneMinutes
        | none => Except.error "parsing time: cannot parse the zone"
      | _, _, _, _, _, _, _ => Except.error "parsing time: cannot parse a number"
    else Except.error "parsing time: cannot parse a separator"
  | _ => Except.error "parsing time: the text is too short"

/-- The `time` package in a zone `zoneMinutes` east of UTC, for the layout
`time.RFC3339`. -/
def rfc3339 (zoneMinutes : Int) : TimeLib where
  Parse := fun s => parseRFC3339 s.data
  Format := fun t => String.mk (formatRFC3339 zoneMinutes t)

/-! ## Vocabulary of the statements -/

/-- The event is a Failure sent on the failure channel. -/
def Event.isFailure : Event → Bool
  | Event.failure _ => true
  | _ => false

/-- The event is a call `session.MarkMessage`. -/
def Event.isMark : Event → Bool
  | Event.marked _ => true
  | _ => false

/-- Every header named `NextTimeRetry` carries a value that parses. -/
def headersParse (tl : TimeLib) (hs : List RecordHeader) : Prop :=
  ∀ hd ∈ hs, hd.Key = nextTimeRetry → ∃ t, tl.Parse hd.Value = Except.ok t

/-- The events are only sleeps. -/
def onlySleeps (evs : List Event) : Prop := ∀ e ∈ evs, ∃ d, e = Event.slept d

/-- The headers named `NextTimeRetry`, in order. -/
def retryHeaders (hs : List RecordHeader) : List RecordHeader :=
  hs.filter (fun hd => decide (hd.Key = nextTimeRetry))

/-- The world in which the handler is invoked: after the wait that the scan
of the headers asks for. -/
def afterWait (w : World) (scan : Time × Bool) : World :=
  if scan.2 && scan.1.After w.now then Sleep w (scan.1.Sub w.now) else w

/-- The predicate of the specification for a lease taken at `now` for
`(topic, sequence, interval)`: the topic and stage match, the row is neither
successful nor deadlettered, it was last updated at least `interval` ago, and
it is either free or held by a lease that started more than ten minutes ago
and did not finish. -/
def leaseEligible (topic : String) (sequence : Nat) (interval : Duration) (now : Time)
    (r : RetryRow) : Prop :=
  r.topic = topic ∧ r.attempts = sequence ∧ r.successful = false ∧ r.deadlettered = false ∧
  r.updated_at.ns ≤ now.ns - interval ∧
  (r.batch_id = none ∨
    (r.batch_id ≠ none ∧ r.retry_finished_at = none ∧
      ∃ s, r.retry_started_at = some s ∧ s.ns < now.ns - 10 * Minute))

instance (topic : String) (sequence : Nat) (interval : Duration) (now : Time) (r : RetryRow) :
    Decidable (leaseEligible topic sequence interval now r) := by
  unfold leaseEligible
  infer_instance

/-- The rows that `createEventBatch` leases: the first 250 candidates. -/
def leasedRows (rows : Table) (now : Time) (topic : String) (sequence : Nat)
    (interval : Duration) : List RetryRow :=
  (rows.filter (batchCandidate topic (now.Add (consideredStaleAfter * -1)) sequence
    (now.Add (interval * -1)))).take 250

/-- What the call of the handler on a row of a batch gave: the instant of the
call, the instant of its return, and the error returned (`none` for `nil`). -/
structure Outcome where
  start : Time
  finish : Time
  err : Option String
deriving DecidableEq, Repr

/-- The outcomes of the registered handler `h` on the rows of a batch, in
order: each row is handled in the world that the rows before it left. -/
def batchOutcomes {σ : Type} (cc : kafkaConsumerDbCollection σ) (h : Handler) :
    World → List Retry → List Outcome
  | _, [] => []
  | w, msg :: rest =>
    { start := w.now
      finish := w.now.Add (h w (cc.ToSaramaConsumerMessage msg)).elapsed
      err := (h w (cc.ToSaramaConsumerMessage msg)).err } ::
    batchOutcomes cc h
      { now := w.now.Add (h w (cc.ToSaramaConsumerMessage msg)).elapsed
        trace := w.trace ++ [Event.handled (cc.ToSaramaConsumerMessage msg) w.now
          (h w (cc.ToSaramaConsumerMessage msg)).err] } rest

/-- The handler event of a row of a batch, given the outcome of the call. -/
def handledEvent {σ : Type} (cc : kafkaConsumerDbCollection σ) (msg : Retry)
    (o : Outcome) : Event :=
  Event.handled (cc.ToSaramaConsumerMessage msg) o.start o.err

/-- The mark that the worker calls on its retry manager for a row, given the
outcome of the handler: `MarkSuccessful` on `nil`, `MarkErrored` with the
error otherwise. -/
def markCall (msg : Retry) (o : Outcome) : ManagerCall :=
  match o.err with
  | none => ManagerCall.markSuccessful msg
  | some err => ManagerCall.markErrored msg err

/-- The row as the specification has it marked successful: one more attempt. -/
def Retry.succeeded (msg : Retry) : Retry := { msg with Attempts := msg.Attempts + 1 }

/-- The row as the specification has it marked errored: one more attempt,
errored, and deadlettered when the attempts reach the last stage sequence. -/
def Retry.failed (msg : Retry) (lastStageSequence : Nat) : Retry :=
  { msg with
    Errored := true
    Deadlettered := decide (msg.Attempts + 1 ≥ lastStageSequence)
    Attempts := msg.Attempts + 1 }

/-- The call on the repository that the specification has for a row, given the
outcome of the handler. -/
def repoMark (lastStageSequence : String → Nat) (msg : Retry) (o : Outcome) : RepoCall :=
  match o.err with
  | none => RepoCall.markRetrySuccessful msg.succeeded
  | some err => RepoCall.markRetryErrored (msg.failed (lastStageSequence msg.Topic)) err

/-- The table after the marks that the specification has for the rows of a
batch, each executed when the handler returned. -/
def markedRows (lastStageSequence : String → Nat) : Table → List Retry → List Outcome → Table
  | rows, msg :: rest, o :: os =>
    match o.err with
    | none =>
      markedRows lastStageSequence
        (Repository.MarkRetrySuccessful rows o.finish msg.succeeded) rest os
    | some err =>
      markedRows lastStageSequence
        (Repository.MarkRetryErrored rows o.finish
          (msg.failed (lastStageSequence msg.Topic)) err) rest os
  | rows, _, _ => rows

/-- The lease that a tick of the stage worker takes with the retry manager of
the specification: the table after the lease and the batch. -/
def tickBatch (st : WorkerState ManagerStore) (topic : String) (rc : DBTopicRetry) :
    Table × List Retry :=
  Repository.GetMessagesForRetry st.store.rows st.store.nextBatch st.world.now topic
    rc.Sequence rc.Interval

/-- The `id` of the row that a call on the repository marks successful or
errored, if the call is a mark. -/
def RepoCall.markedId : RepoCall → Option Nat
  | RepoCall.getMessagesForRetry _ _ _ => none
  | RepoCall.markRetrySuccessful retry => some retry.ID
  | RepoCall.markRetryErrored retry _ => some retry.ID

/-- The Failures among events, in order. -/
def failuresOf (evs : List Event) : List Failure :=
  evs.filterMap (fun e => match e with
    | Event.failure f => some f
    | _ => none)

/-- No row is both successful and deadlettered. -/
def flagsExclusive (rows : Table) : Prop :=
  ∀ r ∈ rows, ¬ (r.successful = true ∧ r.deadlettered = true)

/-- The lease is current: a row of the table has its `id` and carries its
batch. -/
def Lease.current (l : Lease) (rows : Table) : Prop :=
  ∃ r ∈ rows, r.id = l.id ∧ r.batch_id = some l.batchId

/-- The context of the lease has timed out. -/
def Lease.expired (l : Lease) (clock : Time) : Prop :=
  l.takenAt.ns + tickTimeout < clock.ns

/-- What holds of every state that the operations reach: the primary key, the
exclusion of the two flags, that a lease not yet marked is current or has
timed out, and that a row which carries the batch of a lease not yet marked
is neither successful nor deadlettered and was leased at the instant of that
lease. -/
def RepoState.sound (s : RepoState) : Prop :=
  uniqueIds s.rows ∧ flagsExclusive s.rows ∧
  (∀ l ∈ s.held, l.current s.rows ∨ l.expired s.clock) ∧
  ∀ r ∈ s.rows, ∀ l ∈ s.held, l.id = r.id → r.batch_id = some l.batchId →
    r.successful = false ∧ r.deadlettered = false ∧ r.retry_started_at = some l.takenAt

/-- The instant `t` cut down to a whole second. -/
def Time.truncateToSecond (t : Time) : Time := ⟨t.ns / Second * Second⟩

/-- The year of `t`, in a zone `zoneMinutes` east of UTC, has four digits
(0000 to 9999), so that RFC 3339 has a text for `t`. -/
def inRFC3339Range (zoneMinutes : Int) (t : Time) : Prop :=
  0 ≤ t.ns / 1000000000 + 60 * zoneMinutes + epochSeconds ∧
  t.ns / 1000000000 + 60 * zoneMinutes + epochSeconds < 3652425 * 86400

instance (zoneMinutes : Int) (t : Time) : Decidable (inRFC3339Range zoneMinutes t) := by
  unfold inRFC3339Range
  infer_instance

/-! ## Sample inputs -/

/-- A time library that knows three timestamps. -/
def sampleTime : TimeLib where
  Parse := fun s =>
    if s = "1970-01-01T00:00:01Z" then Except.ok ⟨1 * Second⟩
    else if s = "1970-01-01T00:01:40Z" then Except.ok ⟨100 * Second⟩
    else if s = "1970-01-01T00:01:00Z" then Except.ok ⟨60 * Second⟩
    else Except.error "parsing time: cannot parse as RFC3339"
  Format := fun t =>
    if t = ⟨1 * Second⟩ then "1970-01-01T00:00:01Z"
    else if t = ⟨100 * Second⟩ then "1970-01-01T00:01:40Z"
    else if t = ⟨60 * Second⟩ then "1970-01-01T00:01:00Z"
    else "0001-01-01T00:00:00Z"

/-- The chain `product -> product.retry1 (10s) -> product.deadLetter`; every
stage has the topic key `product`. -/
def sampleConfig : Config where
  FindTopicKey := fun t =>
    if t = "product" ∨ t = "product.retry1" ∨ t = "product.deadLetter" then "product" else ""
  NextTopicInChain := fun t =>
    if t = "product" then Except.ok ⟨"product.retry1", 10 * Second, false⟩
    else if t = "product.retry1" then Except.ok ⟨"product.deadLetter", 0, false⟩
    else Except.error "no next topic in the chain"

/-- A handler that always fails, after one millisecond. -/
def failingHandler : Handler := fun _ _ => ⟨some "something bad happened", 1000000⟩

/-- A handler that always succeeds, after one millisecond. -/
def succeedingHandler : Handler := fun _ _ => ⟨none, 1000000⟩

/-- A consumer whose handler for `product` always fails. -/
def sampleConsumer : consumer where
  cfg := sampleConfig
  handlers := fun k => if k = "product" then some failingHandler else none
  time := sampleTime

/-- A consumer with no registered handler. -/
def bareConsumer : consumer where
  cfg := sampleConfig
  handlers := fun _ => none
  time := sampleTime

/-- The world at second 50, nothing done yet. -/
def sampleWorld : World := ⟨⟨50 * Second⟩, []⟩

/-- The message of the tests. -/
def exampleMsg : ConsumerMessage :=
  { Headers := [], Key := "", Value := "\x7b\"foo\":\"bar\"\x7d", Topic := "product",
    Partition := 0, Offset := 7 }

/-- A consumer whose handler for `product` always succeeds. -/
def okConsumer : consumer where
  cfg := sampleConfig
  handlers := fun k => if k = "product" then some succeedingHandler else none
  time := sampleTime

/-- A message redelivered on the retry topic, due at second 100. -/
def retryMsg : ConsumerMessage :=
  { exampleMsg with
    Headers := [⟨"NextTimeRetry", "1970-01-01T00:01:40Z"⟩], Topic := "product.retry1" }

/-- A message whose `NextTimeRetry` header is not a timestamp. -/
def garbledMsg : ConsumerMessage :=
  { exampleMsg with Headers := [⟨"NextTimeRetry", "tomorrow"⟩] }

/-- A message with two `NextTimeRetry` headers: the first is due at second
100, the last at second 1. -/
def twoHeaderMsg : ConsumerMessage :=
  { exampleMsg with
    Headers := [⟨"NextTimeRetry", "1970-01-01T00:01:40Z"⟩,
      ⟨"NextTimeRetry", "1970-01-01T00:00:01Z"⟩] }

/-- The Failure of the message of the tests. -/
def exampleFailure : Failure :=
  FailureFromSaramaMessage "something bad happened" "product.retry1" exampleMsg

/-- The instant one hour after the epoch. -/
def oneHour : Time := ⟨3600 * Second⟩

/-- The preloaded row of scenario S4, as the store holds it half a second
after the preload: leased fifteen minutes ago, not finished, no attempt made. -/
def preloadedRow : RetryRow :=
  { id := 1, topic := "product", payload_json := "\x7b\"foo\":\"bar\"\x7d",
    payload_headers := [], payload_key := "", kafka_offset := 7, kafka_partition := 0,
    attempts := 0, batch_id := some 41, retry_started_at := some ⟨3600 * Second - 15 * Minute⟩,
    retry_finished_at := none, last_error := "", errored := false, successful := false,
    deadlettered := false, created_at := ⟨3600 * Second - 500000000⟩,
    updated_at := ⟨3600 * Second - 500000000⟩ }

/-- The same row, preloaded twenty minutes ago. -/
def settledRow : RetryRow :=
  { preloadedRow with
    created_at := ⟨3600 * Second - 20 * Minute⟩, updated_at := ⟨3600 * Second - 20 * Minute⟩ }

/-- The table after a failure was published at second 0. -/
def publishedTable : Table := Repository.PublishFailure [] 1 ⟨0⟩ exampleFailure

/-- The table after the stage-0 worker leased the row at second 10 (batch 100). -/
def leasedOnceTable : Table :=
  (Repository.GetMessagesForRetry publishedTable 100 ⟨10 * Second⟩ "product" 0 (1 * Second)).1

/-- The retry that the stage-0 worker got, as it is handed to
`MarkRetryErrored` after the handler failed: one more attempt, errored, not
yet deadlettered. -/
def erroredRetry : Retry :=
  { ID := 1, Topic := "product", PayloadJSON := "\x7b\"foo\":\"bar\"\x7d", PayloadHeaders := [],
    PayloadKey := "", KafkaOffset := 7, KafkaPartition := 0, Attempts := 1, Errored := true,
    Deadlettered := false }

/-- The table after the stage-0 attempt was marked errored at second 11. -/
def erroredOnceTable : Table :=
  Repository.MarkRetryErrored leasedOnceTable ⟨11 * Second⟩ erroredRetry "something bad happened"

/-- The table after the stage-1 worker leased the row at second 20 (batch 101).
It is also the table after a mark of that attempt failed, since a failed
`UPDATE` changes nothing. -/
def leasedTwiceTable : Table :=
  (Repository.GetMessagesForRetry erroredOnceTable 101 ⟨20 * Second⟩ "product" 1 (5 * Second)).1

/-- The retry that the stage-0 worker got from its lease at second 10. -/
def leasedRetry : Retry :=
  { erroredRetry with Attempts := 0, Errored := false }

/-- A table with one row that can be leased at the end of the first hour and
one that cannot. -/
def twoRowTable : Table := [settledRow, { preloadedRow with id := 2 }]

/-- A conversion of a retry to a message that copies the fields by name. -/
def sampleToSarama (msg : Retry) : ConsumerMessage :=
  { Headers := msg.PayloadHeaders, Key := msg.PayloadKey, Value := msg.PayloadJSON,
    Topic := msg.Topic, Partition := msg.KafkaPartition, Offset := msg.KafkaOffset }

/-- A database collection whose handler for `product` always fails and whose
topics have two stages. -/
def sampleDbCollection : kafkaConsumerDbCollection ManagerStore where
  retryManager := Manager (fun _ => 2)
  handlerMap := fun k => if k = "product" then some failingHandler else none
  ToSaramaConsumerMessage := sampleToSarama
  dbRetryPollInterval := 5 * Second

/-- A database collection without handlers. -/
def bareDbCollection : kafkaConsumerDbCollection ManagerStore where
  retryManager := Manager (fun _ => 2)
  handlerMap := fun _ => none
  ToSaramaConsumerMessage := sampleToSarama
  dbRetryPollInterval := 5 * Second

/-- The first stage of `product`: one second after the failure. -/
def firstStage : DBTopicRetry := { Interval := 1 * Second, Sequence := 0, Key := "product" }

/-- A worker at second 50 on the table with the one published row. -/
def sampleWorkerState : WorkerState ManagerStore :=
  { world := sampleWorld, store := { rows := publishedTable, nextBatch := 100, repoCalls := [] },
    calls := [] }

/-- A lease reclaimed while its first holder is still processing: the row is
leased at second 10 (batch 100); eleven minutes later the handler of the first
holder is still running and the lease is reclaimed (batch 101); the second
holder succeeds and marks the row successful two seconds later. -/
def reclaimOps : List RepoOp :=
  [ RepoOp.publishFailure 1 ⟨0⟩ exampleFailure,
    RepoOp.getMessagesForRetry 100 ⟨10 * Second⟩ "product" 0 (1 * Second),
    RepoOp.getMessagesForRetry 101 ⟨10 * Second + 11 * Minute⟩ "product" 0 (1 * Second),
    RepoOp.markRetrySuccessful ⟨12 * Second + 11 * Minute⟩ 101 erroredRetry ]

/-- The same, followed by the mark of the first holder, whose handler failed:
errored and deadlettered, 663 seconds after its lease. -/
def raceOps : List RepoOp :=
  reclaimOps ++
    [ RepoOp.markRetryErrored ⟨13 * Second + 11 * Minute⟩ 100
        { erroredRetry with Deadlettered := true } "something bad happened" ]

/-- The state at the end of the reclaimed lease. -/
def reclaimEnd : RepoState := (runOps (RepoState.empty ⟨0⟩) reclaimOps).getD (RepoState.empty ⟨0⟩)

/-- A configuration with a main host and a retry host. -/
def sampleStartConfig : StartConfig where
  Host := ["kafka:9092"]
  RetryHost := ["kafka-retry:9092"]
  ConsumableTopics := none
  MainTopics := none
  DBRetries := fun _ => []

/-- The main topic `product`. -/
def mainTopic : KafkaTopic := { Name := "product", Delay := 0, IsMainTopic := true }

/-- The first retry topic of `product`. -/
def retryTopic : KafkaTopic :=
  { Name := "product.retry1", Delay := 10 * Second, IsMainTopic := false }

/-- A connector that always connects. -/
def okConnector : kafkaConnector := fun _ => none

/-- A consumer whose `time` package works in UTC and whose handler for
`product` always fails. -/
def utcConsumer : consumer where
  cfg := sampleConfig
  handlers := fun k => if k = "product" then some failingHandler else none
  time := rfc3339 0

/-- The world at second 50.5, nothing done yet. -/
def halfSecondWorld : World := ⟨⟨50 * Second + 500000000⟩, []⟩

/-- The message of the tests as `sendToFailureChannel` leaves it at second
50.5, which is how it is redelivered. -/
def redeliveredMsg : ConsumerMessage :=
  (utcConsumer.sendToFailureChannel halfSecondWorld exampleMsg "something bad happened").2

/-! ## Lemmas on the header scan and on one turn of the loop -/

lemma scanHeaders_ok (tl : TimeLib) (hs : List RecordHeader) (h : headersParse tl hs) :
    ∀ acc, ∃ r, scanHeaders tl hs acc = Except.ok r := by
  induction hs with
  | nil => intro acc; exact ⟨acc, rfl⟩
  | cons hd tl' ih =>
    intro acc
    have ih' := ih (fun x hx => h x (List.mem_cons_of_mem _ hx))
    unfold scanHeaders
    by_cases hk : hd.Key = nextTimeRetry
    · obtain ⟨t, ht⟩ := h hd (List.mem_cons_self _ _) hk
      simp only [hk, if_true, ht]
      exact ih' _
    · simp only [hk, if_false]
      exact ih' _

lemma scanHeaders_error (tl : TimeLib) (hs : List RecordHeader)
    (h : ∃ hd ∈ hs, hd.Key = nextTimeRetry ∧ ∃ e, tl.Parse hd.Value = Except.error e) :
    ∀ acc, ∃ e, scanHeaders tl hs acc = Except.error e ∧
      ∃ hd ∈ hs, hd.Key = nextTimeRetry ∧ tl.Parse hd.Value = Except.error e := by
  induction hs with
  | nil => obtain ⟨hd, hmem, _⟩ := h; simp at hmem
  | cons x xs ih =>
    intro acc
    unfold scanHeaders
    by_cases hk : x.Key = nextTimeRetry
    · simp only [hk, if_true]
      cases hp : tl.Parse x.Value with
      | error e => exact ⟨e, rfl, x, List.mem_cons_self _ _, hk, hp⟩
      | ok t =>
        have hrest : ∃ hd ∈ xs, hd.Key = nextTimeRetry ∧ ∃ e, tl.Parse hd.Value = Except.error e := by
          obtain ⟨hd, hmem, hkey, e, he⟩ := h
          rcases List.mem_cons.mp hmem with heq | hin
          · subst heq; rw [hp] at he; cases he
          · exact ⟨hd, hin, hkey, e, he⟩
        obtain ⟨e, he, hd, hmem, hkey, hpe⟩ := ih hrest (t, true)
        exact ⟨e, he, hd, List.mem_cons_of_mem _ hmem, hkey, hpe⟩
    · simp only [hk, if_false]
      have hrest : ∃ hd ∈ xs, hd.Key = nextTimeRetry ∧ ∃ e, tl.Parse hd.Value = Except.error e := by
        obtain ⟨hd, hmem, hkey, e, he⟩ := h
        rcases List.mem_cons.mp hmem with heq | hin
        · subst heq; exact absurd hkey hk
        · exact ⟨hd, hin, hkey, e, he⟩
      obtain ⟨e, he, hd, hmem, hkey, hpe⟩ := ih hrest acc
      exact ⟨e, he, hd, List.mem_cons_of_mem _ hmem, hkey, hpe⟩

/-- What the scan gives when every `NextTimeRetry` header parses: the
timestamp of the last one, or the initial pair when there is none. -/
lemma scanHeaders_last (tl : TimeLib) (hs : List RecordHeader) (h : headersParse tl hs) :
    ∀ acc, scanHeaders tl hs acc =
      match (retryHeaders hs).getLast? with
      | none => Except.ok acc
      | some hd => (tl.Parse hd.Value).map (fun t => (t, true)) := by
  induction hs with
  | nil => intro acc; rfl
  | cons x xs ih =>
    intro acc
    have ih' := ih (fun y hy => h y (List.mem_cons_of_mem _ hy))
    unfold scanHeaders
    by_cases hk : x.Key = nextTimeRetry
    · obtain ⟨t, ht⟩ := h x (List.mem_cons_self _ _) hk
      simp only [hk, if_true, ht]
      rw [ih']
      have hf : retryHeaders (x :: xs) = x :: retryHeaders xs := by
        simp [retryHeaders, hk]
      rw [hf]
      cases hl : (retryHeaders xs).getLast? with
      | none =>
        have : retryHeaders xs = [] := List.getLast?_eq_none_iff.mp hl
        simp [this, ht, Except.map]
      | some y =>
        have hne : retryHeaders xs ≠ [] := by
          intro hnil; rw [hnil] at hl; simp at hl
        obtain ⟨z, zs, hzs⟩ := List.exists_cons_of_ne_nil hne
        rw [hzs] at hl ⊢
        rw [List.getLast?_cons_cons, hl]
    · simp only [hk, if_false]
      rw [ih']
      have hf : retryHeaders (x :: xs) = retryHeaders xs := by
        simp [retryHeaders, hk]
      rw [hf]

lemma afterWait_trace (w : World) (scan : Time × Bool) :
    ∃ sl, (afterWait w scan).trace = w.trace ++ sl ∧ onlySleeps sl := by
  unfold afterWait
  split
  · exact ⟨[Event.slept (scan.1.Sub w.now)], rfl, by
      intro e he; simp at he; exact ⟨_, he⟩⟩
  · exact ⟨[], by simp, by intro e he; simp at he⟩

/-- One turn of the loop when the headers scan to `scan` and the handler `h`
is registered. -/
lemma consumeMessage_handled (c : consumer) (w : World) (message : ConsumerMessage)
    (h : Handler) (scan : Time × Bool)
    (hscan : scanHeaders c.time message.Headers (Time.zero, false) = Except.ok scan)
    (hh : c.handlers.handlerForTopic (c.cfg.FindTopicKey message.Topic) = some h) :
    c.consumeMessage w message =
      match (h (afterWait w scan) message).err with
      | some err =>
        (c.markMessageProcessed
          (c.sendToFailureChannel
            ⟨(afterWait w scan).now.Add (h (afterWait w scan) message).elapsed,
              (afterWait w scan).trace ++
                [Event.handled message (afterWait w scan).now (some err)]⟩ message err).1
          (c.sendToFailureChannel
            ⟨(afterWait w scan).now.Add (h (afterWait w scan) message).elapsed,
              (afterWait w scan).trace ++
                [Event.handled message (afterWait w scan).now (some err)]⟩ message err).2, none)
      | none =>
        (c.markMessageProcessed
          ⟨(afterWait w scan).now.Add (h (afterWait w scan) message).elapsed,
            (afterWait w scan).trace ++ [Event.handled message (afterWait w scan).now none]⟩
          message, none) := by
  obtain ⟨rt, chk⟩ := scan
  unfold consumer.consumeMessage
  simp only [hscan, hh]
  cases hr : (h (afterWait w (rt, chk)) message).err with
  | none =>
    simp only [afterWait] at hr ⊢
    simp only [hr]
  | some err =>
    simp only [afterWait] at hr ⊢
    simp only [hr]

/-- One turn of the loop when the headers scan to `scan` and no handler is
registered. -/
lemma consumeMessage_no_handler (c : consumer) (w : World) (message : ConsumerMessage)
    (scan : Time × Bool)
    (hscan : scanHeaders c.time message.Headers (Time.zero, false) = Except.ok scan)
    (hh : c.handlers.handlerForTopic (c.cfg.FindTopicKey message.Topic) = none) :
    c.consumeMessage w message =
      (afterWait w scan,
        some ("consumer: handler not found for topic: " ++ c.cfg.FindTopicKey message.Topic)) := by
  obtain ⟨rt, chk⟩ := scan
  unfold consumer.consumeMessage
  simp only [hscan, hh, afterWait]

/-- One turn of the loop when the scan of the headers fails. -/
lemma consumeMessage_parse_error (c : consumer) (w : World) (message : ConsumerMessage)
    (e : String)
    (hscan : scanHeaders c.time message.Headers (Time.zero, false) = Except.error e) :
    c.consumeMessage w message = (w, some e) := by
  unfold consumer.consumeMessage
  simp only [hscan]

/-- What `sendToFailureChannel` does to the trace and to the message. -/
lemma sendToFailureChannel_spec (c : consumer) (w : World) (message : ConsumerMessage)
    (err : String) :
    (c.sendToFailureChannel w message err).1.now = w.now ∧
    (c.sendToFailureChannel w message err).2.Topic = message.Topic ∧
    (c.sendToFailureChannel w message err).2.Partition = message.Partition ∧
    (c.sendToFailureChannel w message err).2.Offset = message.Offset ∧
    ((∃ e, c.cfg.NextTopicInChain message.Topic = Except.error e ∧
        (c.sendToFailureChannel w message err).1.trace = w.trace) ∨
     (∃ nt f, c.cfg.NextTopicInChain message.Topic = Except.ok nt ∧
        (c.sendToFailureChannel w message err).1.trace = w.trace ++ [Event.failure f])) := by
  unfold consumer.sendToFailureChannel
  cases hn : c.cfg.NextTopicInChain message.Topic with
  | error e => exact ⟨rfl, rfl, rfl, rfl, Or.inl ⟨e, rfl, rfl⟩⟩
  | ok nt => exact ⟨rfl, rfl, rfl, rfl, Or.inr ⟨nt, _, rfl, rfl⟩⟩

lemma ConsumeClaim_cons_ok (c : consumer) (w w1 : World) (message : ConsumerMessage)
    (rest : List ConsumerMessage) (h : c.consumeMessage w message = (w1, none)) :
    c.ConsumeClaim w (message :: rest) = c.ConsumeClaim w1 rest := by
  simp only [consumer.ConsumeClaim, h]

lemma ConsumeClaim_cons_error (c : consumer) (w w1 : World) (message : ConsumerMessage)
    (rest : List ConsumerMessage) (e : String) (h : c.consumeMessage w message = (w1, some e)) :
    c.ConsumeClaim w (message :: rest) = (w1, some e) := by
  simp only [consumer.ConsumeClaim, h]

/-- The five ways one turn of the loop can go, with the events of each. -/
lemma consumeMessage_cases (c : consumer) (w : World) (message : ConsumerMessage) :
    (∃ e, scanHeaders c.time message.Headers (Time.zero, false) = Except.error e ∧
      c.consumeMessage w message = (w, some e)) ∨
    (∃ scan, scanHeaders c.time message.Headers (Time.zero, false) = Except.ok scan ∧
      ((c.handlers.handlerForTopic (c.cfg.FindTopicKey message.Topic) = none ∧
          c.consumeMessage w message = (afterWait w scan,
            some ("consumer: handler not found for topic: " ++
              c.cfg.FindTopicKey message.Topic))) ∨
       (∃ h w1, c.handlers.handlerForTopic (c.cfg.FindTopicKey message.Topic) = some h ∧
          c.consumeMessage w message = (w1, none) ∧
          (((h (afterWait w scan) message).err = none ∧
              w1.trace = (afterWait w scan).trace ++
                [Event.handled message (afterWait w scan).now none, Event.marked message]) ∨
           (∃ err, (h (afterWait w scan) message).err = some err ∧
              ((∃ e, c.cfg.NextTopicInChain message.Topic = Except.error e ∧
                  w1.trace = (afterWait w scan).trace ++
                    [Event.handled message (afterWait w scan).now (some err),
                      Event.marked message]) ∨
               (∃ nt f m1, c.cfg.NextTopicInChain message.Topic = Except.ok nt ∧
                  m1 = { message with Headers := message.Headers ++
                    [⟨nextTimeRetry, c.time.Format
                      (((afterWait w scan).now.Add
                        (h (afterWait w scan) message).elapsed).Add nt.Delay)⟩] } ∧
                  f = FailureFromSaramaMessage err nt.Name m1 ∧
                  w1.trace = (afterWait w scan).trace ++
                    [Event.handled message (afterWait w scan).now (some err),
                      Event.failure f, Event.marked m1]))))))) := by
  cases hscan : scanHeaders c.time message.Headers (Time.zero, false) with
  | error e => exact Or.inl ⟨e, rfl, consumeMessage_parse_error c w message e hscan⟩
  | ok scan =>
    refine Or.inr ⟨scan, rfl, ?_⟩
    cases hh : c.handlers.handlerForTopic (c.cfg.FindTopicKey message.Topic) with
    | none => exact Or.inl ⟨rfl, consumeMessage_no_handler c w message scan hscan hh⟩
    | some h =>
      have hstep := consumeMessage_handled c w message h scan hscan hh
      cases hr : (h (afterWait w scan) message).err with
      | none =>
        rw [hr] at hstep
        exact Or.inr ⟨h, _, rfl, hstep,
          Or.inl ⟨hr, by simp [consumer.markMessageProcessed]⟩⟩
      | some err =>
        rw [hr] at hstep
        refine Or.inr ⟨h, _, rfl, hstep, Or.inr ⟨err, hr, ?_⟩⟩
        cases hn : c.cfg.NextTopicInChain message.Topic with
        | error e =>
          refine Or.inl ⟨e, rfl, ?_⟩
          simp [consumer.markMessageProcessed, consumer.sendToFailureChannel, hn]
        | ok nt =>
          have key : ∀ W : World, c.sendToFailureChannel W message err =
              (⟨W.now, W.trace ++ [Event.failure (FailureFromSaramaMessage err nt.Name
                { message with Headers := message.Headers ++
                    [⟨nextTimeRetry, c.time.Format (W.now.Add nt.Delay)⟩] })]⟩,
                { message with Headers := message.Headers ++
                    [⟨nextTimeRetry, c.time.Format (W.now.Add nt.Delay)⟩] }) := by
            intro W
            unfold consumer.sendToFailureChannel
            rw [hn]
          refine Or.inr ⟨nt, _, _, rfl, rfl, rfl, ?_⟩
          rw [key]
          simp [consumer.markMessageProcessed]

/-- After the wait, one turn of the loop never sleeps again, and it invokes the
handler, if it does, at the instant the wait ends. -/
lemma consumeMessage_after_wait (c : consumer) (w : World) (message : ConsumerMessage)
    (scan : Time × Bool)
    (hscan : scanHeaders c.time message.Headers (Time.zero, false) = Except.ok scan) :
    ∃ tl, (c.consumeMessage w message).1.trace = (afterWait w scan).trace ++ tl ∧
      (∀ e ∈ tl, ∀ d, e ≠ Event.slept d) ∧
      (∀ m start r, Event.handled m start r ∈ tl → start = (afterWait w scan).now) := by
  rcases consumeMessage_cases c w message with
    ⟨e, he, _⟩ | ⟨scan1, hscan1, ⟨_, hstep⟩ | ⟨h, w1, _, hstep, hcase⟩⟩
  · rw [hscan] at he; cases he
  · rw [hscan] at hscan1; cases hscan1
    exact ⟨[], by simp [hstep], by intro e he; simp at he, by intro m s r hm; simp at hm⟩
  · rw [hscan] at hscan1; cases hscan1
    rcases hcase with ⟨_, htr⟩ | ⟨err, _, ⟨e, _, htr⟩ | ⟨nt, f, m1, _, _, _, htr⟩⟩
    · refine ⟨_, by rw [hstep]; exact htr, ?_, ?_⟩
      · intro e he d hd; subst hd; simp at he
      · intro m s r hm; simp at hm; exact hm.2.1
    · refine ⟨_, by rw [hstep]; exact htr, ?_, ?_⟩
      · intro e he d hd; subst hd; simp at he
      · intro m s r hm; simp at hm; exact hm.2.1
    · refine ⟨_, by rw [hstep]; exact htr, ?_, ?_⟩
      · intro e he d hd; subst hd; simp at he
      · intro m s r hm; simp at hm; exact hm.2.1

/-- One turn of the loop on a message whose headers scan to `scan` and whose
handler `h` is registered: the turn returns no error; after the wait its
events are the call of `h`, the Failure if there is one, and the mark. -/
lemma consumeMessage_turn (c : consumer) (w : World) (message : ConsumerMessage)
    (h : Handler) (scan : Time × Bool)
    (hscan : scanHeaders c.time message.Headers (Time.zero, false) = Except.ok scan)
    (hh : c.handlers.handlerForTopic (c.cfg.FindTopicKey message.Topic) = some h) :
    (c.consumeMessage w message).2 = none ∧
    ∃ (fs : List Event) (marked : ConsumerMessage),
      (c.consumeMessage w message).1.trace =
        (afterWait w scan).trace ++
          [Event.handled message (afterWait w scan).now (h (afterWait w scan) message).err] ++
          fs ++ [Event.marked marked] ∧
      marked.Topic = message.Topic ∧ marked.Partition = message.Partition ∧
      marked.Offset = message.Offset ∧
      (∀ err nt, (h (afterWait w scan) message).err = some err →
        c.cfg.NextTopicInChain message.Topic = Except.ok nt →
        marked = { message with Headers := message.Headers ++
          [⟨nextTimeRetry, c.time.Format
            (((afterWait w scan).now.Add (h (afterWait w scan) message).elapsed).Add
              nt.Delay)⟩] } ∧
        fs = [Event.failure (FailureFromSaramaMessage err nt.Name marked)]) ∧
      (((h (afterWait w scan) message).err = none ∨
          ∃ e, c.cfg.NextTopicInChain message.Topic = Except.error e) →
        fs = [] ∧ marked = message) := by
  rcases consumeMessage_cases c w message with
    ⟨e, he, _⟩ | ⟨scan1, hscan1, ⟨hnone, _⟩ | ⟨h1, w1, hh1, hstep, hcase⟩⟩
  · rw [hscan] at he; cases he
  · rw [hh] at hnone; cases hnone
  · rw [hscan] at hscan1; cases hscan1
    rw [hh] at hh1; cases hh1
    refine ⟨by rw [hstep], ?_⟩
    rcases hcase with ⟨hr, htr⟩ | ⟨err, hr, ⟨e, hn, htr⟩ | ⟨nt, f, m1, hn, hm1, hf, htr⟩⟩
    · refine ⟨[], message, ?_, rfl, rfl, rfl, ?_, fun _ => ⟨rfl, rfl⟩⟩
      · rw [hstep, hr]; simp [htr]
      · intro err nt herr _
        rw [hr] at herr; cases herr
    · refine ⟨[], message, ?_, rfl, rfl, rfl, ?_, fun _ => ⟨rfl, rfl⟩⟩
      · rw [hstep, hr]; simp [htr]
      · intro err1 nt _ hnt
        rw [hn] at hnt; cases hnt
    · refine ⟨[Event.failure f], m1, ?_, by rw [hm1], by rw [hm1], by rw [hm1], ?_, ?_⟩
      · rw [hstep, hr]; simp [htr]
      · intro err1 nt1 herr hnt
        rw [hr] at herr; cases herr
        rw [hn] at hnt; cases hnt
        exact ⟨hm1, by rw [hf]⟩
      · rintro (hnone | ⟨e, he⟩)
        · rw [hr] at hnone; cases hnone
        · rw [hn] at he; cases he

/-- One turn of the loop only adds to the trace. -/
lemma consumeMessage_trace_extends (c : consumer) (w : World) (message : ConsumerMessage) :
    ∃ new, (c.consumeMessage w message).1.trace = w.trace ++ new := by
  rcases consumeMessage_cases c w message with
    ⟨e, _, hstep⟩ | ⟨scan, hscan, ⟨_, hstep⟩ | ⟨h, w1, hh, _, _⟩⟩
  · exact ⟨[], by simp [hstep]⟩
  · obtain ⟨sl, hsl, _⟩ := afterWait_trace w scan
    exact ⟨sl, by simp [hstep, hsl]⟩
  · obtain ⟨sl, hsl, _⟩ := afterWait_trace w scan
    obtain ⟨_, fs, marked, htr, _⟩ := consumeMessage_turn c w message h scan hscan hh
    exact ⟨sl ++ [Event.handled message (afterWait w scan).now
      (h (afterWait w scan) message).err] ++ fs ++ [Event.marked marked], by
        rw [htr, hsl]; simp⟩

/-- The claim loop only adds to the trace. -/
lemma ConsumeClaim_trace_extends (c : consumer) (msgs : List ConsumerMessage) :
    ∀ w : World, ∃ later, (c.ConsumeClaim w msgs).1.trace = w.trace ++ later := by
  induction msgs with
  | nil => intro w; exact ⟨[], by simp [consumer.ConsumeClaim]⟩
  | cons m rest ih =>
    intro w
    obtain ⟨new, hnew⟩ := consumeMessage_trace_extends c w m
    cases hstep : c.consumeMessage w m with
    | mk w1 r =>
      rw [hstep] at hnew
      cases r with
      | some e =>
        rw [ConsumeClaim_cons_error c w w1 m rest e hstep]
        exact ⟨new, hnew⟩
      | none =>
        rw [ConsumeClaim_cons_ok c w w1 m rest hstep]
        obtain ⟨later, hlater⟩ := ih w1
        exact ⟨new ++ later, by rw [hlater, hnew]; simp⟩

lemma onlySleeps_countP_isFailure (sl : List Event) (h : onlySleeps sl) :
    sl.countP Event.isFailure = 0 := by
  rw [List.countP_eq_zero]
  intro e he
  obtain ⟨d, hd⟩ := h e he
  rw [hd]; simp [Event.isFailure]

lemma onlySleeps_countP_isMark (sl : List Event) (h : onlySleeps sl) :
    sl.countP Event.isMark = 0 := by
  rw [List.countP_eq_zero]
  intro e he
  obtain ⟨d, hd⟩ := h e he
  rw [hd]; simp [Event.isMark]

lemma onlySleeps_no_failure (sl : List Event) (h : onlySleeps sl) (f : Failure) :
    Event.failure f ∉ sl := by
  intro hf
  obtain ⟨d, hd⟩ := h _ hf
  cases hd

lemma onlySleeps_no_handled (sl : List Event) (h : onlySleeps sl) (m : ConsumerMessage)
    (start : Time) (r : Option String) : Event.handled m start r ∉ sl := by
  intro hf
  obtain ⟨d, hd⟩ := h _ hf
  cases hd

/-- The Failure of a turn, three ways: the handler returned nil, or it failed
on a topic without successor, and there is none; or it failed on a topic with
a successor, and there is one. -/
lemma consumeMessage_turn_failure (c : consumer) (w : World) (message : ConsumerMessage)
    (h : Handler) (scan : Time × Bool)
    (hscan : scanHeaders c.time message.Headers (Time.zero, false) = Except.ok scan)
    (hh : c.handlers.handlerForTopic (c.cfg.FindTopicKey message.Topic) = some h) :
    (c.consumeMessage w message).2 = none ∧
    ∃ (fs : List Event) (marked : ConsumerMessage),
      (c.consumeMessage w message).1.trace =
        (afterWait w scan).trace ++
          [Event.handled message (afterWait w scan).now (h (afterWait w scan) message).err] ++
          fs ++ [Event.marked marked] ∧
      marked.Topic = message.Topic ∧ marked.Partition = message.Partition ∧
      marked.Offset = message.Offset ∧
      ((fs = [] ∧ ((h (afterWait w scan) message).err = none ∨
          ∃ e, c.cfg.NextTopicInChain message.Topic = Except.error e)) ∨
       (∃ err nt f, fs = [Event.failure f] ∧ (h (afterWait w scan) message).err = some err ∧
          c.cfg.NextTopicInChain message.Topic = Except.ok nt)) := by
  obtain ⟨hnone, fs, marked, htr, hT, hP, hO, hfail, hno⟩ :=
    consumeMessage_turn c w message h scan hscan hh
  refine ⟨hnone, fs, marked, htr, hT, hP, hO, ?_⟩
  cases hr : (h (afterWait w scan) message).err with
  | none => exact Or.inl ⟨(hno (Or.inl hr)).1, Or.inl rfl⟩
  | some err =>
    cases hn : c.cfg.NextTopicInChain message.Topic with
    | error e => exact Or.inl ⟨(hno (Or.inr ⟨e, hn⟩)).1, Or.inr ⟨e, rfl⟩⟩
    | ok nt => exact Or.inr ⟨err, nt, _, (hfail err nt hr hn).2, rfl, rfl⟩

/-- When the headers do not all parse, one named `NextTimeRetry` fails to. -/
lemma not_headersParse (tl : TimeLib) (hs : List RecordHeader) (h : ¬ headersParse tl hs) :
    ∃ hd ∈ hs, hd.Key = nextTimeRetry ∧ ∃ e, tl.Parse hd.Value = Except.error e := by
  unfold headersParse at h
  push_neg at h
  obtain ⟨hd, hmem, hkey, hno⟩ := h
  cases hp : tl.Parse hd.Value with
  | error e => exact ⟨hd, hmem, hkey, e, hp⟩
  | ok t => exact absurd hp (hno t)

lemma maxDuration_eq : maxDuration = 9223372036854775807 := by
  norm_num [maxDuration]

lemma minDuration_eq : minDuration = -9223372036854775808 := by
  norm_num [minDuration]

/-- The duration `Time.Sub` gives for a later and an earlier instant is not
negative. -/
lemma Time.Sub_nonneg (t u : Time) (h : u.ns < t.ns) : 0 ≤ t.Sub u := by
  unfold Time.Sub
  rw [maxDuration_eq, minDuration_eq]
  change (0 : Int) ≤ _
  split
  · norm_num
  · split <;> omega

/-- The duration `Time.Sub` gives is the difference when the later instant is
at most the largest duration away. -/
lemma Time.Sub_exact (t u : Time) (h : u.ns < t.ns) (hfit : t.ns - u.ns ≤ maxDuration) :
    t.Sub u = t.ns - u.ns := by
  unfold Time.Sub
  rw [minDuration_eq]
  rw [if_neg (by omega), if_neg (by omega)]

/-! ## Lemmas on the repository -/

/-- The `WHERE` clause of `createEventBatch` decides the predicate of the
specification. -/
lemma batchCandidate_iff (topic : String) (sequence : Nat) (interval : Duration) (now : Time)
    (r : RetryRow) :
    batchCandidate topic (now.Add (consideredStaleAfter * -1)) sequence
        (now.Add (interval * -1)) r = true ↔
      leaseEligible topic sequence interval now r := by
  have hstale : (now.Add (consideredStaleAfter * -1)).ns = now.ns - 10 * Minute := by
    simp only [Time.Add, consideredStaleAfter]; ring
  have hbefore : (now.Add (interval * -1)).ns = now.ns - interval := by
    simp only [Time.Add]; ring
  unfold batchCandidate leaseEligible
  rw [hbefore]
  cases hb : r.batch_id with
  | none => simp; tauto
  | some b =>
    cases hf : r.retry_finished_at with
    | some f => simp
    | none =>
      cases hs : r.retry_started_at with
      | none => simp [startedBefore]
      | some s => simp [startedBefore, hstale]; tauto

lemma mem_of_map_id_eq {rows : Table} (hids : uniqueIds rows) {a b : RetryRow}
    (ha : a ∈ rows) (hb : b ∈ rows) (h : a.id = b.id) : a = b :=
  List.inj_on_of_nodup_map hids ha hb h

lemma uniqueIds_nodup {rows : Table} (hids : uniqueIds rows) : rows.Nodup :=
  List.Nodup.of_map _ hids

/-- Filtering a list without repetition by membership in one of its sublists
gives the sublist. -/
lemma filter_mem_sublist {α : Type} [DecidableEq α] {s l : List α} (hsub : s.Sublist l)
    (hnd : l.Nodup) : l.filter (fun x => decide (x ∈ s)) = s := by
  induction hsub with
  | slnil => rfl
  | @cons s l a hsl ih =>
    have hnd' := (List.nodup_cons.mp hnd)
    have ha : a ∉ s := fun h => hnd'.1 (hsl.subset h)
    rw [List.filter_cons_of_neg (by simpa using ha)]
    exact ih hnd'.2
  | @cons₂ s l a hsl ih =>
    have hnd' := (List.nodup_cons.mp hnd)
    rw [List.filter_cons_of_pos (by simp)]
    congr 1
    rw [← ih hnd'.2]
    apply List.filter_congr
    intro x hx
    have hxa : x ≠ a := fun h => hnd'.1 (h ▸ hx)
    simp [hxa]
    exact fun _ => hx

lemma leasedRows_sublist (rows : Table) (now : Time) (topic : String) (sequence : Nat)
    (interval : Duration) : (leasedRows rows now topic sequence interval).Sublist rows :=
  (List.take_sublist _ _).trans (List.filter_sublist _)

lemma leasedRows_eligible (rows : Table) (now : Time) (topic : String) (sequence : Nat)
    (interval : Duration) (r : RetryRow)
    (h : r ∈ leasedRows rows now topic sequence interval) :
    leaseEligible topic sequence interval now r := by
  have h1 := List.mem_of_mem_take h
  exact (batchCandidate_iff topic sequence interval now r).mp (List.mem_filter.mp h1).2

/-- With a primary key, the `UPDATE` of `createEventBatch` rewrites exactly
the leased rows. -/
lemma createEventBatch_eq (rows : Table) (batchId : UUID) (now : Time) (topic : String)
    (sequence : Nat) (interval : Duration) (hids : uniqueIds rows) :
    Repository.createEventBatch rows batchId now topic sequence interval =
      rows.map (fun r =>
        if r ∈ leasedRows rows now topic sequence interval then r.lease batchId now else r) := by
  unfold Repository.createEventBatch
  apply List.map_congr_left
  intro r hr
  have hiff : r.id ∈ (leasedRows rows now topic sequence interval).map RetryRow.id ↔
      r ∈ leasedRows rows now topic sequence interval := by
    constructor
    · intro h
      obtain ⟨r1, hr1, hid⟩ := List.mem_map.mp h
      have := mem_of_map_id_eq hids
        ((leasedRows_sublist rows now topic sequence interval).subset hr1) hr hid
      exact this ▸ hr1
    · intro h
      exact List.mem_map_of_mem _ h
  by_cases hm : r ∈ leasedRows rows now topic sequence interval
  · have := hiff.mpr hm
    simp only [leasedRows] at this hm ⊢
    simp only [this, hm, if_true]
  · have : ¬ r.id ∈ (leasedRows rows now topic sequence interval).map RetryRow.id :=
      fun h => hm (hiff.mp h)
    simp only [leasedRows] at this hm ⊢
    simp only [this, hm, if_false]

/-- With a primary key and a fresh batch identifier, `GetMessagesForRetry`
rewrites exactly the leased rows and returns them. -/
lemma GetMessagesForRetry_eq (rows : Table) (batchId : UUID) (now : Time) (topic : String)
    (sequence : Nat) (interval : Duration) (hids : uniqueIds rows)
    (hfresh : ∀ r ∈ rows, r.batch_id ≠ some batchId) :
    Repository.GetMessagesForRetry rows batchId now topic sequence interval =
      (rows.map (fun r =>
        if r ∈ leasedRows rows now topic sequence interval then r.lease batchId now else r),
       (leasedRows rows now topic sequence interval).map RetryRow.toRetry) := by
  unfold Repository.GetMessagesForRetry
  simp only [createEventBatch_eq rows batchId now topic sequence interval hids]
  congr 1
  unfold Repository.getCreatedEventBatch
  rw [List.filter_map, List.map_map]
  have hfilter : rows.filter ((fun r => decide (r.batch_id = some batchId)) ∘
      (fun r => if r ∈ leasedRows rows now topic sequence interval
        then r.lease batchId now else r)) =
      rows.filter (fun r => decide (r ∈ leasedRows rows now topic sequence interval)) := by
    apply List.filter_congr
    intro r hr
    by_cases hm : r ∈ leasedRows rows now topic sequence interval
    · simp [hm, RetryRow.lease]
    · simp [hm, hfresh r hr]
  rw [hfilter, filter_mem_sublist (leasedRows_sublist rows now topic sequence interval)
    (uniqueIds_nodup hids)]
  apply List.map_congr_left
  intro r hr
  simp [hr, RetryRow.lease, RetryRow.toRetry]

lemma toRetry_lease (r : RetryRow) (batchId : UUID) (now : Time) :
    (r.lease batchId now).toRetry = r.toRetry := rfl

lemma createEventBatch_ids (rows : Table) (batchId : UUID) (now : Time) (topic : String)
    (sequence : Nat) (interval : Duration) :
    (Repository.createEventBatch rows batchId now topic sequence interval).map RetryRow.id =
      rows.map RetryRow.id := by
  unfold Repository.createEventBatch
  simp only [List.map_map]
  apply List.map_congr_left
  intro r _
  simp only [Function.comp]
  split <;> rfl

lemma MarkRetryErrored_ids (rows : Table) (now : Time) (retry : Retry) (retryErr : String) :
    (Repository.MarkRetryErrored rows now retry retryErr).map RetryRow.id =
      rows.map RetryRow.id := by
  unfold Repository.MarkRetryErrored
  simp only [List.map_map]
  apply List.map_congr_left
  intro r _
  simp only [Function.comp]
  split <;> rfl

/-- Which retries `GetMessagesForRetry` returns on a table with a primary
key: those of the rows it leases and of the rows that already carried the
batch identifier. -/
lemma mem_GetMessagesForRetry (rows : Table) (batchId : UUID) (now : Time) (topic : String)
    (sequence : Nat) (interval : Duration) (hids : uniqueIds rows) (ret : Retry) :
    ret ∈ (Repository.GetMessagesForRetry rows batchId now topic sequence interval).2 ↔
      ∃ r ∈ rows, ret = r.toRetry ∧
        (r ∈ leasedRows rows now topic sequence interval ∨ r.batch_id = some batchId) := by
  unfold Repository.GetMessagesForRetry Repository.getCreatedEventBatch
  simp only [createEventBatch_eq rows batchId now topic sequence interval hids]
  simp only [List.mem_map, List.mem_filter, decide_eq_true_eq]
  constructor
  · rintro ⟨x, ⟨⟨r, hr, hx⟩, hb⟩, hret⟩
    refine ⟨r, hr, ?_, ?_⟩
    · rw [← hret, ← hx]
      split <;> rfl
    · by_cases hm : r ∈ leasedRows rows now topic sequence interval
      · exact Or.inl hm
      · rw [← hx, if_neg hm] at hb
        exact Or.inr hb
  · rintro ⟨r, hr, hret, hor⟩
    refine ⟨_, ⟨⟨r, hr, rfl⟩, ?_⟩, ?_⟩
    · by_cases hm : r ∈ leasedRows rows now topic sequence interval
      · rw [if_pos hm]; rfl
      · rw [if_neg hm]
        rcases hor with h | h
        · exact absurd h hm
        · exact h
    · rw [hret]
      split <;> rfl

/-- The number of candidates of `createEventBatch` is the number of rows that
satisfy the predicate of the specification. -/
lemma candidates_length (rows : Table) (now : Time) (topic : String) (sequence : Nat)
    (interval : Duration) :
    (rows.filter (batchCandidate topic (now.Add (consideredStaleAfter * -1)) sequence
      (now.Add (interval * -1)))).length =
      rows.countP (fun r => decide (leaseEligible topic sequence interval now r)) := by
  rw [← List.countP_eq_length_filter]
  apply List.countP_congr
  intro r _
  have := batchCandidate_iff topic sequence interval now r
  by_cases he : leaseEligible topic sequence interval now r
  · rw [this.mpr he]; simp [he]
  · have hf : batchCandidate topic (now.Add (consideredStaleAfter * -1)) sequence
        (now.Add (interval * -1)) r = false := by
      rw [Bool.eq_false_iff]; exact fun h => he (this.mp h)
    rw [hf]; simp [he]

/-- A row that satisfies the predicate is leased when at most 250 rows do. -/
lemma mem_leasedRows_of_eligible (rows : Table) (now : Time) (topic : String) (sequence : Nat)
    (interval : Duration) (r : RetryRow) (hr : r ∈ rows)
    (he : leaseEligible topic sequence interval now r)
    (hcount : rows.countP (fun r => decide (leaseEligible topic sequence interval now r)) ≤ 250) :
    r ∈ leasedRows rows now topic sequence interval := by
  unfold leasedRows
  rw [List.take_of_length_le (by rw [candidates_length]; exact hcount)]
  exact List.mem_filter.mpr ⟨hr, (batchCandidate_iff topic sequence interval now r).mpr he⟩

/-- A leased row is returned, and the table holds it with the batch
identifier and the start of the lease. -/
lemma leased_row_returned (rows : Table) (batchId : UUID) (now : Time) (topic : String)
    (sequence : Nat) (interval : Duration) (hids : uniqueIds rows) (r : RetryRow)
    (hr : r ∈ rows) (hl : r ∈ leasedRows rows now topic sequence interval) :
    r.toRetry ∈ (Repository.GetMessagesForRetry rows batchId now topic sequence interval).2 ∧
    r.lease batchId now ∈
      (Repository.GetMessagesForRetry rows batchId now topic sequence interval).1 := by
  constructor
  · exact (mem_GetMessagesForRetry rows batchId now topic sequence interval hids _).mpr
      ⟨r, hr, rfl, Or.inl hl⟩
  · unfold Repository.GetMessagesForRetry
    simp only [createEventBatch_eq rows batchId now topic sequence interval hids, List.mem_map]
    exact ⟨r, hr, by rw [if_pos hl]⟩

/-! ## Lemmas on the stage worker -/

/-- The world after the handling of one row does not depend on the mark. -/
lemma processRetry_world {σ : Type} (cc : kafkaConsumerDbCollection σ) (h : Handler)
    (st : WorkerState σ) (msg : Retry) :
    (cc.processRetry h st msg).world =
      { now := st.world.now.Add (h st.world (cc.ToSaramaConsumerMessage msg)).elapsed
        trace := st.world.trace ++ [Event.handled (cc.ToSaramaConsumerMessage msg)
          st.world.now (h st.world (cc.ToSaramaConsumerMessage msg)).err] } := by
  unfold kafkaConsumerDbCollection.processRetry
  cases hr : (h st.world (cc.ToSaramaConsumerMessage msg)).err <;> simp [hr]

lemma processRetry_calls {σ : Type} (cc : kafkaConsumerDbCollection σ) (h : Handler)
    (st : WorkerState σ) (msg : Retry) :
    (cc.processRetry h st msg).calls =
      st.calls ++ [markCall msg
        { start := st.world.now
          finish := st.world.now.Add (h st.world (cc.ToSaramaConsumerMessage msg)).elapsed
          err := (h st.world (cc.ToSaramaConsumerMessage msg)).err }] := by
  unfold kafkaConsumerDbCollection.processRetry
  cases hr : (h st.world (cc.ToSaramaConsumerMessage msg)).err <;> simp [hr, markCall]

/-- The loop over a batch calls the handler once per row, in order, and makes
one mark call per row, chosen by what the handler returned. -/
lemma processBatch_spec {σ : Type} (cc : kafkaConsumerDbCollection σ) (h : Handler)
    (batch : List Retry) :
    ∀ st : WorkerState σ,
      (cc.processBatch h batch st).world.trace =
        st.world.trace ++
          List.zipWith (handledEvent cc) batch (batchOutcomes cc h st.world batch) ∧
      (cc.processBatch h batch st).calls =
        st.calls ++ List.zipWith markCall batch (batchOutcomes cc h st.world batch) := by
  induction batch with
  | nil =>
    intro st
    simp [kafkaConsumerDbCollection.processBatch, batchOutcomes]
  | cons msg rest ih =>
    intro st
    obtain ⟨htrace, hcalls⟩ := ih (cc.processRetry h st msg)
    rw [processRetry_world] at htrace hcalls
    simp only [kafkaConsumerDbCollection.processBatch, batchOutcomes, List.zipWith_cons_cons]
    constructor
    · rw [htrace]
      simp [handledEvent]
    · rw [hcalls, processRetry_calls]
      simp

lemma batchOutcomes_length {σ : Type} (cc : kafkaConsumerDbCollection σ) (h : Handler)
    (batch : List Retry) : ∀ w : World, (batchOutcomes cc h w batch).length = batch.length := by
  induction batch with
  | nil => intro w; rfl
  | cons msg rest ih =>
    intro w
    simp only [batchOutcomes, List.length_cons, ih]

/-- With the retry manager of the specification, the handling of one row calls
the repository as the specification has it. -/
lemma processRetry_store (cc : kafkaConsumerDbCollection ManagerStore)
    (lastStageSequence : String → Nat) (hrm : cc.retryManager = Manager lastStageSequence)
    (h : Handler) (st : WorkerState ManagerStore) (msg : Retry) :
    (cc.processRetry h st msg).store.repoCalls =
      st.store.repoCalls ++ [repoMark lastStageSequence msg
        { start := st.world.now
          finish := st.world.now.Add (h st.world (cc.ToSaramaConsumerMessage msg)).elapsed
          err := (h st.world (cc.ToSaramaConsumerMessage msg)).err }] ∧
    (cc.processRetry h st msg).store.rows =
      markedRows lastStageSequence st.store.rows [msg]
        [{ start := st.world.now
           finish := st.world.now.Add (h st.world (cc.ToSaramaConsumerMessage msg)).elapsed
           err := (h st.world (cc.ToSaramaConsumerMessage msg)).err }] := by
  unfold kafkaConsumerDbCollection.processRetry
  rw [hrm]
  cases hr : (h st.world (cc.ToSaramaConsumerMessage msg)).err <;>
    simp [hr, Manager, repoMark, markedRows, Retry.succeeded, Retry.failed]

/-- With the retry manager of the specification, the loop over a batch calls
the repository once per row, as the specification has it. -/
lemma processBatch_store (cc : kafkaConsumerDbCollection ManagerStore)
    (lastStageSequence : String → Nat) (hrm : cc.retryManager = Manager lastStageSequence)
    (h : Handler) (batch : List Retry) :
    ∀ st : WorkerState ManagerStore,
      (cc.processBatch h batch st).store.repoCalls =
        st.store.repoCalls ++
          List.zipWith (repoMark lastStageSequence) batch
            (batchOutcomes cc h st.world batch) ∧
      (cc.processBatch h batch st).store.rows =
        markedRows lastStageSequence st.store.rows batch
          (batchOutcomes cc h st.world batch) := by
  induction batch with
  | nil =>
    intro st
    simp [kafkaConsumerDbCollection.processBatch, batchOutcomes, markedRows]
  | cons msg rest ih =>
    intro st
    obtain ⟨hcalls, hrows⟩ := ih (cc.processRetry h st msg)
    obtain ⟨h1, h2⟩ := processRetry_store cc lastStageSequence hrm h st msg
    rw [processRetry_world] at hcalls hrows
    simp only [kafkaConsumerDbCollection.processBatch, batchOutcomes, List.zipWith_cons_cons]
    constructor
    · rw [hcalls, h1]
      simp
    · rw [hrows, h2]
      cases hr : (h st.world (cc.ToSaramaConsumerMessage msg)).err <;>
        simp [markedRows, hr]

/-! ## Lemmas on the life of the retry table -/

lemma MarkRetrySuccessful_ids (rows : Table) (now : Time) (retry : Retry) :
    (Repository.MarkRetrySuccessful rows now retry).map RetryRow.id = rows.map RetryRow.id := by
  unfold Repository.MarkRetrySuccessful
  simp only [List.map_map]
  apply List.map_congr_left
  intro r _
  simp only [Function.comp]
  split <;> rfl

lemma tickTimeout_eq : tickTimeout = 30000000000 := by
  norm_num [tickTimeout, Second]

lemma tenMinutes_eq : (10 * Minute : Int) = 600000000000 := by
  norm_num [Minute, Second]

lemma sound_empty (start : Time) : (RepoState.empty start).sound := by
  refine ⟨?_, ?_, ?_, ?_⟩
  · simp [uniqueIds, RepoState.empty]
  · intro r hr; simp [RepoState.empty] at hr
  · intro l hl; simp [RepoState.empty] at hl
  · intro r hr; simp [RepoState.empty] at hr

lemma canMark_iff (s : RepoState) (now : Time) (b : UUID) (id : Nat) :
    s.canMark now b id = true ↔
      ∃ l ∈ s.held, l.batchId = b ∧ l.id = id ∧ now.ns ≤ l.takenAt.ns + tickTimeout := by
  simp [RepoState.canMark, and_assoc]

lemma mem_releaseLease (held : List Lease) (b : UUID) (id : Nat) (l : Lease) :
    l ∈ releaseLease held b id ↔ l ∈ held ∧ ¬ (l.batchId = b ∧ l.id = id) := by
  simp only [releaseLease, List.mem_filter, Bool.not_eq_true', Bool.and_eq_false_iff,
    decide_eq_false_iff_not, not_and_or]

lemma expired_mono (l : Lease) (c1 c2 : Time) (h : c1.ns ≤ c2.ns) (he : l.expired c1) :
    l.expired c2 := by
  unfold Lease.expired at he ⊢
  exact lt_of_lt_of_le he h

lemma sound_publishFailure (s : RepoState) (id : Nat) (now : Time) (f : Failure)
    (hs : s.sound) (hclock : s.clock.ns ≤ now.ns) (hid : id ∉ s.rows.map RetryRow.id) :
    ((RepoOp.publishFailure id now f).apply s).sound := by
  obtain ⟨hu, hx, hc, hh⟩ := hs
  simp only [RepoOp.apply, Repository.PublishFailure]
  refine ⟨?_, ?_, ?_, ?_⟩
  · unfold uniqueIds at hu ⊢
    simp only [List.map_append, List.map_cons, List.map_nil]
    exact List.Nodup.append hu (List.nodup_singleton _) (by
      intro a ha hb
      simp at hb
      exact hid (hb ▸ ha))
  · intro r hr
    rcases List.mem_append.mp hr with h | h
    · exact hx r h
    · simp at h; subst h; simp
  · intro l hl
    rcases hc l hl with ⟨r, hr, hrid, hrb⟩ | he
    · exact Or.inl ⟨r, List.mem_append_left _ hr, hrid, hrb⟩
    · exact Or.inr (expired_mono l _ _ hclock he)
  · intro r hr l hl hlid hbatch
    rcases List.mem_append.mp hr with h | h
    · exact hh r h l hl hlid hbatch
    · simp at h; subst h; simp at hbatch

lemma sound_getMessagesForRetry (s : RepoState) (batchId : UUID) (now : Time) (topic : String)
    (sequence : Nat) (interval : Duration) (hs : s.sound) (hclock : s.clock.ns ≤ now.ns)
    (hfresh : ∀ r ∈ s.rows, r.batch_id ≠ some batchId)
    (hfreshHeld : ∀ l ∈ s.held, l.batchId ≠ batchId) :
    ((RepoOp.getMessagesForRetry batchId now topic sequence interval).apply s).sound := by
  obtain ⟨hu, hx, hc, hh⟩ := hs
  simp only [RepoOp.apply]
  rw [GetMessagesForRetry_eq s.rows batchId now topic sequence interval hu hfresh]
  have hsub := leasedRows_sublist s.rows now topic sequence interval
  refine ⟨?_, ?_, ?_, ?_⟩
  · unfold uniqueIds at hu ⊢
    have : (s.rows.map (fun r => if r ∈ leasedRows s.rows now topic sequence interval
        then r.lease batchId now else r)).map RetryRow.id = s.rows.map RetryRow.id := by
      simp only [List.map_map]
      apply List.map_congr_left
      intro r _
      simp only [Function.comp]
      split <;> rfl
    rw [this]; exact hu
  · intro r1 hr1
    obtain ⟨r, hr, hr1eq⟩ := List.mem_map.mp hr1
    have := hx r hr
    rw [← hr1eq]
    split <;> simpa [RetryRow.lease] using this
  · intro l hl
    rcases List.mem_append.mp hl with hold | hnew
    · rcases hc l hold with ⟨r, hr, hrid, hrb⟩ | he
      · by_cases hlr : r ∈ leasedRows s.rows now topic sequence interval
        · right
          obtain ⟨_, _, _, _, _, hlease⟩ :=
            leasedRows_eligible s.rows now topic sequence interval r hlr
          have hstart := (hh r hr l hold hrid.symm hrb).2.2
          rcases hlease with hnone | ⟨_, _, st, hst, hlt⟩
          · rw [hrb] at hnone; cases hnone
          · rw [hstart] at hst
            cases hst
            unfold Lease.expired
            rw [tickTimeout_eq]
            rw [tenMinutes_eq] at hlt
            change l.takenAt.ns + (30000000000 : Int) < now.ns
            omega
        · left
          exact ⟨r, List.mem_map.mpr ⟨r, hr, by rw [if_neg hlr]⟩, hrid, hrb⟩
      · exact Or.inr (expired_mono l _ _ hclock he)
    · left
      obtain ⟨ret, hret, hl⟩ := List.mem_map.mp hnew
      obtain ⟨r, hr, hrr⟩ := List.mem_map.mp hret
      refine ⟨r.lease batchId now,
        List.mem_map.mpr ⟨r, hsub.subset hr, by rw [if_pos hr]⟩, ?_, ?_⟩
      · rw [← hl, ← hrr]; rfl
      · rw [← hl]; rfl
  · intro r1 hr1 l hl hlid hbatch
    obtain ⟨r, hr, hr1eq⟩ := List.mem_map.mp hr1
    by_cases hlr : r ∈ leasedRows s.rows now topic sequence interval
    · obtain ⟨_, _, hsucc, hdead, _⟩ :=
        leasedRows_eligible s.rows now topic sequence interval r hlr
      rw [if_pos hlr] at hr1eq
      rw [← hr1eq] at hbatch ⊢
      have hb : batchId = l.batchId := by
        simpa [RetryRow.lease] using hbatch
      rcases List.mem_append.mp hl with hold | hnew
      · exact absurd hb.symm (hfreshHeld l hold)
      · obtain ⟨ret, _, hleq⟩ := List.mem_map.mp hnew
        refine ⟨hsucc, hdead, ?_⟩
        rw [← hleq]
        rfl
    · rw [if_neg hlr] at hr1eq
      subst hr1eq
      rcases List.mem_append.mp hl with hold | hnew
      · exact hh r hr l hold hlid hbatch
      · obtain ⟨ret, _, hleq⟩ := List.mem_map.mp hnew
        rw [← hleq] at hbatch
        exact absurd hbatch (hfresh r hr)

/-- The row on which a mark is made in time carries the batch of the caller
and is neither successful nor deadlettered. -/
lemma marked_row_is_current (s : RepoState) (now : Time) (batchId : UUID) (id : Nat)
    (hs : s.sound) (hclock : s.clock.ns ≤ now.ns) (hcan : s.canMark now batchId id = true) :
    ∃ r0 ∈ s.rows, r0.id = id ∧ r0.batch_id = some batchId ∧
      r0.successful = false ∧ r0.deadlettered = false := by
  obtain ⟨_, _, hc, hh⟩ := hs
  obtain ⟨l, hl, hlb, hlid, hlt⟩ := (canMark_iff s now batchId id).mp hcan
  rcases hc l hl with ⟨r, hr, hrid, hrb⟩ | he
  · have := hh r hr l hl hrid.symm hrb
    exact ⟨r, hr, hrid.trans hlid, hlb ▸ hrb, this.1, this.2.1⟩
  · exfalso
    unfold Lease.expired at he
    omega

lemma sound_markRetrySuccessful (s : RepoState) (now : Time) (batchId : UUID) (retry : Retry)
    (hs : s.sound) (hclock : s.clock.ns ≤ now.ns)
    (hcan : s.canMark now batchId retry.ID = true) :
    ((RepoOp.markRetrySuccessful now batchId retry).apply s).sound := by
  obtain ⟨r0, hr0, hid0, hb0, hsucc0, hdead0⟩ :=
    marked_row_is_current s now batchId retry.ID hs hclock hcan
  obtain ⟨hu, hx, hc, hh⟩ := hs
  simp only [RepoOp.apply]
  refine ⟨?_, ?_, ?_, ?_⟩
  · unfold uniqueIds at hu ⊢
    rw [MarkRetrySuccessful_ids]; exact hu
  · intro r1 hr1
    obtain ⟨r, hr, hr1eq⟩ := List.mem_map.mp hr1
    by_cases hid : r.id = retry.ID
    · have hrr : r = r0 := mem_of_map_id_eq hu hr hr0 (hid.trans hid0.symm)
      rw [if_pos hid] at hr1eq
      rw [← hr1eq, hrr]
      simp [RetryRow.markSuccessful, hdead0]
    · rw [if_neg hid] at hr1eq
      rw [← hr1eq]; exact hx r hr
  · intro l hl
    obtain ⟨hlheld, hne⟩ := (mem_releaseLease s.held batchId retry.ID l).mp hl
    rcases hc l hlheld with ⟨r, hr, hrid, hrb⟩ | he
    · left
      by_cases hid : r.id = retry.ID
      · exfalso
        have hrr : r = r0 := mem_of_map_id_eq hu hr hr0 (hid.trans hid0.symm)
        rw [hrr, hb0] at hrb
        exact hne ⟨(Option.some.inj hrb).symm, hrid.symm.trans hid⟩
      · exact ⟨r, List.mem_map.mpr ⟨r, hr, by rw [if_neg hid]⟩, hrid, hrb⟩
    · exact Or.inr (expired_mono l _ _ hclock he)
  · intro r1 hr1 l hl hlid hbatch
    obtain ⟨hlheld, hne⟩ := (mem_releaseLease s.held batchId retry.ID l).mp hl
    obtain ⟨r, hr, hr1eq⟩ := List.mem_map.mp hr1
    by_cases hid : r.id = retry.ID
    · exfalso
      have hrr : r = r0 := mem_of_map_id_eq hu hr hr0 (hid.trans hid0.symm)
      rw [if_pos hid] at hr1eq
      rw [← hr1eq] at hbatch hlid
      have h1 : r.batch_id = some l.batchId := by
        simpa [RetryRow.markSuccessful] using hbatch
      rw [hrr, hb0] at h1
      have h2 : l.id = r.id := by simpa [RetryRow.markSuccessful] using hlid
      exact hne ⟨(Option.some.inj h1).symm, h2.trans hid⟩
    · rw [if_neg hid] at hr1eq
      subst hr1eq
      exact hh r hr l hlheld hlid hbatch

lemma sound_markRetryErrored (s : RepoState) (now : Time) (batchId : UUID) (retry : Retry)
    (err : String) (hs : s.sound) (hclock : s.clock.ns ≤ now.ns)
    (hcan : s.canMark now batchId retry.ID = true) :
    ((RepoOp.markRetryErrored now batchId retry err).apply s).sound := by
  obtain ⟨r0, hr0, hid0, hb0, hsucc0, hdead0⟩ :=
    marked_row_is_current s now batchId retry.ID hs hclock hcan
  obtain ⟨hu, hx, hc, hh⟩ := hs
  simp only [RepoOp.apply]
  refine ⟨?_, ?_, ?_, ?_⟩
  · unfold uniqueIds at hu ⊢
    rw [MarkRetryErrored_ids]; exact hu
  · intro r1 hr1
    obtain ⟨r, hr, hr1eq⟩ := List.mem_map.mp hr1
    by_cases hid : r.id = retry.ID
    · have hrr : r = r0 := mem_of_map_id_eq hu hr hr0 (hid.trans hid0.symm)
      rw [if_pos hid] at hr1eq
      rw [← hr1eq, hrr]
      simp [RetryRow.markErrored, hsucc0]
    · rw [if_neg hid] at hr1eq
      rw [← hr1eq]; exact hx r hr
  · intro l hl
    obtain ⟨hlheld, hne⟩ := (mem_releaseLease s.held batchId retry.ID l).mp hl
    rcases hc l hlheld with ⟨r, hr, hrid, hrb⟩ | he
    · left
      by_cases hid : r.id = retry.ID
      · exfalso
        have hrr : r = r0 := mem_of_map_id_eq hu hr hr0 (hid.trans hid0.symm)
        rw [hrr, hb0] at hrb
        exact hne ⟨(Option.some.inj hrb).symm, hrid.symm.trans hid⟩
      · exact ⟨r, List.mem_map.mpr ⟨r, hr, by rw [if_neg hid]⟩, hrid, hrb⟩
    · exact Or.inr (expired_mono l _ _ hclock he)
  · intro r1 hr1 l hl hlid hbatch
    obtain ⟨hlheld, hne⟩ := (mem_releaseLease s.held batchId retry.ID l).mp hl
    obtain ⟨r, hr, hr1eq⟩ := List.mem_map.mp hr1
    by_cases hid : r.id = retry.ID
    · rw [if_pos hid] at hr1eq
      rw [← hr1eq] at hbatch
      simp [RetryRow.markErrored] at hbatch
    · rw [if_neg hid] at hr1eq
      subst hr1eq
      exact hh r hr l hlheld hlid hbatch

lemma sound_deleteSuccessful (s : RepoState) (olderThan : Time) (hs : s.sound) :
    ((RepoOp.deleteSuccessful olderThan).apply s).sound := by
  obtain ⟨hu, hx, hc, hh⟩ := hs
  simp only [RepoOp.apply, Repository.DeleteSuccessful]
  refine ⟨?_, ?_, ?_, ?_⟩
  · unfold uniqueIds at hu ⊢
    exact ((List.filter_sublist _).map RetryRow.id).nodup hu
  · intro r hr
    exact hx r (List.mem_filter.mp hr).1
  · intro l hl
    rcases hc l hl with ⟨r, hr, hrid, hrb⟩ | he
    · left
      have hsucc := (hh r hr l hl hrid.symm hrb).1
      exact ⟨r, List.mem_filter.mpr ⟨hr, by simp [hsucc]⟩, hrid, hrb⟩
    · exact Or.inr he
  · intro r hr l hl hlid hbatch
    exact hh r (List.mem_filter.mp hr).1 l hl hlid hbatch

/-- An operation that can happen keeps the state sound. -/
lemma sound_apply (s : RepoState) (op : RepoOp) (hs : s.sound)
    (hallowed : op.allowed s = true) : (op.apply s).sound := by
  cases op with
  | publishFailure id now f =>
    simp only [RepoOp.allowed, Bool.and_eq_true, decide_eq_true_eq] at hallowed
    exact sound_publishFailure s id now f hs hallowed.1 hallowed.2
  | getMessagesForRetry batchId now topic sequence interval =>
    simp only [RepoOp.allowed, Bool.and_eq_true, decide_eq_true_eq] at hallowed
    exact sound_getMessagesForRetry s batchId now topic sequence interval hs hallowed.1.1
      hallowed.1.2 hallowed.2
  | markRetrySuccessful now batchId retry =>
    simp only [RepoOp.allowed, Bool.and_eq_true, decide_eq_true_eq] at hallowed
    exact sound_markRetrySuccessful s now batchId retry hs hallowed.1 hallowed.2
  | markRetryErrored now batchId retry err =>
    simp only [RepoOp.allowed, Bool.and_eq_true, decide_eq_true_eq] at hallowed
    exact sound_markRetryErrored s now batchId retry err hs hallowed.1 hallowed.2
  | deleteSuccessful olderThan =>
    exact sound_deleteSuccessful s olderThan hs

/-- A run of operations ends in a sound state. -/
lemma sound_runOps (ops : List RepoOp) :
    ∀ s s1 : RepoState, s.sound → runOps s ops = some s1 → s1.sound := by
  induction ops with
  | nil =>
    intro s s1 hs hrun
    simp only [runOps, Option.some.injEq] at hrun
    exact hrun ▸ hs
  | cons op ops ih =>
    intro s s1 hs hrun
    simp only [runOps] at hrun
    by_cases ha : op.allowed s = true
    · rw [if_pos ha] at hrun
      exact ih (op.apply s) s1 (sound_apply s op hs ha) hrun
    · rw [if_neg ha] at hrun
      cases hrun


/-- The mark of a first holder 663 seconds after its lease, when its context
has long timed out, is no operation on the table. -/
lemma late_mark_is_no_operation : runOps (RepoState.empty ⟨0⟩) raceOps = none := by
  decide
/-! ## Lemmas on the rows that a stage worker marks -/

/-- A retry that `GetMessagesForRetry` returns is a row of the table. -/
lemma batch_ids_in_table (rows : Table) (batchId : UUID) (now : Time) (topic : String)
    (sequence : Nat) (interval : Duration) (ret : Retry)
    (hret : ret ∈ (Repository.GetMessagesForRetry rows batchId now topic sequence interval).2) :
    ret.ID ∈ rows.map RetryRow.id := by
  unfold Repository.GetMessagesForRetry Repository.getCreatedEventBatch at hret
  simp only [List.mem_map, List.mem_filter] at hret
  obtain ⟨r, ⟨hr, _⟩, hrr⟩ := hret
  rw [← createEventBatch_ids rows batchId now topic sequence interval, ← hrr]
  exact List.mem_map.mpr ⟨r, hr, rfl⟩

lemma markedRows_ids (lastStageSequence : String → Nat) (batch : List Retry) :
    ∀ (rows : Table) (os : List Outcome),
      (markedRows lastStageSequence rows batch os).map RetryRow.id = rows.map RetryRow.id := by
  induction batch with
  | nil => intro rows os; simp [markedRows]
  | cons msg rest ih =>
    intro rows os
    cases os with
    | nil => simp [markedRows]
    | cons o os1 =>
      cases ho : o.err with
      | none =>
        simp only [markedRows, ho]
        rw [ih, MarkRetrySuccessful_ids]
      | some err =>
        simp only [markedRows, ho]
        rw [ih, MarkRetryErrored_ids]

lemma repoMark_markedId (lastStageSequence : String → Nat) (msg : Retry) (o : Outcome) :
    (repoMark lastStageSequence msg o).markedId = some msg.ID := by
  unfold repoMark
  cases o.err <;> rfl

lemma mem_zipWith_repoMark (lastStageSequence : String → Nat) (batch : List Retry) :
    ∀ (os : List Outcome) (call : RepoCall),
      call ∈ List.zipWith (repoMark lastStageSequence) batch os →
        ∃ msg ∈ batch, call.markedId = some msg.ID := by
  induction batch with
  | nil => intro os call h; simp at h
  | cons msg rest ih =>
    intro os call h
    cases os with
    | nil => simp at h
    | cons o os1 =>
      simp only [List.zipWith_cons_cons, List.mem_cons] at h
      rcases h with h | h
      · exact ⟨msg, List.mem_cons_self _ _, by rw [h, repoMark_markedId]⟩
      · obtain ⟨m, hm, hc⟩ := ih os1 call h
        exact ⟨m, List.mem_cons_of_mem _ hm, hc⟩

/-- With the retry manager of the specification, a tick keeps the `id`s of the
table and marks only rows of the table. -/
lemma tick_marks_in_table (cc : kafkaConsumerDbCollection ManagerStore)
    (lastStageSequence : String → Nat) (hrm : cc.retryManager = Manager lastStageSequence)
    (st : WorkerState ManagerStore) (topic : String) (rc : DBTopicRetry) :
    (cc.processMessagesForRetry st topic rc).store.rows.map RetryRow.id =
      st.store.rows.map RetryRow.id ∧
    ∃ new, (cc.processMessagesForRetry st topic rc).store.repoCalls =
        st.store.repoCalls ++ new ∧
      ∀ call ∈ new, ∀ i, call.markedId = some i → i ∈ st.store.rows.map RetryRow.id := by
  cases hh : cc.handlerMap.handlerForTopic rc.Key with
  | none =>
    have htick : cc.processMessagesForRetry st topic rc =
        { world := st.world
          store := { rows := (tickBatch st topic rc).1, nextBatch := st.store.nextBatch + 1
                     repoCalls := st.store.repoCalls ++
                       [RepoCall.getMessagesForRetry topic rc.Sequence rc.Interval] }
          calls := st.calls ++ [ManagerCall.getBatch topic rc.Sequence rc.Interval] } := by
      unfold kafkaConsumerDbCollection.processMessagesForRetry
      rw [hrm]
      simp only [Manager, hh, tickBatch]
    rw [htick]
    refine ⟨?_, _, rfl, ?_⟩
    · simp only [tickBatch, Repository.GetMessagesForRetry]
      exact createEventBatch_ids _ _ _ _ _ _
    · intro call hc i hi
      simp only [List.mem_singleton] at hc
      rw [hc] at hi
      cases hi
  | some h =>
    have htick : cc.processMessagesForRetry st topic rc =
        cc.processBatch h (tickBatch st topic rc).2
          { world := st.world
            store := { rows := (tickBatch st topic rc).1, nextBatch := st.store.nextBatch + 1
                       repoCalls := st.store.repoCalls ++
                         [RepoCall.getMessagesForRetry topic rc.Sequence rc.Interval] }
            calls := st.calls ++ [ManagerCall.getBatch topic rc.Sequence rc.Interval] } := by
      unfold kafkaConsumerDbCollection.processMessagesForRetry
      rw [hrm]
      simp only [Manager, hh, tickBatch]
    obtain ⟨hrepo, hrows⟩ := processBatch_store cc lastStageSequence hrm h
      (tickBatch st topic rc).2
      { world := st.world
        store := { rows := (tickBatch st topic rc).1, nextBatch := st.store.nextBatch + 1
                   repoCalls := st.store.repoCalls ++
                     [RepoCall.getMessagesForRetry topic rc.Sequence rc.Interval] }
        calls := st.calls ++ [ManagerCall.getBatch topic rc.Sequence rc.Interval] }
    rw [htick]
    refine ⟨?_, RepoCall.getMessagesForRetry topic rc.Sequence rc.Interval ::
      List.zipWith (repoMark lastStageSequence) (tickBatch st topic rc).2
        (batchOutcomes cc h st.world (tickBatch st topic rc).2), ?_, ?_⟩
    · rw [hrows, markedRows_ids]
      simp only [tickBatch, Repository.GetMessagesForRetry]
      exact createEventBatch_ids _ _ _ _ _ _
    · rw [hrepo]; simp
    · intro call hc i hi
      rcases List.mem_cons.mp hc with hc | hc
      · rw [hc] at hi; cases hi
      · obtain ⟨msg, hmsg, hid⟩ := mem_zipWith_repoMark lastStageSequence _ _ call hc
        rw [hid] at hi
        cases hi
        exact batch_ids_in_table _ _ _ _ _ _ msg hmsg

/-- With the retry manager of the specification, a stage worker only ever
marks rows of the table it started on. -/
lemma stageWorker_marks_in_table (cc : kafkaConsumerDbCollection ManagerStore)
    (lastStageSequence : String → Nat) (hrm : cc.retryManager = Manager lastStageSequence)
    (topic : String) (rc : DBTopicRetry) :
    ∀ (ticks : Nat) (st : WorkerState ManagerStore),
      (cc.stageWorker topic rc ticks st).store.rows.map RetryRow.id =
        st.store.rows.map RetryRow.id ∧
      ∃ new, (cc.stageWorker topic rc ticks st).store.repoCalls = st.store.repoCalls ++ new ∧
        ∀ call ∈ new, ∀ i, call.markedId = some i → i ∈ st.store.rows.map RetryRow.id := by
  intro ticks
  induction ticks with
  | zero =>
    intro st
    exact ⟨rfl, [], by simp [kafkaConsumerDbCollection.stageWorker], by
      intro call hc; simp at hc⟩
  | succ n ih =>
    intro st
    obtain ⟨hids1, new1, hcalls1, hmarks1⟩ :=
      tick_marks_in_table cc lastStageSequence hrm st topic rc
    obtain ⟨hids2, new2, hcalls2, hmarks2⟩ := ih
      { (cc.processMessagesForRetry st topic rc) with
        world := Sleep (cc.processMessagesForRetry st topic rc).world cc.dbRetryPollInterval }
    simp only [kafkaConsumerDbCollection.stageWorker]
    refine ⟨by rw [hids2]; exact hids1, new1 ++ new2, ?_, ?_⟩
    · rw [hcalls2]
      simp only [hcalls1, List.append_assoc]
    · intro call hc i hi
      rcases List.mem_append.mp hc with hc | hc
      · exact hmarks1 call hc i hi
      · have := hmarks2 call hc i hi
        rw [← hids1]
        exact this

/-- What the forwarder does when there is no Failure. -/
lemma listenForFailures_nil (rows : Table) (nextId : Nat) (now : Time) :
    listenForFailures rows nextId now [] = rows := rfl

lemma failuresOf_onlySleeps (sl : List Event) (h : onlySleeps sl) : failuresOf sl = [] := by
  unfold failuresOf
  rw [List.filterMap_eq_nil_iff]
  intro e he
  obtain ⟨d, hd⟩ := h e he
  rw [hd]

/-! ## Lemmas on the layout `time.RFC3339` -/

lemma digitVal_digitChar (n : Nat) : digitVal (digitChar n) = some (n % 10) := by
  have h : n % 10 < 10 := Nat.mod_lt _ (by norm_num)
  unfold digitChar
  generalize n % 10 = k at h
  interval_cases k <;> rfl

lemma num2_pad (n : Nat) (h : n < 100) :
    num2 (digitChar (n / 10)) (digitChar n) = some n := by
  unfold num2
  rw [digitVal_digitChar, digitVal_digitChar]
  simp only [Option.some.injEq]
  omega

lemma num4_pad (n : Nat) (h : n < 10000) :
    num4 (digitChar (n / 1000)) (digitChar (n / 100)) (digitChar (n / 10)) (digitChar n) =
      some n := by
  unfold num4 num2
  simp only [digitVal_digitChar, Option.some.injEq]
  omega

lemma isLeap_era (e y : Nat) : isLeap (400 * e + y) = isLeap y := by
  unfold isLeap
  have h4 : (400 * e + y) % 4 = y % 4 := by omega
  have h100 : (400 * e + y) % 100 = y % 100 := by omega
  have h400 : (400 * e + y) % 400 = y % 400 := by omega
  rw [h4, h100, h400]

lemma yearLen_era (e y : Nat) : yearLen (400 * e + y) = yearLen y := by
  unfold yearLen
  rw [isLeap_era]

lemma yearLen_pos (y : Nat) : 365 ≤ yearLen y ∧ yearLen y ≤ 366 := by
  unfold yearLen
  split <;> omega

lemma monthLen_bounds (y m : Nat) : 28 ≤ monthLen y m ∧ monthLen y m ≤ 31 := by
  unfold monthLen
  split
  · split <;> omega
  · split <;> omega

set_option maxRecDepth 100000 in
lemma daysBeforeYoe_400 : daysBeforeYoe 400 = 146097 := by
  decide

lemma daysBeforeMonth_13 (y : Nat) : daysBeforeMonth y 13 = yearLen y := by
  simp only [daysBeforeMonth, monthLen, yearLen]
  cases isLeap y <;> simp

lemma daysBeforeYoe_mono (a b : Nat) (h : a ≤ b) : daysBeforeYoe a ≤ daysBeforeYoe b := by
  induction b with
  | zero =>
    have : a = 0 := by omega
    rw [this]
  | succ b ih =>
    by_cases hab : a = b + 1
    · rw [hab]
    · have := ih (by omega)
      simp only [daysBeforeYoe]
      omega

/-- The year found by `splitYear` and the day of that year. -/
lemma splitYear_spec : ∀ (fuel y rem : Nat), y + fuel = 400 →
    daysBeforeYoe y + rem < 146097 →
    daysBeforeYoe (splitYear fuel y rem).1 + (splitYear fuel y rem).2 =
        daysBeforeYoe y + rem ∧
      (splitYear fuel y rem).2 < yearLen (splitYear fuel y rem).1 ∧
      (splitYear fuel y rem).1 < 400 := by
  intro fuel
  induction fuel with
  | zero =>
    intro y rem hy hlt
    have : y = 400 := by omega
    rw [this, daysBeforeYoe_400] at hlt
    omega
  | succ fuel ih =>
    intro y rem hy hlt
    unfold splitYear
    by_cases hr : rem < yearLen y
    · rw [if_pos hr]
      exact ⟨rfl, hr, by omega⟩
    · rw [if_neg hr]
      have hstep : daysBeforeYoe (y + 1) + (rem - yearLen y) = daysBeforeYoe y + rem := by
        simp only [daysBeforeYoe]
        omega
      obtain ⟨h1, h2, h3⟩ := ih (y + 1) (rem - yearLen y) (by omega) (by omega)
      exact ⟨by rw [h1, hstep], h2, h3⟩

lemma daysBeforeMonth_succ (y m : Nat) (hm : 1 ≤ m) :
    daysBeforeMonth y (m + 1) = daysBeforeMonth y m + monthLen y m := by
  obtain ⟨k, rfl⟩ : ∃ k, m = k + 1 := ⟨m - 1, by omega⟩
  simp only [daysBeforeMonth]

lemma daysBeforeMonth_mono (y a b : Nat) (h : a ≤ b) :
    daysBeforeMonth y a ≤ daysBeforeMonth y b := by
  induction b with
  | zero =>
    have : a = 0 := by omega
    rw [this]
  | succ b ih =>
    by_cases hab : a = b + 1
    · rw [hab]
    · have := ih (by omega)
      by_cases hb : 1 ≤ b
      · rw [daysBeforeMonth_succ y b hb]
        omega
      · have hb0 : b = 0 := by omega
        subst hb0
        have : a = 0 := by omega
        rw [this]
        simp [daysBeforeMonth]

/-- The month found by `splitMonth` and the day of that month. -/
lemma splitMonth_spec (yr : Nat) : ∀ (fuel m rem : Nat), m + fuel = 13 → 1 ≤ m →
    daysBeforeMonth yr m + rem < yearLen yr →
    daysBeforeMonth yr (splitMonth yr fuel m rem).1 + (splitMonth yr fuel m rem).2 =
        daysBeforeMonth yr m + rem ∧
      (splitMonth yr fuel m rem).2 < monthLen yr (splitMonth yr fuel m rem).1 ∧
      1 ≤ (splitMonth yr fuel m rem).1 ∧ (splitMonth yr fuel m rem).1 ≤ 12 := by
  intro fuel
  induction fuel with
  | zero =>
    intro m rem hm _ hlt
    have : m = 13 := by omega
    rw [this, daysBeforeMonth_13] at hlt
    omega
  | succ fuel ih =>
    intro m rem hm h1 hlt
    unfold splitMonth
    by_cases hr : rem < monthLen yr m
    · rw [if_pos hr]
      exact ⟨rfl, hr, h1, by omega⟩
    · rw [if_neg hr]
      have hstep : daysBeforeMonth yr (m + 1) + (rem - monthLen yr m) =
          daysBeforeMonth yr m + rem := by
        rw [daysBeforeMonth_succ yr m h1]
        omega
      obtain ⟨h2, h3, h4, h5⟩ := ih (m + 1) (rem - monthLen yr m) (by omega) (by omega)
        (by omega)
      exact ⟨by rw [h2, hstep], h3, h4, h5⟩

/-- The date of a day of the years 0000 to 9999 has a four-digit year, a month
and a day of that month, and is the date of that day only. -/
lemma civilFromDays_spec (z : Nat) (hz : z < 3652425) :
    (civilFromDays z).1 ≤ 9999 ∧
    1 ≤ (civilFromDays z).2.1 ∧ (civilFromDays z).2.1 ≤ 12 ∧
    1 ≤ (civilFromDays z).2.2 ∧
    (civilFromDays z).2.2 ≤ monthLen (civilFromDays z).1 (civilFromDays z).2.1 ∧
    daysFromCivil (civilFromDays z).1 (civilFromDays z).2.1 (civilFromDays z).2.2 = z := by
  have hdoe : z % 146097 < 146097 := Nat.mod_lt _ (by norm_num)
  obtain ⟨hy1, hy2, hy3⟩ := splitYear_spec 400 0 (z % 146097) rfl
    (by simp only [daysBeforeYoe]; omega)
  simp only [daysBeforeYoe, Nat.zero_add] at hy1
  have hlen : (splitYear 400 0 (z % 146097)).2 <
      yearLen (400 * (z / 146097) + (splitYear 400 0 (z % 146097)).1) := by
    rw [yearLen_era]; exact hy2
  obtain ⟨hm1, hm2, hm3, hm4⟩ := splitMonth_spec
    (400 * (z / 146097) + (splitYear 400 0 (z % 146097)).1) 12 1
    (splitYear 400 0 (z % 146097)).2 rfl (le_refl 1)
    (by simp only [daysBeforeMonth]; omega)
  simp only [daysBeforeMonth, Nat.zero_add] at hm1
  simp only [civilFromDays, daysFromCivil]
  refine ⟨by omega, hm3, hm4, by omega, by omega, ?_⟩
  have hdiv : (400 * (z / 146097) + (splitYear 400 0 (z % 146097)).1) / 400 = z / 146097 := by
    omega
  have hmod : (400 * (z / 146097) + (splitYear 400 0 (z % 146097)).1) % 400 =
      (splitYear 400 0 (z % 146097)).1 := by
    omega
  rw [hdiv, hmod]
  omega

lemma parseZone_zoneChars (zoneMinutes : Int) (h1 : -1440 < zoneMinutes)
    (h2 : zoneMinutes < 1440) : parseZone (zoneChars zoneMinutes) = some zoneMinutes := by
  unfold zoneChars
  by_cases h0 : zoneMinutes = 0
  · rw [if_pos h0, h0]; rfl
  · rw [if_neg h0]
    have hh : zoneMinutes.natAbs / 60 < 100 := by omega
    have hm : zoneMinutes.natAbs % 60 < 100 := by omega
    simp only [pad2, List.cons_append, List.nil_append, parseZone, if_true,
      num2_pad _ hh, num2_pad _ hm]
    have hh24 : zoneMinutes.natAbs / 60 < 24 := by omega
    have hm60 : zoneMinutes.natAbs % 60 < 60 := Nat.mod_lt _ (by norm_num)
    rw [if_pos ⟨hh24, hm60⟩]
    by_cases hneg : zoneMinutes < 0
    · rw [if_pos hneg]
      rw [if_neg (by decide), if_pos rfl]
      simp only [Option.some.injEq]
      omega
    · rw [if_neg hneg]
      rw [if_pos rfl]
      simp only [Option.some.injEq]
      omega

lemma parseFraction_zoneChars (zoneMinutes : Int) :
    parseFraction (zoneChars zoneMinutes) = some (0, zoneChars zoneMinutes) := by
  unfold zoneChars
  by_cases h0 : zoneMinutes = 0
  · rw [if_pos h0]; rfl
  · rw [if_neg h0]
    by_cases hneg : zoneMinutes < 0
    · rw [if_pos hneg]
      simp only [parseFraction]
      rw [if_neg (by decide)]
    · rw [if_neg hneg]
      simp only [parseFraction]
      rw [if_neg (by decide)]

/-- The time of day of a second of the day, read back. -/
lemma secondOfDay_parts (sod : Nat) (h : sod < 86400) :
    sod / 3600 < 24 ∧ sod % 3600 / 60 < 60 ∧ sod % 60 < 60 ∧
      sod / 3600 * 3600 + sod % 3600 / 60 * 60 + sod % 60 = sod := by
  omega

/-- What `parseRFC3339` reads from a text of the shape that `formatRFC3339`
writes. -/
lemma parseRFC3339_shape (y mo d h mi se : Nat) (zoneMinutes : Int)
    (hy : y < 10000) (hmo : mo < 100) (hd : d < 100) (hh : h < 100) (hmi : mi < 100)
    (hse : se < 100) (hz1 : -1440 < zoneMinutes) (hz2 : zoneMinutes < 1440) :
    parseRFC3339 (pad4 y ++ ['-'] ++ pad2 mo ++ ['-'] ++ pad2 d ++ ['T'] ++
        pad2 h ++ [':'] ++ pad2 mi ++ [':'] ++ pad2 se ++ zoneChars zoneMinutes) =
      instantOf y mo d h mi se 0 zoneMinutes := by
  simp only [pad4, pad2, List.cons_append, List.nil_append, parseRFC3339, and_self, if_true,
    num4_pad y hy, num2_pad mo hmo, num2_pad d hd, num2_pad h hh, num2_pad mi hmi,
    num2_pad se hse, parseFraction_zoneChars, parseZone_zoneChars zoneMinutes hz1 hz2]

/-- Reading back the text of an instant gives its whole seconds. -/
lemma parse_format_rfc3339 (zoneMinutes : Int) (t : Time)
    (hz1 : -1440 < zoneMinutes) (hz2 : zoneMinutes < 1440)
    (hrange : inRFC3339Range zoneMinutes t) :
    (rfc3339 zoneMinutes).Parse ((rfc3339 zoneMinutes).Format t) =
      Except.ok t.truncateToSecond := by
  obtain ⟨hlo, hhi⟩ := hrange
  simp only [rfc3339, formatRFC3339]
  generalize hn : (t.ns / 1000000000 + 60 * zoneMinutes + epochSeconds).toNat = n
  have hnInt : (n : Int) = t.ns / 1000000000 + 60 * zoneMinutes + epochSeconds := by
    rw [← hn]; exact Int.toNat_of_nonneg hlo
  have hnlt : n < 3652425 * 86400 := by omega
  have hdays : n / 86400 < 3652425 := by omega
  have hsod : n % 86400 < 86400 := Nat.mod_lt _ (by norm_num)
  obtain ⟨hc1, hc2, hc3, hc4, hc5, hc6⟩ := civilFromDays_spec (n / 86400) hdays
  obtain ⟨hs1, hs2, hs3, hs4⟩ := secondOfDay_parts (n % 86400) hsod
  have hd31 := (monthLen_bounds (civilFromDays (n / 86400)).1 (civilFromDays (n / 86400)).2.1).2
  rw [parseRFC3339_shape _ _ _ _ _ _ zoneMinutes (by omega) (by omega) (by omega) (by omega)
    (by omega) (by omega) hz1 hz2]
  unfold instantOf
  rw [if_pos ⟨hc2, hc3, hc4, hc5, hs1, hs2, hs3⟩, hc6]
  simp only [Time.truncateToSecond, Second]
  congr 2
  have hsum : (n / 86400 * 86400 + n % 86400 / 3600 * 3600 + n % 86400 % 3600 / 60 * 60 +
      n % 86400 % 60 : Nat) = n := by omega
  rw [hsum, hnInt]
  ring

/-- The last `NextTimeRetry` header of headers that end with one. -/
lemma retryHeaders_append_last (hs : List RecordHeader) (value : String) :
    (retryHeaders (hs ++ [⟨nextTimeRetry, value⟩])).getLast? = some ⟨nextTimeRetry, value⟩ := by
  simp [retryHeaders, List.filter_append]

/-- A whole second is not after its instant and less than a second before it. -/
lemma truncateToSecond_bounds (t : Time) :
    t.truncateToSecond.ns ≤ t.ns ∧ t.ns - Second < t.truncateToSecond.ns := by
  simp only [Time.truncateToSecond, Second]
  omega

/-- A message received not after the time `T` of its last `NextTimeRetry`
header, and less than the largest duration before it, is handled at `T`. -/
lemma handled_at_retry_time (c : consumer) (w : World) (message : ConsumerMessage) (T : Time)
    (hscan : scanHeaders c.time message.Headers (Time.zero, false) = Except.ok (T, true))
    (hle : w.now.ns ≤ T.ns) (hfit : T.ns - w.now.ns ≤ maxDuration) :
    ∃ new, (c.consumeMessage w message).1.trace = w.trace ++ new ∧
      ∀ m start r, Event.handled m start r ∈ new → start = T := by
  obtain ⟨tl, htr, _, hstart⟩ := consumeMessage_after_wait c w message (T, true) hscan
  obtain ⟨sl, hsl, hsleeps⟩ := afterWait_trace w (T, true)
  have hnow : (afterWait w (T, true)).now = T := by
    unfold afterWait
    by_cases hafter : T.After w.now = true
    · have hlt : w.now.ns < T.ns := by simpa [Time.After] using hafter
      simp only [hafter, Bool.and_self, if_true, Sleep]
      rw [Time.Sub_exact T w.now hlt hfit]
      have : max (T.ns - w.now.ns) 0 = T.ns - w.now.ns := max_eq_left (by omega)
      simp only [Time.Add, this]
      congr 1
      omega
    · have hge : T.ns ≤ w.now.ns := by simpa [Time.After] using hafter
      have hafter' : T.After w.now = false := by simpa using hafter
      simp only [hafter', Bool.and_false, Bool.false_eq_true, if_false]
      cases hw : w.now with
      | mk a =>
        cases hT : T with
        | mk b =>
          rw [hw, hT] at hge hle
          simp only at hge hle
          congr 1
          omega
  refine ⟨sl ++ tl, by rw [htr, hsl, List.append_assoc], ?_⟩
  intro m start r hmem
  rcases List.mem_append.mp hmem with h | h
  · obtain ⟨d, hd⟩ := hsleeps _ h
    cases hd
  · rw [hstart m start r h, hnow]

/-! ## The primary consumer: properties -/

/-- C1: for a message received by `ConsumeClaim` whose `NextTimeRetry` headers
parse and whose topic key has the registered handler `h`, the turn of the loop
returns no error and adds to the trace, in this order: the sleep of the wait
if there is one, the call of `h` on the message with the error `h` returned,
the Failure if one is sent, and one call of `MarkMessage` for the topic,
partition and offset of the message. The mark is the last event of the turn
and the only mark of the turn, whatever `h` returned and whether or not the
chain has a next stage. `ConsumeClaim` on this message alone returns nil with
that trace, and with later messages it goes on from the world the turn left,
keeping the events of the turn. -/
theorem markMessage_once_after_handler (c : consumer) (w : World) (message : ConsumerMessage)
    (rest : List ConsumerMessage) (h : Handler)
    (hparse : headersParse c.time message.Headers)
    (hh : c.handlers.handlerForTopic (c.cfg.FindTopicKey message.Topic) = some h) :
    ∃ (scan : Time × Bool) (sl fs later : List Event) (marked : ConsumerMessage),
      scanHeaders c.time message.Headers (Time.zero, false) = Except.ok scan ∧
      (afterWait w scan).trace = w.trace ++ sl ∧ onlySleeps sl ∧
      (∀ e ∈ fs, ∃ f, e = Event.failure f) ∧
      (c.consumeMessage w message).2 = none ∧
      (c.consumeMessage w message).1.trace =
        w.trace ++ (sl ++
          [Event.handled message (afterWait w scan).now (h (afterWait w scan) message).err] ++
          fs ++ [Event.marked marked]) ∧
      (sl ++
        [Event.handled message (afterWait w scan).now (h (afterWait w scan) message).err] ++
        fs ++ [Event.marked marked]).countP Event.isMark = 1 ∧
      marked.Topic = message.Topic ∧ marked.Partition = message.Partition ∧
      marked.Offset = message.Offset ∧
      c.ConsumeClaim w [message] = ((c.consumeMessage w message).1, none) ∧
      c.ConsumeClaim w (message :: rest) =
        c.ConsumeClaim (c.consumeMessage w message).1 rest ∧
      (c.ConsumeClaim w (message :: rest)).1.trace =
        (c.consumeMessage w message).1.trace ++ later := by
  obtain ⟨scan, hscan⟩ := scanHeaders_ok c.time message.Headers hparse (Time.zero, false)
  obtain ⟨sl, hsl, hsleeps⟩ := afterWait_trace w scan
  obtain ⟨hnone, fs, marked, htr, hT, hP, hO, hcase⟩ :=
    consumeMessage_turn_failure c w message h scan hscan hh
  have hstep : c.consumeMessage w message = ((c.consumeMessage w message).1, none) :=
    Prod.ext rfl hnone
  have hcont : ∀ l, c.ConsumeClaim w (message :: l) =
      c.ConsumeClaim (c.consumeMessage w message).1 l :=
    fun l => ConsumeClaim_cons_ok c w _ message l hstep
  obtain ⟨later, hlater⟩ := ConsumeClaim_trace_extends c rest (c.consumeMessage w message).1
  have hfs : ∀ e ∈ fs, ∃ f, e = Event.failure f := by
    rcases hcase with ⟨hnil, _⟩ | ⟨err, nt, f, hf, _, _⟩
    · intro e he; rw [hnil] at he; simp at he
    · intro e he; rw [hf] at he; simp at he; exact ⟨f, he⟩
  have hfsMark : fs.countP Event.isMark = 0 := by
    rw [List.countP_eq_zero]
    intro e he
    obtain ⟨f, hf⟩ := hfs e he
    rw [hf]; simp [Event.isMark]
  refine ⟨scan, sl, fs, later, marked, hscan, hsl, hsleeps, hfs, hnone, ?_, ?_, hT, hP, hO,
    ?_, hcont rest, ?_⟩
  · rw [htr, hsl]; simp
  · simp [List.countP_append, List.countP_cons, onlySleeps_countP_isMark sl hsleeps, hfsMark,
      Event.isMark]
  · rw [hcont []]; simp [consumer.ConsumeClaim]
  · rw [hcont rest]; exact hlater

/-- C2: one turn of the loop of `ConsumeClaim` sends a Failure if and only if
the headers of the message parse, a handler is registered for its topic key,
that handler, called on the message after the wait, returns an error, and
`NextTopicInChain` of the message's topic succeeds; it never sends more than
one. When the registered handler is called, its call with the error it
returned is an event of the turn, the turn returns no error and the loop goes
on with the next message; and when it returned nil, or failed on a topic
without successor, no Failure is sent. -/
theorem failure_iff_handler_error_and_successor (c : consumer) (w : World)
    (message : ConsumerMessage) (rest : List ConsumerMessage) :
    ∃ new : List Event, (c.consumeMessage w message).1.trace = w.trace ++ new ∧
      new.countP Event.isFailure ≤ 1 ∧
      ((∃ f, Event.failure f ∈ new) ↔
        ∃ scan h err nt,
          scanHeaders c.time message.Headers (Time.zero, false) = Except.ok scan ∧
          c.handlers.handlerForTopic (c.cfg.FindTopicKey message.Topic) = some h ∧
          (h (afterWait w scan) message).err = some err ∧
          c.cfg.NextTopicInChain message.Topic = Except.ok nt) ∧
      ((∃ f, Event.failure f ∈ new) ↔
        ((∃ start err, Event.handled message start (some err) ∈ new) ∧
          ∃ nt, c.cfg.NextTopicInChain message.Topic = Except.ok nt)) ∧
      (∀ scan h, scanHeaders c.time message.Headers (Time.zero, false) = Except.ok scan →
        c.handlers.handlerForTopic (c.cfg.FindTopicKey message.Topic) = some h →
          Event.handled message (afterWait w scan).now (h (afterWait w scan) message).err ∈ new ∧
          (c.consumeMessage w message).2 = none ∧
          c.ConsumeClaim w (message :: rest) =
            c.ConsumeClaim (c.consumeMessage w message).1 rest ∧
          (((h (afterWait w scan) message).err = none ∨
              ∃ e, c.cfg.NextTopicInChain message.Topic = Except.error e) →
            ∀ f, Event.failure f ∉ new)) := by
  rcases consumeMessage_cases c w message with
    ⟨e, hscan, hstep⟩ | ⟨scan, hscan, ⟨hnoh, hstep⟩ | ⟨h, w1, hh, _, _⟩⟩
  · refine ⟨[], by simp [hstep], by simp, ?_, ?_, ?_⟩
    · constructor
      · rintro ⟨f, hf⟩; simp at hf
      · rintro ⟨scan, h, err, nt, hs, _⟩
        rw [hscan] at hs; cases hs
    · simp
    · intro scan h hs _
      rw [hscan] at hs; cases hs
  · obtain ⟨sl, hsl, hsleeps⟩ := afterWait_trace w scan
    refine ⟨sl, by simp [hstep, hsl], ?_, ?_, ?_, ?_⟩
    · rw [onlySleeps_countP_isFailure sl hsleeps]; omega
    · constructor
      · rintro ⟨f, hf⟩
        exact absurd hf (onlySleeps_no_failure sl hsleeps f)
      · rintro ⟨scan1, h, err, nt, _, hh, _⟩
        rw [hnoh] at hh; cases hh
    · constructor
      · rintro ⟨f, hf⟩
        exact absurd hf (onlySleeps_no_failure sl hsleeps f)
      · rintro ⟨⟨start, err, hmem⟩, _⟩
        exact absurd hmem (onlySleeps_no_handled sl hsleeps _ _ _)
    · intro scan1 h _ hh
      rw [hnoh] at hh; cases hh
  · obtain ⟨sl, hsl, hsleeps⟩ := afterWait_trace w scan
    obtain ⟨hnone, fs, marked, htr, _, _, _, hcase⟩ :=
      consumeMessage_turn_failure c w message h scan hscan hh
    have hstep : c.consumeMessage w message = ((c.consumeMessage w message).1, none) :=
      Prod.ext rfl hnone
    have hcont : c.ConsumeClaim w (message :: rest) =
        c.ConsumeClaim (c.consumeMessage w message).1 rest :=
      ConsumeClaim_cons_ok c w _ message rest hstep
    have hslF := onlySleeps_no_failure sl hsleeps
    have hslH := onlySleeps_no_handled sl hsleeps
    have hzero := onlySleeps_countP_isFailure sl hsleeps
    have htrace : (c.consumeMessage w message).1.trace = w.trace ++ (sl ++
        [Event.handled message (afterWait w scan).now (h (afterWait w scan) message).err] ++
        fs ++ [Event.marked marked]) := by
      rw [htr, hsl]; simp
    refine ⟨_, htrace, ?_, ?_, ?_, ?_⟩
    · rcases hcase with ⟨hnil, _⟩ | ⟨err, nt, f, hf, _, _⟩
      · rw [hnil]
        simp [List.countP_append, List.countP_cons, hzero, Event.isFailure]
      · rw [hf]
        simp [List.countP_append, List.countP_cons, hzero, Event.isFailure]
    · constructor
      · rintro ⟨f, hf⟩
        rcases hcase with ⟨hnil, _⟩ | ⟨err, nt, f1, _, herr, hnt⟩
        · rw [hnil] at hf
          simp [hslF] at hf
        · exact ⟨scan, h, err, nt, hscan, hh, herr, hnt⟩
      · rintro ⟨scan1, h1, err, nt, hs, hh1, herr, hnt⟩
        rw [hscan] at hs; cases hs
        rw [hh] at hh1; cases hh1
        rcases hcase with ⟨_, hnil | ⟨e, he⟩⟩ | ⟨err1, nt1, f1, hf, _, _⟩
        · rw [herr] at hnil; cases hnil
        · rw [hnt] at he; cases he
        · exact ⟨f1, by rw [hf]; simp⟩
    · constructor
      · rintro ⟨f, hf⟩
        rcases hcase with ⟨hnil, _⟩ | ⟨err, nt, f1, _, herr, hnt⟩
        · rw [hnil] at hf
          simp [hslF] at hf
        · exact ⟨⟨(afterWait w scan).now, err, by rw [herr]; simp⟩, nt, hnt⟩
      · rintro ⟨⟨start, err, hmem⟩, nt, hnt⟩
        rcases hcase with ⟨hnil, hnone1 | ⟨e, he⟩⟩ | ⟨err1, nt1, f1, hf, _, _⟩
        · rw [hnil, hnone1] at hmem
          simp [hslH] at hmem
        · rw [hnt] at he; cases he
        · exact ⟨f1, by rw [hf]; simp⟩
    · intro scan1 h1 hs hh1
      rw [hscan] at hs; cases hs
      rw [hh] at hh1; cases hh1
      refine ⟨by simp, hnone, hcont, ?_⟩
      intro hor f hf
      rcases hcase with ⟨hnil, _⟩ | ⟨err1, nt1, f1, _, herr, hnt⟩
      · rw [hnil] at hf
        simp [hslF] at hf
      · rcases hor with hn | ⟨e, he⟩
        · rw [herr] at hn; cases hn
        · rw [hnt] at he; cases he

/-- C3: when `NextTopicInChain` gives the stage `nextTopic`, the Failure sent
by `sendToFailureChannel` names `nextTopic.Name` as next topic, carries the
error, has the payload and key of the message, and has the headers of the
message, in order, followed by one header `NextTimeRetry` whose value is the
RFC-3339 form of `now + nextTopic.Delay`; in the loop it is sent with the
error the handler returned, `now` being an instant not before the handler
call. -/
theorem failure_next_topic_and_headers (c : consumer) (w : World) (message : ConsumerMessage)
    (err : String) (nextTopic : KafkaTopic)
    (hnext : c.cfg.NextTopicInChain message.Topic = Except.ok nextTopic) :
    (∃ f, (c.sendToFailureChannel w message err).1.trace = w.trace ++ [Event.failure f] ∧
      f.NextTopic = nextTopic.Name ∧ f.Reason = err ∧
      f.Message = message.Value ∧ f.MessageKey = message.Key ∧
      f.MessageHeaders = message.Headers ++
        [⟨"NextTimeRetry", c.time.Format (w.now.Add nextTopic.Delay)⟩]) ∧
    (∃ new, (c.consumeMessage w message).1.trace = w.trace ++ new ∧
      ∀ start herr, Event.handled message start (some herr) ∈ new →
        ∃ (f : Failure) (now : Time), Event.failure f ∈ new ∧ start.ns ≤ now.ns ∧
          f.NextTopic = nextTopic.Name ∧ f.Reason = herr ∧
          f.Message = message.Value ∧ f.MessageKey = message.Key ∧
          f.MessageHeaders = message.Headers ++
            [⟨"NextTimeRetry", c.time.Format (now.Add nextTopic.Delay)⟩]) := by
  constructor
  · unfold consumer.sendToFailureChannel
    rw [hnext]
    exact ⟨_, rfl, rfl, rfl, rfl, rfl, rfl⟩
  · rcases consumeMessage_cases c w message with
      ⟨e, _, hstep⟩ | ⟨scan, _, ⟨_, hstep⟩ | ⟨h, w1, _, hstep, hcase⟩⟩
    · exact ⟨[], by simp [hstep], by intro start herr hmem; simp at hmem⟩
    · obtain ⟨sl, hsl, hsleeps⟩ := afterWait_trace w scan
      refine ⟨sl, by simp [hstep, hsl], ?_⟩
      intro start herr hmem
      obtain ⟨d, hd⟩ := hsleeps _ hmem
      cases hd
    · obtain ⟨sl, hsl, hsleeps⟩ := afterWait_trace w scan
      have hslH : ∀ m start r, Event.handled m start r ∉ sl := by
        intro m start r hf
        obtain ⟨d, hd⟩ := hsleeps _ hf
        cases hd
      rcases hcase with ⟨_, htr⟩ | ⟨err1, _, ⟨e, hn, htr⟩ | ⟨nt, f, m1, hn, hm1, hf, htr⟩⟩
      · refine ⟨sl ++ [Event.handled message (afterWait w scan).now none,
          Event.marked message], by simp [hstep, htr, hsl], ?_⟩
        intro start herr hmem
        simp [hslH] at hmem
      · rw [hnext] at hn; cases hn
      · rw [hnext] at hn
        cases hn
        refine ⟨sl ++ [Event.handled message (afterWait w scan).now (some err1),
          Event.failure f, Event.marked m1], by simp [hstep, htr, hsl], ?_⟩
        intro start herr hmem
        simp [hslH] at hmem
        obtain ⟨hstart, hherr⟩ := hmem
        refine ⟨f, (afterWait w scan).now.Add (h (afterWait w scan) message).elapsed,
          by simp, ?_, ?_⟩
        · rw [hstart]
          simp [Time.Add]
        · subst hf hm1 hherr
          exact ⟨rfl, rfl, rfl, rfl, rfl⟩

/-- C4: when a header named `NextTimeRetry` of a message does not parse,
`ConsumeClaim` returns the parse error of such a header and leaves the world
as it was: no handler call, no mark, no Failure, and none of the later
messages is processed. -/
theorem malformed_retry_header_aborts (c : consumer) (w : World) (message : ConsumerMessage)
    (rest : List ConsumerMessage)
    (hbad : ∃ hd ∈ message.Headers, hd.Key = nextTimeRetry ∧
      ∃ e, c.time.Parse hd.Value = Except.error e) :
    ∃ e, c.ConsumeClaim w (message :: rest) = (w, some e) ∧
      ∃ hd ∈ message.Headers, hd.Key = nextTimeRetry ∧ c.time.Parse hd.Value = Except.error e := by
  obtain ⟨e, hscan, hhd⟩ := scanHeaders_error c.time message.Headers hbad (Time.zero, false)
  exact ⟨e, ConsumeClaim_cons_error c w w message rest e
    (consumeMessage_parse_error c w message e hscan), hhd⟩

/-- C5 (as stated, refuted): with no handler registered and a `NextTimeRetry`
header that does not parse, `ConsumeClaim` returns the parse error, not the
"handler not found" error. -/
theorem no_handler_but_parse_error :
    bareConsumer.handlers.handlerForTopic (bareConsumer.cfg.FindTopicKey garbledMsg.Topic) = none ∧
    (bareConsumer.ConsumeClaim sampleWorld [garbledMsg]).2 =
      some "parsing time: cannot parse as RFC3339" ∧
    (bareConsumer.ConsumeClaim sampleWorld [garbledMsg]).2 ≠
      some ("consumer: handler not found for topic: " ++
        bareConsumer.cfg.FindTopicKey garbledMsg.Topic) := by
  refine ⟨rfl, by decide, by decide⟩

/-- C5 (amended): when no handler is registered for the topic key of a
message, `ConsumeClaim` returns an error at that message, which is the error
of its turn: the "handler not found" error when the `NextTimeRetry` headers of
the message parse, and otherwise the parse error of such a header, the world
being left as it was. The turn has at most slept: no handler call, no Failure,
no mark, and no later message is processed. Consequently no retry row is ever
marked for the message: the failure forwarder, given the Failures of the turn,
leaves the table `rows` as it is, and every row that a stage worker marks
successful or errored in any number of ticks on that table is a row of
`rows`, the table before the message was received. -/
theorem no_handler_aborts (c : consumer) (w : World) (message : ConsumerMessage)
    (rest : List ConsumerMessage)
    (hnone : c.handlers.handlerForTopic (c.cfg.FindTopicKey message.Topic) = none) :
    ∃ w1 e sl, c.ConsumeClaim w (message :: rest) = (w1, some e) ∧
      c.consumeMessage w message = (w1, some e) ∧
      w1.trace = w.trace ++ sl ∧ onlySleeps sl ∧ failuresOf sl = [] ∧
      (headersParse c.time message.Headers →
        e = "consumer: handler not found for topic: " ++ c.cfg.FindTopicKey message.Topic) ∧
      (¬ headersParse c.time message.Headers →
        w1 = w ∧ ∃ hd ∈ message.Headers, hd.Key = nextTimeRetry ∧
          c.time.Parse hd.Value = Except.error e) ∧
      (∀ (cc : kafkaConsumerDbCollection ManagerStore) (lastStageSequence : String → Nat)
          (topic : String) (rc : DBTopicRetry) (ticks : Nat) (st : WorkerState ManagerStore)
          (rows : Table) (nextId : Nat) (now : Time),
        cc.retryManager = Manager lastStageSequence →
        st.store.rows = listenForFailures rows nextId now (failuresOf sl) →
          listenForFailures rows nextId now (failuresOf sl) = rows ∧
          ∃ new, (cc.stageWorker topic rc ticks st).store.repoCalls =
              st.store.repoCalls ++ new ∧
            ∀ call ∈ new, ∀ i, call.markedId = some i → i ∈ rows.map RetryRow.id) := by
  have hworker : ∀ sl : List Event, failuresOf sl = [] →
      ∀ (cc : kafkaConsumerDbCollection ManagerStore) (lastStageSequence : String → Nat)
        (topic : String) (rc : DBTopicRetry) (ticks : Nat) (st : WorkerState ManagerStore)
        (rows : Table) (nextId : Nat) (now : Time),
      cc.retryManager = Manager lastStageSequence →
      st.store.rows = listenForFailures rows nextId now (failuresOf sl) →
        listenForFailures rows nextId now (failuresOf sl) = rows ∧
        ∃ new, (cc.stageWorker topic rc ticks st).store.repoCalls =
            st.store.repoCalls ++ new ∧
          ∀ call ∈ new, ∀ i, call.markedId = some i → i ∈ rows.map RetryRow.id := by
    intro sl hsl cc lastStageSequence topic rc ticks st rows nextId now hrm hrows
    rw [hsl, listenForFailures_nil] at hrows
    rw [hsl, listenForFailures_nil]
    obtain ⟨_, new, hcalls, hmarks⟩ :=
      stageWorker_marks_in_table cc lastStageSequence hrm topic rc ticks st
    rw [hrows] at hmarks
    exact ⟨rfl, new, hcalls, hmarks⟩
  rcases consumeMessage_cases c w message with
    ⟨e, he, hstep⟩ | ⟨scan, hscan, ⟨_, hstep⟩ | ⟨h, w1, hh, _, _⟩⟩
  · refine ⟨w, e, [], ConsumeClaim_cons_error c w w message rest e hstep, hstep, by simp,
      by intro x hx; simp at hx, rfl, ?_, ?_, hworker [] rfl⟩
    · intro hparse
      obtain ⟨r, hr⟩ := scanHeaders_ok c.time message.Headers hparse (Time.zero, false)
      rw [hr] at he; cases he
    · intro hnp
      obtain ⟨e1, he1, hhd⟩ := scanHeaders_error c.time message.Headers
        (not_headersParse c.time message.Headers hnp) (Time.zero, false)
      rw [he] at he1
      cases he1
      exact ⟨rfl, hhd⟩
  · obtain ⟨sl, hsl, hsleeps⟩ := afterWait_trace w scan
    refine ⟨_, _, sl, ConsumeClaim_cons_error c w _ message rest _ hstep, hstep, hsl, hsleeps,
      failuresOf_onlySleeps sl hsleeps, fun _ => rfl, ?_,
      hworker sl (failuresOf_onlySleeps sl hsleeps)⟩
    intro hnp
    obtain ⟨e1, he1, _⟩ := scanHeaders_error c.time message.Headers
      (not_headersParse c.time message.Headers hnp) (Time.zero, false)
    rw [hscan] at he1
    cases he1
  · rw [hnone] at hh; cases hh

/-- C6 (as stated, refuted): a message received at second 50 carries two
valid `NextTimeRetry` headers, the first due at second 100 and the last at
second 1; the handler is invoked at second 50, without any wait. -/
theorem first_retry_header_not_awaited :
    (∃ hd ∈ twoHeaderMsg.Headers, hd.Key = nextTimeRetry ∧
      okConsumer.time.Parse hd.Value = Except.ok ⟨100 * Second⟩) ∧
    sampleWorld.now = ⟨50 * Second⟩ ∧
    (okConsumer.consumeMessage sampleWorld twoHeaderMsg).1.trace =
      [Event.handled twoHeaderMsg ⟨50 * Second⟩ none, Event.marked twoHeaderMsg] := by
  refine ⟨⟨⟨"NextTimeRetry", "1970-01-01T00:01:40Z"⟩, by decide, by decide, rfl⟩, rfl, by decide⟩

/-- C6 (amended): for a message received at `w.now` whose `NextTimeRetry`
headers all parse, with `T` the timestamp of the last of them: when `T` is
after `w.now` the turn first sleeps `T.Sub w.now` (the difference, capped at
the largest duration), sleeps no more, and invokes the handler, if it does,
when that sleep ends; when `T` is not after `w.now` it does not sleep and
invokes the handler at `w.now`; and when the difference fits in a duration
the handler is not invoked before `T`. -/
theorem wait_until_last_retry_header (c : consumer) (w : World) (message : ConsumerMessage)
    (hd : RecordHeader) (T : Time)
    (hparse : headersParse c.time message.Headers)
    (hlast : (retryHeaders message.Headers).getLast? = some hd)
    (hT : c.time.Parse hd.Value = Except.ok T) :
    ∃ new, (c.consumeMessage w message).1.trace = w.trace ++ new ∧
      (T.After w.now = true →
        ∃ tail, new = Event.slept (T.Sub w.now) :: tail ∧
          (∀ e ∈ tail, ∀ d, e ≠ Event.slept d) ∧
          ∀ m start r, Event.handled m start r ∈ new → start = w.now.Add (T.Sub w.now)) ∧
      (T.After w.now = false →
        (∀ e ∈ new, ∀ d, e ≠ Event.slept d) ∧
          ∀ m start r, Event.handled m start r ∈ new → start = w.now) ∧
      (T.ns - w.now.ns ≤ maxDuration →
        ∀ m start r, Event.handled m start r ∈ new → T.ns ≤ start.ns) := by
  have hscan : scanHeaders c.time message.Headers (Time.zero, false) = Except.ok (T, true) := by
    rw [scanHeaders_last c.time message.Headers hparse, hlast]
    simp [hT, Except.map]
  obtain ⟨tl, htr, hnoSleep, hstart⟩ := consumeMessage_after_wait c w message (T, true) hscan
  by_cases hafter : T.After w.now = true
  · have haw : afterWait w (T, true) = Sleep w (T.Sub w.now) := by
      simp [afterWait, hafter]
    have hlt : w.now.ns < T.ns := by simpa [Time.After] using hafter
    have hpos : 0 ≤ T.Sub w.now := Time.Sub_nonneg T w.now hlt
    have hhandled : ∀ m start r, Event.handled m start r ∈ Event.slept (T.Sub w.now) :: tl →
        start = w.now.Add (T.Sub w.now) := by
      intro m start r hm
      simp at hm
      rw [hstart m start r hm, haw]
      simp [Sleep, hpos]
    refine ⟨Event.slept (T.Sub w.now) :: tl, ?_, ?_, ?_, ?_⟩
    · rw [htr, haw]; simp [Sleep]
    · intro _
      exact ⟨tl, rfl, hnoSleep, hhandled⟩
    · intro hno; rw [hno] at hafter; cases hafter
    · intro hfit m start r hm
      rw [hhandled m start r hm]
      rw [Time.Sub_exact T w.now hlt hfit]
      simp [Time.Add]
  · have hafter' : T.After w.now = false := by simpa using hafter
    have haw : afterWait w (T, true) = w := by
      simp [afterWait, hafter']
    have hle : T.ns ≤ w.now.ns := by simpa [Time.After] using hafter'
    rw [haw] at htr hstart
    refine ⟨tl, htr, ?_, ?_, ?_⟩
    · intro h; rw [h] at hafter'; cases hafter'
    · intro _
      exact ⟨hnoSleep, hstart⟩
    · intro _ m start r hm
      rw [hstart m start r hm]
      exact hle

/-! ## The retry repository: properties -/

/-- C7: on a table with a primary key and a batch identifier not yet in the
table, `GetMessagesForRetry(topic, sequence, interval)` called at `now`
returns `min 250 m` retries of distinct rows, `m` being the number of rows
that satisfy the lease predicate before the call; every returned retry is
such a row, which after the call carries the batch identifier and
`retry_started_at = now`; a row that fails the predicate is neither returned
nor changed; and the call neither adds nor removes rows. -/
theorem getMessagesForRetry_leases_up_to_250 (rows : Table) (batchId : UUID) (now : Time)
    (topic : String) (sequence : Nat) (interval : Duration)
    (hids : uniqueIds rows) (hfresh : ∀ r ∈ rows, r.batch_id ≠ some batchId) :
    (Repository.GetMessagesForRetry rows batchId now topic sequence interval).2.length =
      min 250 (rows.countP (fun r => decide (leaseEligible topic sequence interval now r))) ∧
    ((Repository.GetMessagesForRetry rows batchId now topic sequence interval).2.map
      Retry.ID).Nodup ∧
    (∀ ret ∈ (Repository.GetMessagesForRetry rows batchId now topic sequence interval).2,
      ∃ r ∈ rows, leaseEligible topic sequence interval now r ∧ ret = r.toRetry ∧
        ∃ r1 ∈ (Repository.GetMessagesForRetry rows batchId now topic sequence interval).1,
          r1 = { r with batch_id := some batchId, retry_started_at := some now }) ∧
    (∀ r ∈ rows, ¬ leaseEligible topic sequence interval now r →
      r ∈ (Repository.GetMessagesForRetry rows batchId now topic sequence interval).1 ∧
      ∀ ret ∈ (Repository.GetMessagesForRetry rows batchId now topic sequence interval).2,
        ret.ID ≠ r.id) ∧
    (Repository.GetMessagesForRetry rows batchId now topic sequence interval).1.map RetryRow.id =
      rows.map RetryRow.id := by
  rw [GetMessagesForRetry_eq rows batchId now topic sequence interval hids hfresh]
  have hsub := leasedRows_sublist rows now topic sequence interval
  refine ⟨?_, ?_, ?_, ?_, ?_⟩
  · simp only [List.length_map, leasedRows, List.length_take, ← List.countP_eq_length_filter]
    congr 1
    apply List.countP_congr
    intro r _
    have := batchCandidate_iff topic sequence interval now r
    by_cases he : leaseEligible topic sequence interval now r
    · rw [this.mpr he]; simp [he]
    · have hf : batchCandidate topic (now.Add (consideredStaleAfter * -1)) sequence
          (now.Add (interval * -1)) r = false := by
        rw [Bool.eq_false_iff]; exact fun h => he (this.mp h)
      rw [hf]; simp [he]
  · simp only [List.map_map]
    have : (RetryRow.id : RetryRow → Nat) = Retry.ID ∘ RetryRow.toRetry := by
      funext r; rfl
    rw [← this]
    exact (hsub.map RetryRow.id).nodup hids
  · intro ret hret
    obtain ⟨r, hr, hrr⟩ := List.mem_map.mp hret
    refine ⟨r, hsub.subset hr, leasedRows_eligible rows now topic sequence interval r hr,
      hrr.symm, _, ?_, rfl⟩
    simp only [List.mem_map]
    exact ⟨r, hsub.subset hr, by simp [hr, RetryRow.lease]⟩
  · intro r hr hnot
    have hnl : r ∉ leasedRows rows now topic sequence interval :=
      fun h => hnot (leasedRows_eligible rows now topic sequence interval r h)
    constructor
    · simp only [List.mem_map]
      exact ⟨r, hr, by simp [hnl]⟩
    · intro ret hret hid
      obtain ⟨r1, hr1, hrr⟩ := List.mem_map.mp hret
      have hid1 : r1.id = r.id := by rw [← hid, ← hrr]; rfl
      have := mem_of_map_id_eq hids (hsub.subset hr1) hr hid1
      exact hnl (this ▸ hr1)
  · simp only [List.map_map]
    apply List.map_congr_left
    intro r _
    by_cases hm : r ∈ leasedRows rows now topic sequence interval <;>
      simp [hm, RetryRow.lease]

/-- C8 (as stated, refuted): the row of scenario S4 (batch set, lease started
fifteen minutes ago and not finished, no attempt, topic `product`), half a
second after its preload, is not returned by the next
`GetMessagesForRetry("product", 0, 1s)`. -/
theorem stale_lease_not_returned_when_just_updated :
    preloadedRow.topic = "product" ∧ preloadedRow.attempts = 0 ∧
    preloadedRow.batch_id = some 41 ∧
    preloadedRow.retry_started_at = some ⟨oneHour.ns - 15 * Minute⟩ ∧
    preloadedRow.retry_finished_at = none ∧
    (Repository.GetMessagesForRetry [preloadedRow] 42 oneHour "product" 0 (1 * Second)).2 =
      [] := by
  decide

/-- C8 (amended): a row whose lease has been held for more than ten minutes
without finishing is returned by `GetMessagesForRetry` for its topic and its
attempts, and carries the new batch afterwards, provided it is neither
successful nor deadlettered, was last updated at least `interval` ago, and at
most 250 rows of the table satisfy the lease predicate. -/
theorem stale_lease_is_returned (rows : Table) (batchId : UUID) (now : Time)
    (interval : Duration) (r : RetryRow)
    (hids : uniqueIds rows) (hr : r ∈ rows)
    (hheld : r.batch_id ≠ none) (hfin : r.retry_finished_at = none)
    (hstale : ∃ s, r.retry_started_at = some s ∧ s.ns < now.ns - 10 * Minute)
    (hsucc : r.successful = false) (hdead : r.deadlettered = false)
    (hupd : r.updated_at.ns ≤ now.ns - interval)
    (hcount : rows.countP
      (fun x => decide (leaseEligible r.topic r.attempts interval now x)) ≤ 250) :
    r.toRetry ∈
      (Repository.GetMessagesForRetry rows batchId now r.topic r.attempts interval).2 ∧
    { r with batch_id := some batchId, retry_started_at := some now } ∈
      (Repository.GetMessagesForRetry rows batchId now r.topic r.attempts interval).1 := by
  have he : leaseEligible r.topic r.attempts interval now r :=
    ⟨rfl, rfl, hsucc, hdead, hupd, Or.inr ⟨hheld, hfin, hstale⟩⟩
  exact leased_row_returned rows batchId now r.topic r.attempts interval hids r hr
    (mem_leasedRows_of_eligible rows now r.topic r.attempts interval r hr he hcount)

/-- C9 (the code at the failing input): a row failed at stage 0 and was marked
errored at second 11; the stage-1 worker leased it at second 20 (batch 101)
and its mark failed, so the table is unchanged. The row keeps its batch, but a
later `GetMessagesForRetry` with a new batch identifier, at any time and for
any stage and interval, returns nothing and leaves the table as it is. -/
theorem finished_row_lease_never_reclaimed (now : Time) (sequence : Nat)
    (interval : Duration) :
    (∃ r ∈ leasedTwiceTable, r.id = 1 ∧ r.attempts = 1 ∧ r.batch_id = some 101 ∧
      r.retry_started_at = some ⟨20 * Second⟩ ∧ r.retry_finished_at = some ⟨11 * Second⟩ ∧
      r.successful = false ∧ r.deadlettered = false) ∧
    Repository.GetMessagesForRetry leasedTwiceTable 102 now "product" sequence interval =
      (leasedTwiceTable, []) := by
  have htable : leasedTwiceTable =
      [{ id := 1, topic := "product", payload_json := "\x7b\"foo\":\"bar\"\x7d",
         payload_headers := [], payload_key := "", kafka_offset := 7, kafka_partition := 0,
         attempts := 1, batch_id := some 101, retry_started_at := some ⟨20 * Second⟩,
         retry_finished_at := some ⟨11 * Second⟩, last_error := "something bad happened",
         errored := true, successful := false, deadlettered := false, created_at := ⟨0⟩,
         updated_at := ⟨11 * Second⟩ }] := by
    decide
  constructor
  · rw [htable]
    exact ⟨_, List.mem_singleton.mpr rfl, rfl, rfl, rfl, rfl, rfl, rfl, rfl⟩
  · rw [htable]
    simp [Repository.GetMessagesForRetry, Repository.createEventBatch,
      Repository.getCreatedEventBatch, batchCandidate]

/-- C10 (as stated, refuted): the only row of the table was leased at stage 0
and marked errored at second 11 with `attempts = 1` and `deadlettered = false`;
one second later `GetMessagesForRetry("product", 1, 5s)` does not return it. -/
theorem errored_row_not_returned_before_interval :
    erroredOnceTable = Repository.MarkRetryErrored
      (Repository.GetMessagesForRetry publishedTable 100 ⟨10 * Second⟩ "product" 0
        (1 * Second)).1 ⟨11 * Second⟩ erroredRetry "something bad happened" ∧
    erroredRetry.Attempts = 0 + 1 ∧ erroredRetry.Deadlettered = false ∧
    erroredOnceTable.map (fun r => (r.id, r.attempts, r.batch_id, r.deadlettered)) =
      [(erroredRetry.ID, 1, none, false)] ∧
    (Repository.GetMessagesForRetry erroredOnceTable 101 ⟨12 * Second⟩ "product" 1
      (5 * Second)).2 = [] := by
  refine ⟨rfl, rfl, rfl, by decide, by decide⟩

/-- C10 (amended): let a retry be returned by `GetMessagesForRetry(topic, k, ·)`
and let `MarkRetryErrored` be applied to it at `t2` with `attempts = k + 1` and
`deadlettered = false`. Then its row has `batch_id` NULL and `attempts = k + 1`;
`GetMessagesForRetry(topic, k + 1, interval)` called at a time `now` with
`t2 ≤ now − interval` returns it when at most 250 rows are eligible; and
`GetMessagesForRetry(topic, k, ·)` does not return it, at any time. -/
theorem errored_row_moves_to_next_stage (rows : Table) (batchId : UUID) (t1 : Time)
    (topic : String) (k : Nat) (interval1 : Duration) (ret upd : Retry) (t2 : Time)
    (err : String)
    (hids : uniqueIds rows) (hfresh : ∀ r ∈ rows, r.batch_id ≠ some batchId)
    (hret : ret ∈ (Repository.GetMessagesForRetry rows batchId t1 topic k interval1).2)
    (hupdId : upd.ID = ret.ID) (hupdAtt : upd.Attempts = k + 1)
    (hupdDead : upd.Deadlettered = false) :
    (∃ r2 ∈ Repository.MarkRetryErrored
        (Repository.GetMessagesForRetry rows batchId t1 topic k interval1).1 t2 upd err,
      r2.id = ret.ID ∧ r2.batch_id = none ∧ r2.attempts = k + 1) ∧
    (∀ (b3 : UUID) (now : Time) (interval : Duration), t2.ns ≤ now.ns - interval →
      (Repository.MarkRetryErrored
        (Repository.GetMessagesForRetry rows batchId t1 topic k interval1).1 t2 upd err).countP
        (fun x => decide (leaseEligible topic (k + 1) interval now x)) ≤ 250 →
      ∃ ret3 ∈ (Repository.GetMessagesForRetry
          (Repository.MarkRetryErrored
            (Repository.GetMessagesForRetry rows batchId t1 topic k interval1).1 t2 upd err)
          b3 now topic (k + 1) interval).2, ret3.ID = ret.ID) ∧
    (∀ (b3 : UUID) (now : Time) (interval : Duration),
      ∀ ret3 ∈ (Repository.GetMessagesForRetry
          (Repository.MarkRetryErrored
            (Repository.GetMessagesForRetry rows batchId t1 topic k interval1).1 t2 upd err)
          b3 now topic k interval).2, ret3.ID ≠ ret.ID) := by
  -- the row behind `ret`
  obtain ⟨r, hr, hretr, hor⟩ :=
    (mem_GetMessagesForRetry rows batchId t1 topic k interval1 hids ret).mp hret
  have hl : r ∈ leasedRows rows t1 topic k interval1 := by
    rcases hor with h | h
    · exact h
    · exact absurd h (hfresh r hr)
  obtain ⟨htopic, _, hsucc, _, _, _⟩ := leasedRows_eligible rows t1 topic k interval1 r hl
  have hrid : r.id = ret.ID := by rw [hretr]; rfl
  have hlease := (leased_row_returned rows batchId t1 topic k interval1 hids r hr hl).2
  -- the table after the mark
  generalize hrows1 : (Repository.GetMessagesForRetry rows batchId t1 topic k interval1).1 = rows1
    at hlease ⊢
  have hids1 : uniqueIds rows1 := by
    unfold uniqueIds
    rw [← hrows1]
    unfold Repository.GetMessagesForRetry
    rw [createEventBatch_ids]
    exact hids
  generalize hrows2 : Repository.MarkRetryErrored rows1 t2 upd err = rows2
  have hids2 : uniqueIds rows2 := by
    unfold uniqueIds
    rw [← hrows2, MarkRetryErrored_ids]
    exact hids1
  -- the row after the mark
  have hmarked : ∃ r2 ∈ rows2, r2.id = ret.ID ∧ r2.batch_id = none ∧ r2.attempts = k + 1 ∧
      r2.topic = topic ∧ r2.successful = false ∧ r2.deadlettered = false ∧
      r2.updated_at = t2 := by
    refine ⟨(r.lease batchId t1).markErrored t2 upd err, ?_,
      hrid, rfl, hupdAtt, htopic, hsucc, hupdDead, rfl⟩
    rw [← hrows2]
    unfold Repository.MarkRetryErrored
    refine List.mem_map.mpr ⟨r.lease batchId t1, hlease, ?_⟩
    have : (r.lease batchId t1).id = upd.ID := by rw [hupdId, ← hrid]; rfl
    rw [if_pos this]
  obtain ⟨r2, hr2, hid2, hb2, hatt2, htop2, hsucc2, hdead2, hupd2⟩ := hmarked
  refine ⟨⟨r2, hr2, hid2, hb2, hatt2⟩, ?_, ?_⟩
  · intro b3 now interval htime hcount
    have he : leaseEligible topic (k + 1) interval now r2 :=
      ⟨htop2, hatt2, hsucc2, hdead2, (by rw [hupd2]; exact htime), Or.inl hb2⟩
    have hl2 := mem_leasedRows_of_eligible rows2 now topic (k + 1) interval r2 hr2 he hcount
    exact ⟨r2.toRetry,
      (leased_row_returned rows2 b3 now topic (k + 1) interval hids2 r2 hr2 hl2).1, hid2⟩
  · intro b3 now interval ret3 hret3 hid3
    obtain ⟨r3, hr3, hret3r, hor3⟩ :=
      (mem_GetMessagesForRetry rows2 b3 now topic k interval hids2 ret3).mp hret3
    have hsame : r3 = r2 := by
      apply mem_of_map_id_eq hids2 hr3 hr2
      rw [hid2, ← hid3, hret3r]; rfl
    rw [hsame] at hor3
    rcases hor3 with h | h
    · have := (leasedRows_eligible rows2 now topic k interval r2 h).2.1
      omega
    · rw [hb2] at h; cases h

/-! ## The stage worker: properties -/

/-- C11: in a tick of `processMessagesForRetry` with the retry manager of the
specification and a registered handler `h`, every row of the leased batch is
handled by `h` exactly once, in order, and gets exactly one mark, chosen by
what `h` returned on it: on nil the worker calls `MarkSuccessful` and the
repository is called with the row's attempts incremented by one; on an error
the worker calls `MarkErrored` and the repository is called with
`errored = true`, the attempts incremented by one and
`deadlettered = (attempts + 1 ≥ last stage sequence)`; the table after the tick
is the leased table with these marks applied. -/
theorem stage_worker_marks_each_row_once (cc : kafkaConsumerDbCollection ManagerStore)
    (lastStageSequence : String → Nat) (st : WorkerState ManagerStore) (topic : String)
    (rc : DBTopicRetry) (h : Handler)
    (hrm : cc.retryManager = Manager lastStageSequence)
    (hh : cc.handlerMap.handlerForTopic rc.Key = some h) :
    (batchOutcomes cc h st.world (tickBatch st topic rc).2).length =
      (tickBatch st topic rc).2.length ∧
    (cc.processMessagesForRetry st topic rc).world.trace =
      st.world.trace ++ List.zipWith (handledEvent cc) (tickBatch st topic rc).2
        (batchOutcomes cc h st.world (tickBatch st topic rc).2) ∧
    (cc.processMessagesForRetry st topic rc).calls =
      st.calls ++ ManagerCall.getBatch topic rc.Sequence rc.Interval ::
        List.zipWith markCall (tickBatch st topic rc).2
          (batchOutcomes cc h st.world (tickBatch st topic rc).2) ∧
    (cc.processMessagesForRetry st topic rc).store.repoCalls =
      st.store.repoCalls ++ RepoCall.getMessagesForRetry topic rc.Sequence rc.Interval ::
        List.zipWith (repoMark lastStageSequence) (tickBatch st topic rc).2
          (batchOutcomes cc h st.world (tickBatch st topic rc).2) ∧
    (cc.processMessagesForRetry st topic rc).store.rows =
      markedRows lastStageSequence (tickBatch st topic rc).1 (tickBatch st topic rc).2
        (batchOutcomes cc h st.world (tickBatch st topic rc).2) := by
  have htick : cc.processMessagesForRetry st topic rc =
      cc.processBatch h (tickBatch st topic rc).2
        { world := st.world
          store := { rows := (tickBatch st topic rc).1, nextBatch := st.store.nextBatch + 1
                     repoCalls := st.store.repoCalls ++
                       [RepoCall.getMessagesForRetry topic rc.Sequence rc.Interval] }
          calls := st.calls ++ [ManagerCall.getBatch topic rc.Sequence rc.Interval] } := by
    unfold kafkaConsumerDbCollection.processMessagesForRetry
    rw [hrm]
    simp only [Manager, hh, tickBatch]
  obtain ⟨htrace, hcalls⟩ := processBatch_spec cc h (tickBatch st topic rc).2
    { world := st.world
      store := { rows := (tickBatch st topic rc).1, nextBatch := st.store.nextBatch + 1
                 repoCalls := st.store.repoCalls ++
                   [RepoCall.getMessagesForRetry topic rc.Sequence rc.Interval] }
      calls := st.calls ++ [ManagerCall.getBatch topic rc.Sequence rc.Interval] }
  obtain ⟨hrepo, hrows⟩ := processBatch_store cc lastStageSequence hrm h
    (tickBatch st topic rc).2
    { world := st.world
      store := { rows := (tickBatch st topic rc).1, nextBatch := st.store.nextBatch + 1
                 repoCalls := st.store.repoCalls ++
                   [RepoCall.getMessagesForRetry topic rc.Sequence rc.Interval] }
      calls := st.calls ++ [ManagerCall.getBatch topic rc.Sequence rc.Interval] }
  refine ⟨batchOutcomes_length cc h _ _, ?_, ?_, ?_, ?_⟩
  · rw [htick]; exact htrace
  · rw [htick, hcalls]; simp
  · rw [htick, hrepo]; simp
  · rw [htick]; exact hrows

/-- C14: in a tick of `processMessagesForRetry` in which `GetBatch` returns an
error, or in which no handler is registered for the topic key of the stage, no
handler is called and no mark is called (the only call on the retry manager is
`GetBatch`); the tick ends, and the worker goes on to sleep and to its next
tick. -/
theorem failed_tick_marks_nothing {σ : Type} (cc : kafkaConsumerDbCollection σ)
    (st : WorkerState σ) (topic : String) (rc : DBTopicRetry) (ticks : Nat)
    (hbad : (∃ e, (cc.retryManager.GetBatch st.store st.world.now topic rc.Sequence
        rc.Interval).2 = Except.error e) ∨
      cc.handlerMap.handlerForTopic rc.Key = none) :
    (cc.processMessagesForRetry st topic rc).world = st.world ∧
    (cc.processMessagesForRetry st topic rc).calls =
      st.calls ++ [ManagerCall.getBatch topic rc.Sequence rc.Interval] ∧
    (cc.processMessagesForRetry st topic rc).store =
      (cc.retryManager.GetBatch st.store st.world.now topic rc.Sequence rc.Interval).1 ∧
    cc.stageWorker topic rc (ticks + 1) st =
      cc.stageWorker topic rc ticks
        { world := Sleep st.world cc.dbRetryPollInterval
          store := (cc.retryManager.GetBatch st.store st.world.now topic rc.Sequence
            rc.Interval).1
          calls := st.calls ++ [ManagerCall.getBatch topic rc.Sequence rc.Interval] } := by
  have htick : cc.processMessagesForRetry st topic rc =
      { world := st.world
        store := (cc.retryManager.GetBatch st.store st.world.now topic rc.Sequence
          rc.Interval).1
        calls := st.calls ++ [ManagerCall.getBatch topic rc.Sequence rc.Interval] } := by
    unfold kafkaConsumerDbCollection.processMessagesForRetry
    rcases hbad with ⟨e, he⟩ | hnone
    · simp only [he]
    · simp only [hnone]
      cases (cc.retryManager.GetBatch st.store st.world.now topic rc.Sequence
        rc.Interval).2 <;> rfl
  refine ⟨by rw [htick], by rw [htick], by rw [htick], ?_⟩
  simp only [kafkaConsumerDbCollection.stageWorker, htick]

/-! ## The life of the retry table and the start of the collections: properties -/

/-- C12: in every state reached from the empty table by `PublishFailure`,
`GetMessagesForRetry`, `DeleteSuccessful`, and the marks that stage workers
make on the rows of their batches within the timeout of their tick, no row is
both successful and deadlettered; the states reached include those in which a
lease is reclaimed through the staleness clause while its first holder is
still processing. -/
theorem flags_exclusive_in_reachable_states (start : Time) (ops : List RepoOp) (s : RepoState)
    (hrun : runOps (RepoState.empty start) ops = some s) :
    ∀ r ∈ s.rows, ¬ (r.successful = true ∧ r.deadlettered = true) :=
  (sound_runOps ops (RepoState.empty start) s (sound_empty start) hrun).2.1

/-- C13 (the code at the failing input): `kafkaConsumerDbCollection.start`
returns an error and launches nothing when `MainTopics()` is nil or empty, and
so does `kafkaConsumerCollection.start` when `ConsumableTopics` is nil; but
when `ConsumableTopics` is empty and not nil, `kafkaConsumerCollection.start`
returns nil and launches the failure forwarder. -/
theorem start_without_topics (cfg : StartConfig) (connectToKafka : kafkaConnector) :
    ((kafkaConsumerDbCollection.start { cfg with MainTopics := none } connectToKafka).err ≠
        none ∧
      (kafkaConsumerDbCollection.start { cfg with MainTopics := none }
        connectToKafka).launched = []) ∧
    ((kafkaConsumerDbCollection.start { cfg with MainTopics := some [] } connectToKafka).err ≠
        none ∧
      (kafkaConsumerDbCollection.start { cfg with MainTopics := some [] }
        connectToKafka).launched = []) ∧
    ((kafkaConsumerCollection.start { cfg with ConsumableTopics := none } connectToKafka).err ≠
        none ∧
      (kafkaConsumerCollection.start { cfg with ConsumableTopics := none }
        connectToKafka).launched = []) ∧
    ((kafkaConsumerCollection.start { cfg with ConsumableTopics := some [] }
        connectToKafka).err = none ∧
      (kafkaConsumerCollection.start { cfg with ConsumableTopics := some [] }
        connectToKafka).launched = [Launch.failureForwarder]) := by
  refine ⟨⟨?_, ?_⟩, ⟨?_, ?_⟩, ⟨?_, ?_⟩, ⟨?_, ?_⟩⟩ <;>
    simp [kafkaConsumerDbCollection.start, kafkaConsumerCollection.start,
      kafkaConsumerCollection.startTopics]

/-- C15 (the code at the failing input): with the host `kafka:9092` and the
retry host `kafka-retry:9092`, `kafkaConsumerCollection.start` on the topics
`[product.retry1, product]` connects the group of the main topic `product`
with the retry host; on `[product, product.retry1]` it connects the main topic
with the host and the retry topic with the retry host. -/
theorem main_topic_after_retry_topic_gets_retry_host :
    (kafkaConsumerCollection.start
        { sampleStartConfig with ConsumableTopics := some [retryTopic, mainTopic] }
        okConnector).launched =
      [Launch.consumerGroup ["product.retry1"] ["kafka-retry:9092"],
       Launch.consumerGroup ["product"] ["kafka-retry:9092"],
       Launch.failureForwarder] ∧
    (kafkaConsumerCollection.start
        { sampleStartConfig with ConsumableTopics := some [mainTopic, retryTopic] }
        okConnector).launched =
      [Launch.consumerGroup ["product"] ["kafka:9092"],
       Launch.consumerGroup ["product.retry1"] ["kafka-retry:9092"],
       Launch.failureForwarder] := by
  constructor <;> decide

/-! ## The retry time across a hop: properties -/

/-- C16: let `sendToFailureChannel` write the `NextTimeRetry` header of a
message at `w.now` for a stage with delay `nextTopic.Delay`, the `time`
package working in a zone of whole minutes in which `w.now + Delay` has a
four-digit year. On the redelivered message, `ConsumeClaim` reads back
`w.now + Delay` cut down to a whole second: an instant not after
`w.now + Delay` and less than one second before it; and a redelivery received
by then is handled at that instant, hence up to (but less than) one second
before `w.now + Delay`. -/
theorem retry_time_read_back_in_whole_seconds (c : consumer) (zoneMinutes : Int) (w : World)
    (message redelivered : ConsumerMessage) (err : String) (nextTopic : KafkaTopic)
    (htime : c.time = rfc3339 zoneMinutes)
    (hz1 : -1440 < zoneMinutes) (hz2 : zoneMinutes < 1440)
    (hnext : c.cfg.NextTopicInChain message.Topic = Except.ok nextTopic)
    (hparse : headersParse c.time message.Headers)
    (hrange : inRFC3339Range zoneMinutes (w.now.Add nextTopic.Delay))
    (hredelivered : redelivered.Headers = (c.sendToFailureChannel w message err).2.Headers) :
    scanHeaders c.time redelivered.Headers (Time.zero, false) =
      Except.ok ((w.now.Add nextTopic.Delay).truncateToSecond, true) ∧
    (w.now.Add nextTopic.Delay).truncateToSecond.ns ≤ (w.now.Add nextTopic.Delay).ns ∧
    (w.now.Add nextTopic.Delay).ns - Second <
      (w.now.Add nextTopic.Delay).truncateToSecond.ns ∧
    (∀ w2 : World, w2.now.ns ≤ (w.now.Add nextTopic.Delay).truncateToSecond.ns →
      (w.now.Add nextTopic.Delay).truncateToSecond.ns - w2.now.ns ≤ maxDuration →
      ∃ new, (c.consumeMessage w2 redelivered).1.trace = w2.trace ++ new ∧
        ∀ m start r, Event.handled m start r ∈ new →
          start = (w.now.Add nextTopic.Delay).truncateToSecond) := by
  have hheaders : redelivered.Headers = message.Headers ++
      [⟨nextTimeRetry, c.time.Format (w.now.Add nextTopic.Delay)⟩] := by
    rw [hredelivered]
    unfold consumer.sendToFailureChannel
    rw [hnext]
  have hback : c.time.Parse (c.time.Format (w.now.Add nextTopic.Delay)) =
      Except.ok (w.now.Add nextTopic.Delay).truncateToSecond := by
    rw [htime]
    exact parse_format_rfc3339 zoneMinutes _ hz1 hz2 hrange
  have hparse2 : headersParse c.time redelivered.Headers := by
    intro hd hmem hkey
    rw [hheaders] at hmem
    rcases List.mem_append.mp hmem with h | h
    · exact hparse hd h hkey
    · simp at h
      subst h
      exact ⟨_, hback⟩
  have hscan : scanHeaders c.time redelivered.Headers (Time.zero, false) =
      Except.ok ((w.now.Add nextTopic.Delay).truncateToSecond, true) := by
    rw [scanHeaders_last c.time redelivered.Headers hparse2, hheaders,
      retryHeaders_append_last]
    simp only [hback, Except.map]
  obtain ⟨hb1, hb2⟩ := truncateToSecond_bounds (w.now.Add nextTopic.Delay)
  exact ⟨hscan, hb1, hb2, fun w2 hle hfit =>
    handled_at_retry_time c w2 redelivered _ hscan hle hfit⟩

/-! ## The primary consumer: the properties at sample inputs -/

/-- C1 at a sample input: a message due at second 100 on the retry topic is
received at second 50, its handler failing, followed by another message: the
turn sleeps, calls the handler at second 100, sends a Failure and marks the
message. -/
theorem markMessage_once_after_handler_witness :
    headersParse sampleConsumer.time retryMsg.Headers ∧
    sampleConsumer.handlers.handlerForTopic (sampleConsumer.cfg.FindTopicKey retryMsg.Topic) =
      some failingHandler ∧
    (sampleConsumer.consumeMessage sampleWorld retryMsg).1.trace.map Event.isMark =
      [false, false, false, true] ∧
    ∃ (scan : Time × Bool) (sl fs later : List Event) (marked : ConsumerMessage),
      scanHeaders sampleConsumer.time retryMsg.Headers (Time.zero, false) = Except.ok scan ∧
      (afterWait sampleWorld scan).trace = sampleWorld.trace ++ sl ∧ onlySleeps sl ∧
      (∀ e ∈ fs, ∃ f, e = Event.failure f) ∧
      (sampleConsumer.consumeMessage sampleWorld retryMsg).2 = none ∧
      (sampleConsumer.consumeMessage sampleWorld retryMsg).1.trace =
        sampleWorld.trace ++ (sl ++
          [Event.handled retryMsg (afterWait sampleWorld scan).now
            (failingHandler (afterWait sampleWorld scan) retryMsg).err] ++
          fs ++ [Event.marked marked]) ∧
      (sl ++
        [Event.handled retryMsg (afterWait sampleWorld scan).now
          (failingHandler (afterWait sampleWorld scan) retryMsg).err] ++
        fs ++ [Event.marked marked]).countP Event.isMark = 1 ∧
      marked.Topic = retryMsg.Topic ∧ marked.Partition = retryMsg.Partition ∧
      marked.Offset = retryMsg.Offset ∧
      sampleConsumer.ConsumeClaim sampleWorld [retryMsg] =
        ((sampleConsumer.consumeMessage sampleWorld retryMsg).1, none) ∧
      sampleConsumer.ConsumeClaim sampleWorld (retryMsg :: [exampleMsg]) =
        sampleConsumer.ConsumeClaim (sampleConsumer.consumeMessage sampleWorld retryMsg).1
          [exampleMsg] ∧
      (sampleConsumer.ConsumeClaim sampleWorld (retryMsg :: [exampleMsg])).1.trace =
        (sampleConsumer.consumeMessage sampleWorld retryMsg).1.trace ++ later := by
  have hp : headersParse sampleConsumer.time retryMsg.Headers := by
    intro hd hmem _
    simp [retryMsg] at hmem
    subst hmem
    exact ⟨⟨100 * Second⟩, rfl⟩
  exact ⟨hp, rfl, by decide,
    markMessage_once_after_handler sampleConsumer sampleWorld retryMsg [exampleMsg]
      failingHandler hp rfl⟩

/-- C2 at a sample input: the message of the tests is received at second 50,
its handler fails and `product` has the successor `product.retry1`: one
Failure is sent, for `product.retry1`. -/
theorem failure_iff_handler_error_and_successor_witness :
    scanHeaders sampleConsumer.time exampleMsg.Headers (Time.zero, false) =
      Except.ok (Time.zero, false) ∧
    sampleConsumer.handlers.handlerForTopic (sampleConsumer.cfg.FindTopicKey exampleMsg.Topic) =
      some failingHandler ∧
    (failingHandler (afterWait sampleWorld (Time.zero, false)) exampleMsg).err =
      some "something bad happened" ∧
    sampleConsumer.cfg.NextTopicInChain exampleMsg.Topic =
      Except.ok ⟨"product.retry1", 10 * Second, false⟩ ∧
    (failuresOf (sampleConsumer.consumeMessage sampleWorld exampleMsg).1.trace).map
      (fun f => (f.Topic, f.NextTopic, f.Reason)) =
      [("product", "product.retry1", "something bad happened")] ∧
    ∃ new : List Event,
      (sampleConsumer.consumeMessage sampleWorld exampleMsg).1.trace = sampleWorld.trace ++ new ∧
      new.countP Event.isFailure ≤ 1 ∧ ∃ f, Event.failure f ∈ new := by
  obtain ⟨new, htr, hcount, hiff, _⟩ :=
    failure_iff_handler_error_and_successor sampleConsumer sampleWorld exampleMsg []
  exact ⟨rfl, rfl, rfl, rfl, by decide, new, htr, hcount,
    hiff.mpr ⟨(Time.zero, false), failingHandler, "something bad happened",
      ⟨"product.retry1", 10 * Second, false⟩, rfl, rfl, rfl, rfl⟩⟩

/-- C3 at a sample input: the message of the tests fails at second 50 and the
next stage is `product.retry1`, ten seconds later. -/
theorem failure_next_topic_and_headers_witness :
    sampleConsumer.cfg.NextTopicInChain exampleMsg.Topic =
      Except.ok ⟨"product.retry1", 10 * Second, false⟩ ∧
    ∃ f, (sampleConsumer.sendToFailureChannel sampleWorld exampleMsg "boom").1.trace =
        sampleWorld.trace ++ [Event.failure f] ∧
      f.NextTopic = "product.retry1" ∧ f.Reason = "boom" ∧
      f.Message = exampleMsg.Value ∧ f.MessageKey = exampleMsg.Key ∧
      f.MessageHeaders = exampleMsg.Headers ++
        [⟨"NextTimeRetry", sampleConsumer.time.Format (sampleWorld.now.Add (10 * Second))⟩] :=
  ⟨rfl, (failure_next_topic_and_headers sampleConsumer sampleWorld exampleMsg "boom"
    ⟨"product.retry1", 10 * Second, false⟩ rfl).1⟩

/-- C4 at a sample input: a message whose header reads `tomorrow`, followed by
another message. -/
theorem malformed_retry_header_aborts_witness :
    (∃ hd ∈ garbledMsg.Headers, hd.Key = nextTimeRetry ∧
      ∃ e, sampleConsumer.time.Parse hd.Value = Except.error e) ∧
    ∃ e, sampleConsumer.ConsumeClaim sampleWorld (garbledMsg :: [exampleMsg]) =
        (sampleWorld, some e) ∧
      ∃ hd ∈ garbledMsg.Headers, hd.Key = nextTimeRetry ∧
        sampleConsumer.time.Parse hd.Value = Except.error e := by
  have hbad : ∃ hd ∈ garbledMsg.Headers, hd.Key = nextTimeRetry ∧
      ∃ e, sampleConsumer.time.Parse hd.Value = Except.error e :=
    ⟨⟨"NextTimeRetry", "tomorrow"⟩, by decide, rfl, _, rfl⟩
  exact ⟨hbad, malformed_retry_header_aborts sampleConsumer sampleWorld garbledMsg
    [exampleMsg] hbad⟩

/-- C5 (amended) at a sample input: a consumer without handlers receives at
second 50 a message due at second 100, followed by another message: it sleeps
until second 100 and returns the "handler not found" error. -/
theorem no_handler_aborts_witness :
    bareConsumer.handlers.handlerForTopic (bareConsumer.cfg.FindTopicKey retryMsg.Topic) = none ∧
    bareConsumer.ConsumeClaim sampleWorld (retryMsg :: [exampleMsg]) =
      (⟨⟨100 * Second⟩, [Event.slept (50 * Second)]⟩,
        some "consumer: handler not found for topic: product") ∧
    ∃ w1 e sl, bareConsumer.ConsumeClaim sampleWorld (retryMsg :: [exampleMsg]) = (w1, some e) ∧
      bareConsumer.consumeMessage sampleWorld retryMsg = (w1, some e) ∧
      w1.trace = sampleWorld.trace ++ sl ∧ onlySleeps sl ∧ failuresOf sl = [] ∧
      (headersParse bareConsumer.time retryMsg.Headers →
        e = "consumer: handler not found for topic: " ++
          bareConsumer.cfg.FindTopicKey retryMsg.Topic) ∧
      (¬ headersParse bareConsumer.time retryMsg.Headers →
        w1 = sampleWorld ∧ ∃ hd ∈ retryMsg.Headers, hd.Key = nextTimeRetry ∧
          bareConsumer.time.Parse hd.Value = Except.error e) ∧
      (∀ (cc : kafkaConsumerDbCollection ManagerStore) (lastStageSequence : String → Nat)
          (topic : String) (rc : DBTopicRetry) (ticks : Nat) (st : WorkerState ManagerStore)
          (rows : Table) (nextId : Nat) (now : Time),
        cc.retryManager = Manager lastStageSequence →
        st.store.rows = listenForFailures rows nextId now (failuresOf sl) →
          listenForFailures rows nextId now (failuresOf sl) = rows ∧
          ∃ new, (cc.stageWorker topic rc ticks st).store.repoCalls =
              st.store.repoCalls ++ new ∧
            ∀ call ∈ new, ∀ i, call.markedId = some i → i ∈ rows.map RetryRow.id) :=
  ⟨rfl, by decide, no_handler_aborts bareConsumer sampleWorld retryMsg [exampleMsg] rfl⟩

/-- C6 (amended) at a sample input: a message due at second 100 is received
at second 50; the handler is invoked at second 100. -/
theorem wait_until_last_retry_header_witness :
    headersParse okConsumer.time retryMsg.Headers ∧
    (retryHeaders retryMsg.Headers).getLast? =
      some ⟨"NextTimeRetry", "1970-01-01T00:01:40Z"⟩ ∧
    okConsumer.time.Parse "1970-01-01T00:01:40Z" = Except.ok ⟨100 * Second⟩ ∧
    ∃ new, (okConsumer.consumeMessage sampleWorld retryMsg).1.trace = sampleWorld.trace ++ new ∧
      ∀ m start r, Event.handled m start r ∈ new → (100 * Second : Int) ≤ start.ns := by
  have hp : headersParse okConsumer.time retryMsg.Headers := by
    intro hd hmem _
    simp [retryMsg] at hmem
    subst hmem
    exact ⟨⟨100 * Second⟩, rfl⟩
  obtain ⟨new, htr, _, _, hfit⟩ := wait_until_last_retry_header okConsumer sampleWorld retryMsg
    ⟨"NextTimeRetry", "1970-01-01T00:01:40Z"⟩ ⟨100 * Second⟩ hp (by decide) rfl
  exact ⟨hp, by decide, rfl, new, htr, hfit (by decide)⟩

/-! ## The retry repository: the properties at sample inputs -/

/-- C7 at a sample input: of two rows, one satisfies the predicate at the end
of the first hour. -/
theorem getMessagesForRetry_leases_up_to_250_witness :
    uniqueIds twoRowTable ∧ (∀ r ∈ twoRowTable, r.batch_id ≠ some 42) ∧
    (Repository.GetMessagesForRetry twoRowTable 42 oneHour "product" 0 (1 * Second)).2.length =
      min 250 (twoRowTable.countP
        (fun r => decide (leaseEligible "product" 0 (1 * Second) oneHour r))) ∧
    (Repository.GetMessagesForRetry twoRowTable 42 oneHour "product" 0 (1 * Second)).1.map
      RetryRow.id = twoRowTable.map RetryRow.id := by
  have hids : uniqueIds twoRowTable := by unfold uniqueIds; decide
  have hfresh : ∀ r ∈ twoRowTable, r.batch_id ≠ some 42 := by decide
  have h := getMessagesForRetry_leases_up_to_250 twoRowTable 42 oneHour "product" 0
    (1 * Second) hids hfresh
  exact ⟨hids, hfresh, h.1, h.2.2.2.2⟩

/-- C8 (amended) at a sample input: the row of scenario S4, twenty minutes
after its preload. -/
theorem stale_lease_is_returned_witness :
    uniqueIds [settledRow] ∧ settledRow.batch_id ≠ none ∧
    settledRow.retry_finished_at = none ∧
    (∃ s, settledRow.retry_started_at = some s ∧ s.ns < oneHour.ns - 10 * Minute) ∧
    settledRow.updated_at.ns ≤ oneHour.ns - 1 * Second ∧
    settledRow.toRetry ∈
      (Repository.GetMessagesForRetry [settledRow] 42 oneHour "product" 0 (1 * Second)).2 ∧
    { settledRow with batch_id := some 42, retry_started_at := some oneHour } ∈
      (Repository.GetMessagesForRetry [settledRow] 42 oneHour "product" 0 (1 * Second)).1 := by
  have hids : uniqueIds [settledRow] := by unfold uniqueIds; decide
  have hstale : ∃ s, settledRow.retry_started_at = some s ∧ s.ns < oneHour.ns - 10 * Minute :=
    ⟨_, rfl, by decide⟩
  have hupd : settledRow.updated_at.ns ≤ oneHour.ns - 1 * Second := by decide
  have h := stale_lease_is_returned [settledRow] 42 oneHour (1 * Second) settledRow hids
    (List.mem_singleton.mpr rfl) (by decide) rfl hstale rfl rfl hupd (by decide)
  exact ⟨hids, by decide, rfl, hstale, hupd, h.1, h.2⟩

/-- C10 (amended) at a sample input: the published row, leased at second 10
and marked errored at second 11. -/
theorem errored_row_moves_to_next_stage_witness :
    uniqueIds publishedTable ∧ (∀ r ∈ publishedTable, r.batch_id ≠ some 100) ∧
    leasedRetry ∈ (Repository.GetMessagesForRetry publishedTable 100 ⟨10 * Second⟩ "product" 0
      (1 * Second)).2 ∧
    (∃ r2 ∈ erroredOnceTable, r2.id = leasedRetry.ID ∧ r2.batch_id = none ∧
      r2.attempts = 0 + 1) ∧
    (∀ ret3 ∈ (Repository.GetMessagesForRetry erroredOnceTable 101 ⟨20 * Second⟩ "product" 0
      (1 * Second)).2, ret3.ID ≠ leasedRetry.ID) := by
  have hids : uniqueIds publishedTable := by unfold uniqueIds; decide
  have hfresh : ∀ r ∈ publishedTable, r.batch_id ≠ some 100 := by decide
  have hret : leasedRetry ∈ (Repository.GetMessagesForRetry publishedTable 100 ⟨10 * Second⟩
      "product" 0 (1 * Second)).2 := by decide
  have h := errored_row_moves_to_next_stage publishedTable 100 ⟨10 * Second⟩ "product" 0
    (1 * Second) leasedRetry erroredRetry ⟨11 * Second⟩ "something bad happened" hids hfresh
    hret rfl rfl rfl
  exact ⟨hids, hfresh, hret, h.1, h.2.2 101 ⟨20 * Second⟩ (1 * Second)⟩

/-! ## The stage worker and the life of the table: the properties at sample inputs -/

/-- C11 at a sample input: a tick at second 50 on the table with the one
published row, the handler failing: the repository is called with the row's
attempts at 1, errored and, the last stage sequence being 2, not
deadlettered. -/
theorem stage_worker_marks_each_row_once_witness :
    sampleDbCollection.retryManager = Manager (fun _ => 2) ∧
    sampleDbCollection.handlerMap.handlerForTopic firstStage.Key = some failingHandler ∧
    (tickBatch sampleWorkerState "product" firstStage).2 = [leasedRetry] ∧
    (sampleDbCollection.processMessagesForRetry sampleWorkerState "product"
        firstStage).store.repoCalls =
      sampleWorkerState.store.repoCalls ++
        RepoCall.getMessagesForRetry "product" firstStage.Sequence firstStage.Interval ::
          List.zipWith (repoMark (fun _ => 2)) (tickBatch sampleWorkerState "product"
            firstStage).2
            (batchOutcomes sampleDbCollection failingHandler sampleWorkerState.world
              (tickBatch sampleWorkerState "product" firstStage).2) ∧
    (sampleDbCollection.processMessagesForRetry sampleWorkerState "product"
        firstStage).store.repoCalls =
      [RepoCall.getMessagesForRetry "product" 0 (1 * Second),
       RepoCall.markRetryErrored erroredRetry "something bad happened"] :=
  ⟨rfl, rfl, by decide,
    (stage_worker_marks_each_row_once sampleDbCollection (fun _ => 2) sampleWorkerState
      "product" firstStage failingHandler rfl rfl).2.2.2.1,
    by decide⟩

/-- C14 at a sample input: a tick of a collection without handlers. -/
theorem failed_tick_marks_nothing_witness :
    ((∃ e, (bareDbCollection.retryManager.GetBatch sampleWorkerState.store
        sampleWorkerState.world.now "product" firstStage.Sequence
        firstStage.Interval).2 = Except.error e) ∨
      bareDbCollection.handlerMap.handlerForTopic firstStage.Key = none) ∧
    (bareDbCollection.processMessagesForRetry sampleWorkerState "product" firstStage).world =
      sampleWorkerState.world ∧
    (bareDbCollection.processMessagesForRetry sampleWorkerState "product" firstStage).calls =
      sampleWorkerState.calls ++
        [ManagerCall.getBatch "product" firstStage.Sequence firstStage.Interval] :=
  ⟨Or.inr rfl,
    (failed_tick_marks_nothing bareDbCollection sampleWorkerState "product" firstStage 0
      (Or.inr rfl)).1,
    (failed_tick_marks_nothing bareDbCollection sampleWorkerState "product" firstStage 0
      (Or.inr rfl)).2.1⟩

/-- C12 at a sample input: a lease reclaimed eleven minutes after it was
taken, while its first holder is still processing; the second holder marks
the row successful. -/
theorem flags_exclusive_in_reachable_states_witness :
    runOps (RepoState.empty ⟨0⟩) reclaimOps = some reclaimEnd ∧
    reclaimEnd.rows.map (fun r => (r.id, r.batch_id, r.successful)) = [(1, some 101, true)] ∧
    ∀ r ∈ reclaimEnd.rows, ¬ (r.successful = true ∧ r.deadlettered = true) :=
  ⟨by decide, by decide,
    flags_exclusive_in_reachable_states ⟨0⟩ reclaimOps reclaimEnd (by decide)⟩

/-! ## The retry time across a hop: the property at a sample input -/

/-- C16 at a sample input: the message of the tests fails at second 50.5 and
the next stage is ten seconds later; the time read back is second 60, half a
second before second 60.5. -/
theorem retry_time_read_back_in_whole_seconds_witness :
    utcConsumer.time = rfc3339 0 ∧
    utcConsumer.cfg.NextTopicInChain exampleMsg.Topic =
      Except.ok ⟨"product.retry1", 10 * Second, false⟩ ∧
    headersParse utcConsumer.time exampleMsg.Headers ∧
    inRFC3339Range 0 (halfSecondWorld.now.Add (10 * Second)) ∧
    scanHeaders utcConsumer.time redeliveredMsg.Headers (Time.zero, false) =
      Except.ok ((halfSecondWorld.now.Add (10 * Second)).truncateToSecond, true) ∧
    (halfSecondWorld.now.Add (10 * Second)).truncateToSecond = ⟨60 * Second⟩ ∧
    (halfSecondWorld.now.Add (10 * Second)).ns = 60 * Second + 500000000 := by
  have hparse : headersParse utcConsumer.time exampleMsg.Headers := by
    intro hd hmem _
    simp [exampleMsg] at hmem
  have hrange : inRFC3339Range 0 (halfSecondWorld.now.Add (10 * Second)) := by decide
  have h := retry_time_read_back_in_whole_seconds utcConsumer 0 halfSecondWorld exampleMsg
    redeliveredMsg "something bad happened" ⟨"product.retry1", 10 * Second, false⟩ rfl
    (by decide) (by decide) rfl hparse hrange rfl
  exact ⟨rfl, rfl, hparse, hrange, h.1, by decide, by decide⟩

end KafkaConsumer
